import Mathlib

/-!
# NonOS kernel core: a shallow embedding and its checked properties

The development follows the sources of the repository:

* `code/network/post.h`, `code/network/post.cc` : mail boxes, the post office,
  segmented payloads, stop-and-wait emission, the connection layer and the
  duplicate-CONN filter;
* `code/network/migrate.cc` : the fields that `SendProcess` writes and
  `ListenProcess` reads;
* `code/filesys/filehdr.h`, `code/filesys/filehdr.cc` : the on-disk file header
  with its direct entries and its single "undirected" (indirect) block;
* `code/filesys/filesys.cc` : the user-level open-file table
  (`WriteUser`, `ReadUser`, `SeekUser`) and the calls on names;
* `code/userprog/frameprovider.cc`, `code/userprog/addrspace.h`,
  `code/userprog/addrspace.cc` : frames, address spaces and thread stacks;
* `code/userprog/userthread.cc`, `code/userprog/exception.cc`,
  `code/threads/synch.cc` : user semaphores, process join, strings of the user.

Conventions of the embedding.

* C `int` values are `Int`; byte counts that the sources keep in `unsigned`
  or that are lengths of buffers are `Nat`.  A byte is a `Nat` (below 256 when
  it comes from an encoder).  The sums of file sizes in `Extend` and
  `WriteUser` are taken on 32 bits (`wrapInt`), as the `int` of the sources.
* A function that can fail an `ASSERT`, index outside a table, or block for
  ever on an empty synchronised list, returns `Except Fault`; the error is
  that abort or dead wait.
* Locks and conditions do not appear: every operation is one atomic step of a
  sequential state machine, and what the other threads do while an operation
  waits is an explicit argument (the packets that arrive).
* Compile-time constants that live in headers outside the sources at hand
  (`SectorSize`, `NumSectors`, `MaxPacketSize`, `PageSize`, `NumPhysPages`,
  `NumTotalRegs`) are parameters.
-/

namespace NonOS

/-! ## Post office: data model (`post.h`) -/

/-- A byte of a buffer. -/
abbrev Byte := Nat

/-- The enum `MessageType` of `post.h`. -/
inductive MessageType where
  | ACK
  | DATA
  | CONN
  | FIN
  deriving DecidableEq, Repr

/-- The box every machine listens on for CONN messages (`#define LISTEN_BOX 0`). -/
def LISTEN_BOX : Int := 0

/-- The bound on emissions of one segment (`#define MAXREEMISSIONS 50`). -/
def MAXREEMISSIONS : Nat := 50

/-- The network-level header (`PacketHeader` of `network.h`): destination
machine, source machine, byte count of the packet body. -/
structure PacketHeader where
  to_ : Int
  from_ : Int
  length : Nat
  deriving DecidableEq, Repr

/-- The class `MailHeader`: destination box, reply box, message length, type
and message id. -/
structure MailHeader where
  to_ : Int
  from_ : Int
  length : Nat
  messageType : MessageType
  messageId : Int
  deriving DecidableEq, Repr

/-- The size in bytes of a `MailHeader`: five 4-byte fields. -/
def sizeofMailHeader : Nat := 20

/-- The class `Payload`. -/
structure Payload where
  msgSize : Int
  nbSegments : Nat
  remainder : Nat
  pktHdr : PacketHeader
  mailHdr : MailHeader
  deriving DecidableEq, Repr

/-- The class `Mail`: the two headers and one full segment of data. -/
structure Mail where
  pktHdr : PacketHeader
  mailHdr : MailHeader
  data : List Byte
  deriving DecidableEq, Repr

/-- The class `MailBox`, without its lock and condition. -/
structure MailBox where
  messages : List Mail
  waitedId : Int
  ackId : Int
  deriving DecidableEq, Repr

/-- The class `Connection`. -/
structure Connection where
  pIn : Payload
  pOut : Payload
  deriving DecidableEq, Repr

/-- The class `ConnReminder`. -/
structure ConnReminder where
  netFrom : Int
  netTo : Int
  mailFrom : Int
  mailTo : Int
  connTimestamp : Int
  deriving DecidableEq, Repr

/-- What travels on the wire: the packet header, then the mail header, then
the body (`MaxSegmentSize` bytes for a data packet, nothing for an ACK). -/
structure Packet where
  pktHdr : PacketHeader
  mailHdr : MailHeader
  body : List Byte
  deriving DecidableEq, Repr

/-! ## Duplicate-CONN filter (`PostOffice::ValidConn`) -/

/-- The predicate of the lambda given to `std::find_if` in `ValidConn`. -/
def ConnReminder.matchesExisting (conn existingConn : ConnReminder) : Bool :=
  existingConn.netFrom == conn.netFrom &&
  existingConn.netTo == conn.netTo &&
  existingConn.mailFrom == conn.mailFrom &&
  existingConn.mailTo == conn.mailTo &&
  decide (existingConn.connTimestamp ≥ conn.connTimestamp)

/-- `PostOffice::ValidConn` on the list `connections`: the verdict and the list
after the call. -/
def ValidConn (connections : List ConnReminder) (conn : ConnReminder) :
    Bool × List ConnReminder :=
  match connections.find? (fun existingConn => conn.matchesExisting existingConn) with
  | none => (true, connections ++ [conn])
  | some _ => (false, connections)

/-- The remembered set after a sequence of calls of `ValidConn`, starting from
`connections`. -/
def ValidConn.run (connections : List ConnReminder) : List ConnReminder → List ConnReminder
  | [] => connections
  | conn :: rest => ValidConn.run (ValidConn connections conn).2 rest

/-- Two reminders have the same `(netFrom, netTo, mailFrom, mailTo)`. -/
def ConnReminder.sameKey (a b : ConnReminder) : Prop :=
  a.netFrom = b.netFrom ∧ a.netTo = b.netTo ∧ a.mailFrom = b.mailFrom ∧ a.mailTo = b.mailTo

/-- The C-NoDup invariant on a remembered list: of two entries with the same
key, the one further down the list (accepted later) has the strictly greater
timestamp. -/
def ConnNoDup (connections : List ConnReminder) : Prop :=
  connections.Pairwise (fun a b => a.sameKey b → a.connTimestamp < b.connTimestamp)

/-! ## File system: disk, free map and integers on disk -/

/-- Why an operation did not return: the assertion that failed, a store or
load outside an array, or a model loop that ran out of fuel. -/
inductive Fault where
  | assertBitRange
  | assertSectorRange
  | assertOughtToBeMarked
  | assertSizeIs4
  | assertBoxRange
  | assertNotC
  | assertNotConn
  | assertPayload
  | outOfBounds
  | blocked
  | outOfFuel
  | divideByZero
  | assertAvailFrames
  | assertNumPhysPages
  deriving DecidableEq, Repr

deriving instance DecidableEq for Except

/-- The macro `divRoundUp(n, s)` of `utility.h`:
`((n) / (s)) + ((((n) % (s)) > 0) ? 1 : 0)` with C division and remainder. -/
def divRoundUp (n s : Int) : Int :=
  Int.tdiv n s + (if Int.tmod n s > 0 then 1 else 0)

/-- The macro `divRoundDown(n, s)` of `utility.h`: `(n) / (s)` with C division. -/
def divRoundDown (n s : Int) : Int :=
  Int.tdiv n s

/-- The value of an `int` read as `unsigned int` (32 bits). -/
def toU32 (x : Int) : Nat :=
  (x % 4294967296).toNat

/-- The value of an `unsigned int` read as `int` (32 bits, two's complement). -/
def ofU32 (u : Nat) : Int :=
  if u % 4294967296 < 2147483648 then ((u % 4294967296 : Nat) : Int)
  else ((u % 4294967296 : Nat) : Int) - 4294967296

/-- The value that a sum or difference `x` of `int`s has in an `int` (32 bits,
two's complement): `x` itself from `-2^31` to `2^31 - 1`, wrapped around
outside. -/
def wrapInt (x : Int) : Int :=
  ofU32 (toU32 x)

/-- The four bytes of an `int` in memory, little-endian. -/
def encodeInt (x : Int) : List Byte :=
  [toU32 x % 256, toU32 x / 256 % 256, toU32 x / 65536 % 256, toU32 x / 16777216 % 256]

/-- The `int` held in the four bytes at `off`, little-endian. -/
def decodeInt (b : List Byte) (off : Nat) : Int :=
  ofU32 (b.getD off 0 % 256 + 256 * (b.getD (off + 1) 0 % 256) +
    65536 * (b.getD (off + 2) 0 % 256) + 16777216 * (b.getD (off + 3) 0 % 256))

/-- The first `n` bytes of `data`, with zeros where `data` is too short. -/
def padTake (n : Nat) (data : List Byte) : List Byte :=
  (data ++ List.replicate n 0).take n

/-- `bcopy(src + srcOff, dst + dstOff, n)` on buffers held as lists. -/
def bcopy (src : List Byte) (srcOff : Nat) (dst : List Byte) (dstOff n : Nat) : List Byte :=
  dst.take dstOff ++ padTake n (src.drop srcOff) ++ dst.drop (dstOff + n)

/-- The content of the simulated disk: the bytes of each sector. -/
abbrev Disk := Nat → List Byte

/-- Modelled from the spec: `read_sector(i)` of the disk (`synchdisk.cc` and
`disk.cc` are not among the sources): an `S`-byte transfer of sector `i`, which
must lie in `[0, N)`. -/
def ReadSector (N : Nat) (disk : Disk) (sector : Int) : Except Fault (List Byte) :=
  if 0 ≤ sector ∧ sector < N then .ok (disk sector.toNat) else .error Fault.assertSectorRange

/-- Modelled from the spec: `write_sector(i)` of the disk: an `S`-byte transfer
into sector `i`, which must lie in `[0, N)`. -/
def WriteSector (S N : Nat) (disk : Disk) (sector : Int) (data : List Byte) :
    Except Fault Disk :=
  if 0 ≤ sector ∧ sector < N then
    .ok (fun t => if t = sector.toNat then padTake S data else disk t)
  else .error Fault.assertSectorRange

/-- Modelled from the spec: `BitMap` (`bitmap.cc` is not among the sources), the
bounded set over `[0, numBits)` with `Find/Mark/Clear/Test`. -/
structure BitMap where
  bits : List Bool
  deriving DecidableEq, Repr

/-- Modelled from the spec: `BitMap::Test`, which asserts that the bit is in range. -/
def BitMap.Test (m : BitMap) (which : Int) : Except Fault Bool :=
  if 0 ≤ which ∧ which < m.bits.length then .ok (m.bits.getD which.toNat false)
  else .error Fault.assertBitRange

/-- Modelled from the spec: `BitMap::Mark`. -/
def BitMap.Mark (m : BitMap) (which : Int) : Except Fault BitMap :=
  if 0 ≤ which ∧ which < m.bits.length then .ok ⟨m.bits.set which.toNat true⟩
  else .error Fault.assertBitRange

/-- Modelled from the spec: `BitMap::Clear`. -/
def BitMap.Clear (m : BitMap) (which : Int) : Except Fault BitMap :=
  if 0 ≤ which ∧ which < m.bits.length then .ok ⟨m.bits.set which.toNat false⟩
  else .error Fault.assertBitRange

/-- The scan of `BitMap::Find` over the bits: the index of the first clear
bit and the bits with that one set. -/
def findMark : List Bool → Option (Nat × List Bool)
  | [] => none
  | false :: rest => some (0, true :: rest)
  | true :: rest =>
    match findMark rest with
    | some (i, rest1) => some (i + 1, true :: rest1)
    | none => none

/-- Modelled from the spec: `BitMap::Find`: the first clear bit, which is
marked as a side effect, or `-1` when every bit is set. -/
def BitMap.Find (m : BitMap) : Int × BitMap :=
  match findMark m.bits with
  | some (i, bits1) => ((i : Int), ⟨bits1⟩)
  | none => (-1, m)

/-- The number of clear bits (`BitMap::NumClear`). -/
def BitMap.NumClear (m : BitMap) : Nat :=
  (m.bits.filter (fun b => !b)).length

/-! ## File header (`filehdr.h`, `filehdr.cc`) -/

/-- `NumDirect`: `(SectorSize - 3 * sizeof(int)) / sizeof(int)`. -/
def NumDirect (S : Nat) : Nat := (S - 3 * 4) / 4

/-- The largest file length of the spec: `(D-1)*S + (D*(S/4))*S`. -/
def MaxLen (S : Nat) : Nat := (NumDirect S - 1) * S + (NumDirect S * (S / 4)) * S

/-- The values of `enum fileType`. -/
def DATA_FILE : Int := 0

/-- The value `DIRECTORY` of `enum fileType`. -/
def DIRECTORY : Int := 1

/-- The value `ROOT` of `enum fileType`. -/
def ROOT : Int := 2

/-- The class `FileHeader`: exactly the four private fields. -/
structure FileHeader where
  type : Int
  numBytes : Int
  numSectors : Int
  dataSectors : List Int
  deriving DecidableEq, Repr

/-- The read `dataSectors[i]`; an index outside the table is a fault. -/
def getEntry (ds : List Int) (i : Int) : Except Fault Int :=
  if 0 ≤ i ∧ i < ds.length then .ok (ds.getD i.toNat 0) else .error Fault.outOfBounds

/-- The store `dataSectors[i] = v`; an index outside the table is a fault. -/
def setEntry (ds : List Int) (i : Int) (v : Int) : Except Fault (List Int) :=
  if 0 ≤ i ∧ i < ds.length then .ok (ds.set i.toNat v) else .error Fault.outOfBounds

/-- The bytes of a file header as `WriteBack` hands them to the disk. -/
def FileHeader.encode (h : FileHeader) : List Byte :=
  encodeInt h.type ++ encodeInt h.numBytes ++ encodeInt h.numSectors ++
    (h.dataSectors.map encodeInt).flatten

/-- The file header that `FetchFrom` finds in the bytes of a sector. -/
def FileHeader.decode (S : Nat) (b : List Byte) : FileHeader :=
  { type := decodeInt b 0
    numBytes := decodeInt b 4
    numSectors := decodeInt b 8
    dataSectors := (List.range (NumDirect S)).map (fun i => decodeInt b (12 + 4 * i)) }

/-- `FileHeader::FetchFrom`. -/
def FileHeader.FetchFrom (S N : Nat) (disk : Disk) (sector : Int) : Except Fault FileHeader := do
  let b ← ReadSector N disk sector
  pure (FileHeader.decode S b)

/-- `FileHeader::WriteBack`. -/
def FileHeader.WriteBack (S N : Nat) (disk : Disk) (h : FileHeader) (sector : Int) :
    Except Fault Disk :=
  WriteSector S N disk sector h.encode

/-- `FileHeader::FileLength`. -/
def FileHeader.FileLength (h : FileHeader) : Int := h.numBytes

/-- `FileHeader::GetNumBytes`. -/
def FileHeader.GetNumBytes (h : FileHeader) : Int := h.numBytes

/-- `FileHeader::IsDataFile`. -/
def FileHeader.IsDataFile (h : FileHeader) : Bool := h.type == DATA_FILE

/-- The sector loop of `OpenFile::ReadAt`: `count` sectors from file sector `i`
on, each found through `byteToSector`. -/
def readSectors (S N : Nat) (disk : Disk) (byteToSector : Int → Except Fault Int) :
    Nat → Int → Except Fault (List Byte)
  | 0, _ => pure []
  | count + 1, i => do
    let sector ← byteToSector (i * S)
    let b ← ReadSector N disk sector
    let rest ← readSectors S N disk byteToSector count (i + 1)
    pure (padTake S b ++ rest)

/-- Modelled from the spec: `OpenFile::ReadAt` (`openfile.cc` is not among the
sources): read up to `numBytes` bytes at `position`, clipped to the file
length, from whole sectors located by `ByteToSector`.  The bytes read are the
result; their count is what the C function returns. -/
def readAtWith (S N : Nat) (disk : Disk) (byteToSector : Int → Except Fault Int)
    (fileLength numBytes position : Int) : Except Fault (List Byte) :=
  if numBytes ≤ 0 ∨ position ≥ fileLength then pure []
  else do
    let numBytes := if position + numBytes > fileLength then fileLength - position else numBytes
    let firstSector := divRoundDown position S
    let lastSector := divRoundDown (position + numBytes - 1) S
    let numSectors := 1 + lastSector - firstSector
    let buf ← readSectors S N disk byteToSector numSectors.toNat firstSector
    pure (padTake numBytes.toNat (buf.drop (position - firstSector * S).toNat))

/-- `FileHeader::ByteToSector`, with the recursion through the file of the
undirected block bounded by `fuel` (each level divides the offset by about
`S / 4`, so a 32-bit offset needs only a few levels). -/
def ByteToSector.go (S N : Nat) (disk : Disk) : Nat → FileHeader → Int → Except Fault Int
  | 0, _, _ => .error Fault.outOfFuel
  | fuel + 1, h, offset =>
    let entry : Nat := toU32 (Int.tdiv offset S)
    if entry < NumDirect S - 1 then getEntry h.dataSectors entry
    else do
      let undirected ← getEntry h.dataSectors ((NumDirect S : Int) - 1)
      let fileHdr ← FileHeader.FetchFrom S N disk undirected
      let newOffset : Nat := toU32 (offset - ((S * (NumDirect S - 1) : Nat) : Int))
      let bytes ← readAtWith S N disk (ByteToSector.go S N disk fuel fileHdr)
        fileHdr.FileLength 4 (ofU32 (4 * (newOffset / S)))
      if bytes.length = 4 then pure (decodeInt bytes 0)
      else .error Fault.assertSizeIs4

/-- `FileHeader::ByteToSector`. -/
def FileHeader.ByteToSector (S N : Nat) (disk : Disk) (h : FileHeader) (offset : Int) :
    Except Fault Int :=
  ByteToSector.go S N disk 64 h offset

/-- Modelled from the spec: the class `OpenFile`: the header read when the file
was opened and the seek position. -/
structure OpenFile where
  hdr : FileHeader
  seekPosition : Int
  deriving DecidableEq, Repr

/-- Modelled from the spec: `OpenFile::OpenFile(sector)`: fetch the header,
seek position 0. -/
def OpenFile.new (S N : Nat) (disk : Disk) (sector : Int) : Except Fault OpenFile := do
  let hdr ← FileHeader.FetchFrom S N disk sector
  pure { hdr := hdr, seekPosition := 0 }

/-- Modelled from the spec: `OpenFile::Length`. -/
def OpenFile.Length (f : OpenFile) : Int := f.hdr.FileLength

/-- Modelled from the spec: `OpenFile::Seek`. -/
def OpenFile.Seek (f : OpenFile) (position : Int) : OpenFile :=
  { f with seekPosition := position }

/-- Modelled from the spec: `OpenFile::GetSeek`. -/
def OpenFile.GetSeek (f : OpenFile) : Int := f.seekPosition

/-- Modelled from the spec: `OpenFile::ReadAt`. -/
def OpenFile.ReadAt (S N : Nat) (disk : Disk) (f : OpenFile) (numBytes position : Int) :
    Except Fault (List Byte) :=
  readAtWith S N disk (f.hdr.ByteToSector S N disk) f.hdr.FileLength numBytes position

/-- The write-back loop of `OpenFile::WriteAt`: the sectors of `buf`, one by
one, into the file sectors from `i` on. -/
def writeSectors (S N : Nat) (h : FileHeader) : Nat → Int → List Byte → Disk → Except Fault Disk
  | 0, _, _, disk => pure disk
  | count + 1, i, buf, disk => do
    let sector ← h.ByteToSector S N disk (i * S)
    let disk1 ← WriteSector S N disk sector (buf.take S)
    writeSectors S N h count (i + 1) (buf.drop S) disk1

/-- Modelled from the spec: `OpenFile::WriteAt`: write up to `numBytes` bytes of
`from_` at `position`, clipped to the file length; the first and the last
sector are read first when they are only partly overwritten.  The result is
the count written and the disk. -/
def OpenFile.WriteAt (S N : Nat) (disk : Disk) (f : OpenFile) (from_ : List Byte)
    (numBytes position : Int) : Except Fault (Int × Disk) :=
  let fileLength := f.hdr.FileLength
  if numBytes ≤ 0 ∨ position ≥ fileLength then pure (0, disk)
  else do
    let numBytes := if position + numBytes > fileLength then fileLength - position else numBytes
    let firstSector := divRoundDown position S
    let lastSector := divRoundDown (position + numBytes - 1) S
    let numSectors := 1 + lastSector - firstSector
    let buf : List Byte := List.replicate (numSectors.toNat * S) 0
    let firstAligned : Bool := position == firstSector * S
    let lastAligned : Bool := position + numBytes == (lastSector + 1) * S
    let buf ← if !firstAligned then do
        let b ← OpenFile.ReadAt S N disk f S (firstSector * S)
        pure (bcopy b 0 buf 0 b.length)
      else pure buf
    let buf ← if !lastAligned && (firstSector != lastSector || firstAligned) then do
        let b ← OpenFile.ReadAt S N disk f S (lastSector * S)
        pure (bcopy b 0 buf ((lastSector - firstSector).toNat * S) b.length)
      else pure buf
    let buf := bcopy from_ 0 buf (position - firstSector * S).toNat numBytes.toNat
    let disk1 ← writeSectors S N f.hdr numSectors.toNat firstSector buf disk
    pure (numBytes, disk1)

/-- Modelled from the spec: `OpenFile::Read`: `ReadAt` at the seek position,
which then advances by the count read. -/
def OpenFile.Read (S N : Nat) (disk : Disk) (f : OpenFile) (numBytes : Int) :
    Except Fault (List Byte × OpenFile) := do
  let bytes ← OpenFile.ReadAt S N disk f numBytes f.seekPosition
  pure (bytes, { f with seekPosition := f.seekPosition + bytes.length })

/-- Modelled from the spec: `OpenFile::Write`: `WriteAt` at the seek position,
which then advances by the count written. -/
def OpenFile.Write (S N : Nat) (disk : Disk) (f : OpenFile) (from_ : List Byte)
    (numBytes : Int) : Except Fault (Int × OpenFile × Disk) := do
  let (result, disk1) ← OpenFile.WriteAt S N disk f from_ numBytes f.seekPosition
  pure (result, { f with seekPosition := f.seekPosition + result }, disk1)

/-- The loop of `Extend` over the direct entries: `count` times, take a sector
with `Find` and store it in `dataSectors[i]`; `false` is the early
`return FALSE` when `Find` gives `-1`. -/
def Extend.allocDirect : Nat → Int → BitMap → List Int → Except Fault (Bool × BitMap × List Int)
  | 0, _, freeMap, ds => pure (true, freeMap, ds)
  | count + 1, i, freeMap, ds => do
    let (sector, freeMap1) := freeMap.Find
    let ds1 ← setEntry ds i sector
    if sector == -1 then pure (false, freeMap1, ds1)
    else Extend.allocDirect count (i + 1) freeMap1 ds1

/-- `FileHeader::ExtendUndirectedBlock`: the verdict, the free map and the
header of the undirected block after the call. -/
def FileHeader.ExtendUndirectedBlock (S : Nat) (freeMap : BitMap) (h : FileHeader)
    (newSectors : Int) : Except Fault (Bool × BitMap × FileHeader) :=
  let newNumTotalSectors := divRoundUp (h.numBytes + newSectors * 4) S
  if newNumTotalSectors > (NumDirect S : Int) then pure (false, freeMap, h)
  else do
    let (ok, freeMap1, ds1) ←
      Extend.allocDirect (newNumTotalSectors - h.numSectors).toNat h.numSectors freeMap
        h.dataSectors
    if !ok then pure (false, freeMap1, { h with dataSectors := ds1 })
    else pure (true, freeMap1,
      { h with dataSectors := ds1, numSectors := newNumTotalSectors,
               numBytes := h.numBytes + newSectors * 4 })

/-- The last loop of `Extend`: `count` times, take a sector with `Find` and
write its number, four bytes, at the seek position of the file of the
undirected block; `false` is the early `return FALSE`. -/
def Extend.writePointers (S N : Nat) :
    Nat → BitMap → Disk → OpenFile → Except Fault (Bool × BitMap × Disk × OpenFile)
  | 0, freeMap, disk, file => pure (true, freeMap, disk, file)
  | count + 1, freeMap, disk, file => do
    let (sector, freeMap1) := freeMap.Find
    if sector == -1 then pure (false, freeMap1, disk, file)
    else do
      let (_, file1, disk1) ← OpenFile.Write S N disk file (encodeInt sector) 4
      Extend.writePointers S N count freeMap1 disk1 file1

/-- `FileHeader::Extend`: the verdict, the free map, the disk and the header
after the call.  On `return FALSE` the free map and the header keep what the
call had already changed.  The sum `numBytes + newSize` is the sum of two
`int`s, on 32 bits. -/
def FileHeader.Extend (S N : Nat) (freeMap : BitMap) (disk : Disk) (h : FileHeader)
    (newSize : Int) : Except Fault (Bool × BitMap × Disk × FileHeader) := do
  let undirectedIndex : Int := (NumDirect S : Int) - 1
  let newNumTotalSectors := divRoundUp (wrapInt (h.numBytes + newSize)) S
  let newNumSectors := newNumTotalSectors - h.numSectors
  let count := (min newNumTotalSectors undirectedIndex - h.numSectors).toNat
  let (ok, freeMap1, ds1) ← Extend.allocDirect count h.numSectors freeMap h.dataSectors
  if !ok then pure (false, freeMap1, disk, { h with dataSectors := ds1 })
  else
    let i : Int := h.numSectors + count
    let numAllocatedSectors : Int := count
    if i < newNumTotalSectors then do
      let (go, freeMap2, ds2, fileHdr, newUndirectedSectors) ←
        (if h.numSectors > undirectedIndex then do
          let undirected ← getEntry ds1 undirectedIndex
          let fileHdr ← FileHeader.FetchFrom S N disk undirected
          pure (true, freeMap1, ds1, fileHdr, newNumSectors)
        else do
          let (sector, freeMap2) := freeMap1.Find
          let ds2 ← setEntry ds1 undirectedIndex sector
          -- `fileHdr->Allocate(freeMap, 0, DATA_FILE, "")` on a new header:
          -- the three fields are zeroed and `Extend(freeMap, 0)` changes nothing
          pure (sector != -1, freeMap2, ds2,
            { type := DATA_FILE, numBytes := 0, numSectors := 0,
              dataSectors := List.replicate (NumDirect S) 0 },
            newNumSectors - numAllocatedSectors)
          : Except Fault (Bool × BitMap × List Int × FileHeader × Int))
      if !go then pure (false, freeMap2, disk, { h with dataSectors := ds2 })
      else do
        let (ok3, freeMap3, fileHdr3) ←
          fileHdr.ExtendUndirectedBlock S freeMap2 newUndirectedSectors
        if !ok3 then pure (false, freeMap3, disk, { h with dataSectors := ds2 })
        else do
          let undirected ← getEntry ds2 undirectedIndex
          let disk1 ← fileHdr3.WriteBack S N disk undirected
          let file ← OpenFile.new S N disk1 undirected
          let file := file.Seek (file.Length - newUndirectedSectors * 4)
          let (ok4, freeMap4, disk2, _) ←
            Extend.writePointers S N newUndirectedSectors.toNat freeMap3 disk1 file
          if !ok4 then pure (false, freeMap4, disk2, { h with dataSectors := ds2 })
          else pure (true, freeMap4, disk2,
            { h with dataSectors := ds2, numBytes := wrapInt (h.numBytes + newSize),
                     numSectors := newNumTotalSectors })
    else pure (true, freeMap1, disk,
      { h with dataSectors := ds1, numBytes := wrapInt (h.numBytes + newSize),
               numSectors := newNumTotalSectors })

/-- `FileHeader::Allocate` on the header object `h` (whose fields hold whatever
the memory held before): zero the sizes, set the type, extend by `fileSize`. -/
def FileHeader.Allocate (S N : Nat) (freeMap : BitMap) (disk : Disk) (h : FileHeader)
    (fileSize : Int) (which : Int) : Except Fault (Bool × BitMap × Disk × FileHeader) :=
  FileHeader.Extend S N freeMap disk { h with numBytes := 0, type := which, numSectors := 0 }
    fileSize

/-- A loop `for (...) { ASSERT(freeMap->Test(s)); freeMap->Clear(s); }` over the
sector numbers of a list. -/
def clearSectors : List Int → BitMap → Except Fault BitMap
  | [], freeMap => pure freeMap
  | s :: rest, freeMap => do
    let marked ← freeMap.Test s
    if !marked then .error Fault.assertOughtToBeMarked
    else do
      let freeMap1 ← freeMap.Clear s
      clearSectors rest freeMap1

/-- `FileHeader::DeallocateUndirectedBlock`: clear `dataSectors[0 .. numSectors)`. -/
def FileHeader.DeallocateUndirectedBlock (freeMap : BitMap) (h : FileHeader) :
    Except Fault BitMap := do
  if h.numSectors > h.dataSectors.length then .error Fault.outOfBounds
  else clearSectors (h.dataSectors.take h.numSectors.toNat) freeMap

/-- The loop of `Deallocate` over the pointers of the undirected block:
`count` times, read four bytes of the file, assert the sector is marked,
clear it. -/
def Deallocate.clearPointers (S N : Nat) (disk : Disk) :
    Nat → OpenFile → BitMap → Except Fault BitMap
  | 0, _, freeMap => pure freeMap
  | count + 1, file, freeMap => do
    let (bytes, file1) ← OpenFile.Read S N disk file 4
    -- `sector` is an uninitialised local: the bytes not read keep their value
    let sector := decodeInt (bcopy bytes 0 [0, 0, 0, 0] 0 bytes.length) 0
    let marked ← freeMap.Test sector
    if !marked then .error Fault.assertOughtToBeMarked
    else do
      let freeMap1 ← freeMap.Clear sector
      Deallocate.clearPointers S N disk count file1 freeMap1

/-- `FileHeader::Deallocate`: the free map after the call. -/
def FileHeader.Deallocate (S N : Nat) (disk : Disk) (freeMap : BitMap) (h : FileHeader) :
    Except Fault BitMap := do
  let direct := min ((NumDirect S : Int) - 1) h.numSectors
  let freeMap1 ← clearSectors (h.dataSectors.take direct.toNat) freeMap
  if h.numSectors ≥ (NumDirect S : Int) - 1 then do
    let undirected ← getEntry h.dataSectors ((NumDirect S : Int) - 1)
    let fileHdr ← FileHeader.FetchFrom S N disk undirected
    let leftNumSectors := h.numSectors - ((NumDirect S : Int) - 1)
    let file ← OpenFile.new S N disk undirected
    let freeMap2 ← Deallocate.clearPointers S N disk leftNumSectors.toNat file freeMap1
    let marked ← freeMap2.Test undirected
    if !marked then .error Fault.assertOughtToBeMarked
    else do
      let freeMap3 ← freeMap2.Clear undirected
      fileHdr.DeallocateUndirectedBlock freeMap3
  else pure freeMap1

/-! ## The free map as a file, and the user-level open-file table (`filesys.cc`) -/

/-- The bytes of the words of a bitmap: bit `8 * k + j` of the map is bit `j`
of byte `k` (32-bit little-endian words); a last incomplete byte is filled
with clear bits. -/
def packBits : List Bool → List Byte
  | b0 :: b1 :: b2 :: b3 :: b4 :: b5 :: b6 :: b7 :: rest =>
    ((if b0 then 1 else 0) + (if b1 then 2 else 0) + (if b2 then 4 else 0) +
      (if b3 then 8 else 0) + (if b4 then 16 else 0) + (if b5 then 32 else 0) +
      (if b6 then 64 else 0) + (if b7 then 128 else 0)) :: packBits rest
  | [] => []
  | b0 :: rest =>
    [(if b0 then 1 else 0) + (if rest.getD 0 false then 2 else 0) +
      (if rest.getD 1 false then 4 else 0) + (if rest.getD 2 false then 8 else 0) +
      (if rest.getD 3 false then 16 else 0) + (if rest.getD 4 false then 32 else 0) +
      (if rest.getD 5 false then 64 else 0)]

/-- The eight bits of a byte, lowest first. -/
def byteBits (b : Byte) : List Bool :=
  [b % 2 == 1, b / 2 % 2 == 1, b / 4 % 2 == 1, b / 8 % 2 == 1, b / 16 % 2 == 1,
   b / 32 % 2 == 1, b / 64 % 2 == 1, b / 128 % 2 == 1]

/-- Modelled from the spec: the words of a `BitMap` as bytes: `numWords * 4`
bytes, `numWords = divRoundUp(numBits, 32)`. -/
def BitMap.toBytes (m : BitMap) : List Byte :=
  padTake (((m.bits.length + 31) / 32) * 4) (packBits m.bits)

/-- Modelled from the spec: a `BitMap` of `numBits` bits from the bytes of its words. -/
def BitMap.ofBytes (numBits : Nat) (bytes : List Byte) : BitMap :=
  ⟨((bytes.map byteBits).flatten ++ List.replicate numBits false).take numBits⟩

/-- Modelled from the spec: `BitMap::FetchFrom(file)` on a new `BitMap(numBits)`:
the words are read from the start of the file. -/
def BitMap.FetchFrom (S N : Nat) (disk : Disk) (numBits : Nat) (file : OpenFile) :
    Except Fault BitMap := do
  let numBytes := ((numBits + 31) / 32) * 4
  let bytes ← OpenFile.ReadAt S N disk file numBytes 0
  pure (BitMap.ofBytes numBits (bcopy bytes 0 (List.replicate numBytes 0) 0 bytes.length))

/-- Modelled from the spec: `BitMap::WriteBack(file)`: the words are written at
the start of the file. -/
def BitMap.WriteBack (S N : Nat) (disk : Disk) (m : BitMap) (file : OpenFile) :
    Except Fault Disk := do
  let (_, disk1) ← OpenFile.WriteAt S N disk file m.toBytes (((m.bits.length + 31) / 32) * 4) 0
  pure disk1

/-- `#define MaxOpenedFiles 10`. -/
def MaxOpenedFiles : Int := 10

/-- The struct `UserFile`, without its lock. -/
structure UserFile where
  object : OpenFile
  id : Int
  deriving DecidableEq, Repr

/-- The fields of the class `FileSystem`, without the locks. -/
structure FileSystem where
  freeMapFile : OpenFile
  directoryFile : OpenFile
  DirectorySector : Int
  openedFileMap : BitMap
  openedFiles : List UserFile
  deriving DecidableEq, Repr

/-- The read `openedFiles[index]`. -/
def FileSystem.entry (fs : FileSystem) (index : Int) : Except Fault UserFile :=
  if 0 ≤ index ∧ index < fs.openedFiles.length then
    match fs.openedFiles.get? index.toNat with
    | some uf => .ok uf
    | none => .error Fault.outOfBounds
  else .error Fault.outOfBounds

/-- The store `openedFiles[index].object = file`. -/
def FileSystem.setObject (fs : FileSystem) (index : Int) (file : OpenFile) : FileSystem :=
  { fs with openedFiles :=
      fs.openedFiles.modify (fun uf => { uf with object := file }) index.toNat }

/-- `FileSystem::WriteUser`: the value returned, the file system and the disk
after the call.  `GetSeek() + size - GetNumBytes()` is computed in `int`s, on
32 bits. -/
def FileSystem.WriteUser (S N : Nat) (fs : FileSystem) (disk : Disk) (buffer : List Byte)
    (size : Int) (index : Int) : Except Fault (Int × FileSystem × Disk) := do
  if index ≥ MaxOpenedFiles then pure (-1, fs, disk)
  else do
    let opened ← fs.openedFileMap.Test index
    if !opened then pure (-1, fs, disk)
    else do
      let uf ← fs.entry index
      let freeMap ← BitMap.FetchFrom S N disk N fs.freeMapFile
      let fileHdr ← FileHeader.FetchFrom S N disk uf.id
      let sizeToExtend := wrapInt (wrapInt (uf.object.GetSeek + size) - fileHdr.GetNumBytes)
      let (ok, freeMap1, disk1, fileHdr1) ←
        (if sizeToExtend > 0 then FileHeader.Extend S N freeMap disk fileHdr sizeToExtend
         else pure (true, freeMap, disk, fileHdr)
         : Except Fault (Bool × BitMap × Disk × FileHeader))
      if !ok then pure (-1, fs, disk1)
      else do
        let disk2 ← BitMap.WriteBack S N disk1 freeMap1 fs.freeMapFile
        let disk3 ← fileHdr1.WriteBack S N disk2 uf.id
        let file ← OpenFile.new S N disk3 uf.id
        let file := file.Seek uf.object.GetSeek
        let (value, file1, disk4) ← OpenFile.Write S N disk3 file buffer size
        pure (value, fs.setObject index file1, disk4)

/-- `FileSystem::ReadUser`: the value returned, the bytes put in the buffer and
the file system after the call. -/
def FileSystem.ReadUser (S N : Nat) (fs : FileSystem) (disk : Disk) (size : Int) (index : Int) :
    Except Fault (Int × List Byte × FileSystem) := do
  if index ≥ MaxOpenedFiles then pure (-1, [], fs)
  else do
    let opened ← fs.openedFileMap.Test index
    if !opened then pure (-1, [], fs)
    else do
      let uf ← fs.entry index
      let (bytes, file1) ← OpenFile.Read S N disk uf.object size
      pure ((bytes.length : Int), bytes, fs.setObject index file1)

/-- `FileSystem::SeekUser`: the value returned and the file system after the
call; the remainder by a zero length is a fault. -/
def FileSystem.SeekUser (fs : FileSystem) (index : Int) (nbBytes : Int) :
    Except Fault (Int × FileSystem) := do
  if index ≥ MaxOpenedFiles then pure (-1, fs)
  else do
    let opened ← fs.openedFileMap.Test index
    if !opened then pure (-1, fs)
    else do
      let uf ← fs.entry index
      if uf.object.Length = 0 then .error Fault.divideByZero
      else pure (0, fs.setObject index (uf.object.Seek (Int.tmod nbBytes uf.object.Length)))

/-! ## Directories and the calls on names (`filesys.cc`) -/

/-- `FileHeader::IsDirectory`. -/
def FileHeader.IsDirectory (h : FileHeader) : Bool := h.type == DIRECTORY || h.type == ROOT

/-- `FileHeader::IsRoot`. -/
def FileHeader.IsRoot (h : FileHeader) : Bool := h.type == ROOT

/-- `#define NumDirEntries 10`. -/
def NumDirEntries : Nat := 10

/-- Modelled from the spec: an entry of a directory (`directory.h` and
`directory.cc` are not among the sources): `in_use`, `name`, `sector`. -/
structure DirectoryEntry where
  inUse : Bool
  name : List Byte
  sector : Int
  deriving DecidableEq, Repr

/-- Modelled from the spec: a directory, the fixed-size table of its entries. -/
structure Directory where
  table : List DirectoryEntry
  deriving DecidableEq, Repr

/-- The C string at the start of a buffer: the bytes before the first NUL. -/
def cstring (b : List Byte) : List Byte :=
  b.takeWhile (fun c => c != 0)

/-- The size of a directory entry on disk when the name field has `W` bytes:
`i32 in_use; char name[W]; i32 sector`. -/
def entrySize (W : Nat) : Nat := 4 + W + 4

/-- Modelled from the spec: the entry found in the bytes of a directory file at `off`. -/
def DirectoryEntry.decode (W : Nat) (b : List Byte) (off : Nat) : DirectoryEntry :=
  { inUse := decodeInt b off != 0
    name := (b.drop (off + 4)).take W
    sector := decodeInt b (off + 4 + W) }

/-- Modelled from the spec: the bytes of an entry of a directory file. -/
def DirectoryEntry.encode (W : Nat) (e : DirectoryEntry) : List Byte :=
  encodeInt (if e.inUse then 1 else 0) ++ padTake W e.name ++ encodeInt e.sector

/-- Modelled from the spec: `Directory::FetchFrom(file)`: the table is read from
the start of the directory file. -/
def Directory.FetchFrom (S N W : Nat) (disk : Disk) (file : OpenFile) : Except Fault Directory := do
  let size := NumDirEntries * entrySize W
  let b ← OpenFile.ReadAt S N disk file size 0
  let buf := bcopy b 0 (List.replicate size 0) 0 b.length
  pure ⟨(List.range NumDirEntries).map (fun i => DirectoryEntry.decode W buf (i * entrySize W))⟩

/-- Modelled from the spec: `Directory::WriteBack(file)`: the table is written
at the start of the directory file. -/
def Directory.WriteBack (S N W : Nat) (disk : Disk) (d : Directory) (file : OpenFile) :
    Except Fault Disk := do
  let (_, disk1) ← OpenFile.WriteAt S N disk file
    (d.table.map (DirectoryEntry.encode W)).flatten (NumDirEntries * entrySize W) 0
  pure disk1

/-- Whether an entry is in use under `name`: names are compared as C strings
over the width of the name field. -/
def DirectoryEntry.hasName (W : Nat) (e : DirectoryEntry) (name : List Byte) : Bool :=
  e.inUse && (cstring (e.name.take W) == cstring (name.take W))

/-- Modelled from the spec: `Directory::Find(name)`: linear lookup; the header
sector of the first entry in use under `name`, or `-1`. -/
def Directory.Find (W : Nat) (d : Directory) (name : List Byte) : Int :=
  match d.table.find? (fun e => e.hasName W name) with
  | some e => e.sector
  | none => -1

/-- Modelled from the spec: `Directory::Remove(name)`: the first entry in use
under `name` is marked unused. -/
def Directory.Remove (W : Nat) (d : Directory) (name : List Byte) : Directory :=
  match d.table.findIdx? (fun e => e.hasName W name) with
  | some i => ⟨d.table.modify (fun e => { e with inUse := false }) i⟩
  | none => d

/-- The loop `for (i = 0; i < MaxOpenedFiles; i++)` of `OpenUser` and `Remove`
from index `i` on, `count` turns:
`openedFileMap->Test(i) && openedFiles[i].id == sector`. -/
def FileSystem.isOpened (fs : FileSystem) (sector : Int) : Nat → Int → Except Fault Bool
  | 0, _ => pure false
  | count + 1, i => do
    let live ← fs.openedFileMap.Test i
    if live then do
      let uf ← fs.entry i
      if uf.id == sector then pure true
      else FileSystem.isOpened fs sector count (i + 1)
    else FileSystem.isOpened fs sector count (i + 1)

/-- The stores `openedFiles[index].id = sector; openedFiles[index].object = openFile`. -/
def FileSystem.setUserFile (fs : FileSystem) (index : Int) (uf : UserFile) :
    Except Fault FileSystem :=
  if 0 ≤ index ∧ index < fs.openedFiles.length then
    .ok { fs with openedFiles := fs.openedFiles.set index.toNat uf }
  else .error Fault.outOfBounds

/-- `FileSystem::OpenUser`: the descriptor returned (or `-1`) and the file
system after the call. -/
def FileSystem.OpenUser (S N W : Nat) (fs : FileSystem) (disk : Disk) (name : List Byte) :
    Except Fault (Int × FileSystem) := do
  let directory ← Directory.FetchFrom S N W disk fs.directoryFile
  let sector := directory.Find W name
  if sector < 0 then pure (-1, fs)
  else do
    let openFile ← OpenFile.new S N disk sector
    let fileHdr ← FileHeader.FetchFrom S N disk sector
    if !fileHdr.IsDataFile then pure (-1, fs)
    else do
      let opened ← fs.isOpened sector MaxOpenedFiles.toNat 0
      if opened then pure (-1, fs)
      else
        let (index, map1) := fs.openedFileMap.Find
        if index == -1 then pure (-1, fs)
        else do
          let fs1 ← FileSystem.setUserFile { fs with openedFileMap := map1 } index
            { object := openFile, id := sector }
          pure (index, fs1)

/-- `FileSystem::CloseUser`: the value returned and the file system after the call. -/
def FileSystem.CloseUser (fs : FileSystem) (index : Int) : Except Fault (Int × FileSystem) := do
  if index < MaxOpenedFiles then do
    let live ← fs.openedFileMap.Test index
    if live then do
      let map1 ← fs.openedFileMap.Clear index
      pure (0, { fs with openedFileMap := map1 })
    else pure (-1, fs)
  else pure (-1, fs)

/-- `FileSystem::Remove`: the verdict, and the file system and the disk after
the call. -/
def FileSystem.Remove (S N W : Nat) (fs : FileSystem) (disk : Disk) (name : List Byte) :
    Except Fault (Bool × FileSystem × Disk) := do
  let directory ← Directory.FetchFrom S N W disk fs.directoryFile
  let sector := directory.Find W name
  if sector == -1 then pure (false, fs, disk)
  else do
    let fileHdr ← FileHeader.FetchFrom S N disk sector
    if !fileHdr.IsDataFile then pure (false, fs, disk)
    else do
      let opened ← fs.isOpened sector MaxOpenedFiles.toNat 0
      if opened then pure (false, fs, disk)
      else do
        let freeMap ← BitMap.FetchFrom S N disk N fs.freeMapFile
        let freeMap1 ← fileHdr.Deallocate S N disk freeMap
        let freeMap2 ← freeMap1.Clear sector
        let directory1 := directory.Remove W name
        let disk1 ← BitMap.WriteBack S N disk freeMap2 fs.freeMapFile
        let disk2 ← Directory.WriteBack S N W disk1 directory1 fs.directoryFile
        pure (true, fs, disk2)

/-- `FileSystem::ParsePath`: the components of a path, cut at each `/` as
`strtok` does (empty components are skipped); `none` is the `NULL` returned
for the empty path. -/
def ParsePath (pathName : List Byte) : Option (List (List Byte)) :=
  if cstring pathName = [] then none
  else some (((cstring pathName).splitOn 47).filter (fun w => w != []))

/-- `FileSystem::ChangeDirRec` over the components still to enter: the verdict
and the file system after the call. -/
def FileSystem.ChangeDirRec (S N W : Nat) (disk : Disk) :
    FileSystem → OpenFile → List (List Byte) → Except Fault (Bool × FileSystem)
  | fs, from_, [] => do
    let _ ← Directory.FetchFrom S N W disk from_
    pure (true, fs)
  | fs, from_, p :: rest => do
    let directory ← Directory.FetchFrom S N W disk from_
    let sector := directory.Find W p
    if sector < 0 then pure (false, fs)
    else do
      let hdr ← FileHeader.FetchFrom S N disk sector
      if !hdr.IsDirectory && !hdr.IsRoot then pure (false, fs)
      else do
        let newDirectoryFile ← OpenFile.new S N disk sector
        FileSystem.ChangeDirRec S N W disk
          { fs with DirectorySector := sector, directoryFile := newDirectoryFile }
          newDirectoryFile rest

/-- `FileSystem::ChangeDir`: the verdict and the file system after the call. -/
def FileSystem.ChangeDir (S N W : Nat) (fs : FileSystem) (disk : Disk) (name : List Byte) :
    Except Fault (Bool × FileSystem) :=
  match ParsePath name with
  | none => pure (false, fs)
  | some paths => do
    let tmpFile ← OpenFile.new S N disk fs.DirectorySector
    let tmpSector := fs.DirectorySector
    let (success, fs1) ← fs.ChangeDirRec S N W disk fs.directoryFile paths
    if !success then
      pure (false, { fs1 with directoryFile := tmpFile, DirectorySector := tmpSector })
    else pure (true, fs1)

/-! ## Frames and address spaces (`frameprovider.cc`, `addrspace.cc`)

`PageSize` and `NumPhysPages` come from `machine.h`, which is not among the
sources: they are parameters.  The main memory is not modelled, so the
`bzero` of a frame that `GetEmptyFrame` hands out does not appear. -/

/-- The class `FrameProvider`, without its lock. -/
structure FrameProvider where
  frameMap : BitMap
  nAvailFrame : Int
  deriving DecidableEq, Repr

/-- `FrameProvider::FrameProvider`. -/
def FrameProvider.new (NumPhysPages : Nat) : FrameProvider :=
  { frameMap := ⟨List.replicate NumPhysPages false⟩, nAvailFrame := NumPhysPages }

/-- `FrameProvider::GetEmptyFrame` (with `FindFreeFrame`): the frame, or `-1`,
and the provider after the call. -/
def FrameProvider.GetEmptyFrame (fp : FrameProvider) : Int × FrameProvider :=
  let (idx, map1) := fp.frameMap.Find
  if idx != -1 then (idx, { frameMap := map1, nAvailFrame := fp.nAvailFrame - 1 })
  else (idx, { fp with frameMap := map1 })

/-- `FrameProvider::ReleaseFrame`. -/
def FrameProvider.ReleaseFrame (fp : FrameProvider) (frame : Int) : Except Fault FrameProvider := do
  let map1 ← fp.frameMap.Clear frame
  pure { frameMap := map1, nAvailFrame := fp.nAvailFrame + 1 }

/-- `FrameProvider::NumAvailFrame`. -/
def FrameProvider.NumAvailFrame (fp : FrameProvider) : Int := fp.nAvailFrame

/-- Modelled from the spec: an entry of a page table (`translate.h` is not
among the sources). -/
structure TranslationEntry where
  virtualPage : Int
  physicalPage : Int
  valid : Bool
  use : Bool
  dirty : Bool
  readOnly : Bool
  deriving DecidableEq, Repr

/-- `#define UserStackSize 2048`. -/
def UserStackSize : Nat := 2048

/-- `#define ThreadStackSize ((PageSize) * (2))`. -/
def ThreadStackSize (PageSize : Nat) : Nat := PageSize * 2

/-- `#define MaxThreadsPerProcess (((UserStackSize)-16) / (ThreadStackSize))`. -/
def MaxThreadsPerProcess (PageSize : Nat) : Nat := (UserStackSize - 16) / ThreadStackSize PageSize

/-- The fields of the class `AddrSpace` that hold the memory of the process. -/
structure AddrSpace where
  numPages : Nat
  pageTable : List TranslationEntry
  brk : Nat
  stackStartAddrs : List Int
  deriving DecidableEq, Repr

/-- `AddrSpace::GetSize`: `numPages * PageSize` as an `int`. -/
def AddrSpace.GetSize (PageSize : Nat) (space : AddrSpace) : Int :=
  ofU32 (space.numPages * PageSize)

/-- The loop of `InitializeThreadData`: `count` turns of
`stackStartAddrs[i] = curr_addr; curr_addr -= ThreadStackSize`. -/
def InitializeThreadData.loop (PageSize : Nat) : Nat → Int → List Int
  | 0, _ => []
  | count + 1, curr_addr =>
    curr_addr :: InitializeThreadData.loop PageSize count (curr_addr - ThreadStackSize PageSize)

/-- `AddrSpace::InitializeThreadData`. -/
def AddrSpace.InitializeThreadData (PageSize : Nat) (space : AddrSpace) : AddrSpace :=
  let curr_addr := space.GetSize PageSize - 16 - ThreadStackSize PageSize
  { space with
    stackStartAddrs := InitializeThreadData.loop PageSize (MaxThreadsPerProcess PageSize) curr_addr }

/-- `AddrSpace::GetStackStartAddr`: the read `stackStartAddrs[index]`. -/
def AddrSpace.GetStackStartAddr (space : AddrSpace) (index : Int) : Except Fault Int :=
  getEntry space.stackStartAddrs index

/-- The loops `pageTable[i] = {i, fp->GetEmptyFrame(), TRUE, FALSE, FALSE, FALSE}`
of the constructor and of `do_Sbrk`: `count` entries from virtual page `i` on. -/
def allocPages : Nat → Nat → FrameProvider → List TranslationEntry × FrameProvider
  | 0, _, fp => ([], fp)
  | count + 1, i, fp =>
    let (frame, fp1) := fp.GetEmptyFrame
    let (rest, fp2) := allocPages count (i + 1) fp1
    ({ virtualPage := i, physicalPage := frame, valid := true, use := false, dirty := false,
       readOnly := false } :: rest, fp2)

/-- `AddrSpace::AddrSpace(unsigned int nPages)`: the address space and the
frame provider after the call. -/
def AddrSpace.new (PageSize NumPhysPages : Nat) (nPages : Nat) (fp : FrameProvider) :
    Except Fault (AddrSpace × FrameProvider) :=
  if ¬ toU32 fp.NumAvailFrame ≥ nPages then .error Fault.assertAvailFrames
  else if ¬ nPages ≤ NumPhysPages then .error Fault.assertNumPhysPages
  else
    let (table, fp1) := allocPages nPages 0 fp
    let space : AddrSpace :=
      { numPages := nPages, pageTable := table, brk := (nPages * PageSize) % 4294967296,
        stackStartAddrs := [] }
    .ok (space.InitializeThreadData PageSize, fp1)

/-- The loop of `AddrSpace::ReleaseFrames` over the entries of the page table. -/
def releaseFrames : List TranslationEntry → FrameProvider → Except Fault FrameProvider
  | [], fp => pure fp
  | e :: rest, fp => do
    let fp1 ← fp.ReleaseFrame e.physicalPage
    releaseFrames rest fp1

/-- `AddrSpace::ReleaseFrames`: the frame provider after the call. -/
def AddrSpace.ReleaseFrames (space : AddrSpace) (fp : FrameProvider) : Except Fault FrameProvider :=
  releaseFrames (space.pageTable.take space.numPages) fp

/-- `AddrSpace::do_Sbrk`: the value returned, the address space and the frame
provider after the call. -/
def AddrSpace.do_Sbrk (PageSize : Nat) (space : AddrSpace) (fp : FrameProvider) (n : Nat) :
    Nat × AddrSpace × FrameProvider :=
  let oldBrk := space.brk
  if toU32 fp.NumAvailFrame ≥ n then
    let (fresh, fp1) := allocPages n space.numPages fp
    (oldBrk,
      { space with
        numPages := space.numPages + n
        pageTable := space.pageTable.take space.numPages ++ fresh
        brk := ((space.numPages + n) * PageSize) % 4294967296 },
      fp1)
  else (0, space, fp)

/-- A call that takes or gives back frames: a new address space of `nPages`
pages, `do_Sbrk(n)` in the live address space number `i`, or the end of the
process that owns the live address space number `i` (`ReleaseFrames`, after
which the address space is deleted). -/
inductive FrameCall where
  | create (nPages : Nat)
  | sbrk (i n : Nat)
  | release (i : Nat)
  deriving DecidableEq, Repr

/-- The frame provider and the live address spaces. -/
structure Frames where
  fp : FrameProvider
  spaces : List AddrSpace
  deriving DecidableEq, Repr

/-- One call on the frames; a call on an address space that does not exist
changes nothing. -/
def Frames.step (PageSize NumPhysPages : Nat) (st : Frames) : FrameCall → Except Fault Frames
  | FrameCall.create nPages => do
    let (space, fp1) ← AddrSpace.new PageSize NumPhysPages nPages st.fp
    pure { fp := fp1, spaces := st.spaces ++ [space] }
  | FrameCall.sbrk i n =>
    match st.spaces.get? i with
    | none => pure st
    | some space =>
      let (_, space1, fp1) := space.do_Sbrk PageSize st.fp n
      pure { fp := fp1, spaces := st.spaces.set i space1 }
  | FrameCall.release i =>
    match st.spaces.get? i with
    | none => pure st
    | some space => do
      let fp1 ← space.ReleaseFrames st.fp
      pure { fp := fp1, spaces := st.spaces.eraseIdx i }

/-- The frames after a sequence of calls. -/
def Frames.run (PageSize NumPhysPages : Nat) : Frames → List FrameCall → Except Fault Frames
  | st, [] => pure st
  | st, c :: rest => do
    let st1 ← st.step PageSize NumPhysPages c
    Frames.run PageSize NumPhysPages st1 rest

/-- The sum of `numPages` over the live address spaces. -/
def Frames.totalPages (st : Frames) : Nat :=
  (st.spaces.map (fun s => s.numPages)).sum

/-! ## Semaphores (`synch.cc`) -/

/-- The class `Semaphore`: the value and the queue of sleeping threads. -/
structure Semaphore where
  value : Int
  queue : List Nat
  deriving DecidableEq, Repr

/-- `Semaphore::Semaphore(debugName, initialValue)`. -/
def Semaphore.new (initialValue : Int) : Semaphore :=
  { value := initialValue, queue := [] }

/-- What a thread that runs `Semaphore::P` from the head of its loop does next. -/
inductive POutcome where
  | returned (s : Semaphore)
  | asleep (s : Semaphore)
  deriving DecidableEq, Repr

/-- `Semaphore::P` from the head of the loop `while (value == 0)`: the thread
is appended to the queue and sleeps, or the value is decremented and the call
returns. -/
def Semaphore.P (s : Semaphore) (currentThread : Nat) : POutcome :=
  if s.value == 0 then POutcome.asleep { s with queue := s.queue ++ [currentThread] }
  else POutcome.returned { s with value := s.value - 1 }

/-- `Semaphore::V`: the semaphore after the call and the thread made ready,
if one was sleeping. -/
def Semaphore.V (s : Semaphore) : Semaphore × Option Nat :=
  match s.queue with
  | [] => ({ s with value := s.value + 1 }, none)
  | thread :: rest => ({ value := s.value + 1, queue := rest }, some thread)

/-- The semaphore `semFORK` of `userthread.cc`:
`new Semaphore("Fork sem", -1)`. -/
def semFORK : Semaphore := Semaphore.new (-1)

/-! ## Post office: payloads, mail boxes and the postal worker (`post.cc`)

`M` is `MaxSegmentSize = MaxPacketSize - sizeof(MailHeader)`; `MaxPacketSize`
comes from `network.h`. -/

/-- `Payload::Payload()`: every field zero, type DATA. -/
def Payload.new : Payload :=
  { msgSize := 0, nbSegments := 0, remainder := 0
    pktHdr := { to_ := 0, from_ := 0, length := 0 }
    mailHdr := { to_ := 0, from_ := 0, length := 0, messageType := MessageType.DATA,
                 messageId := 0 } }

/-- `Payload::UpdatePayload` with six arguments.  The message id is not touched.
`msgSize` is an `int` that takes the `unsigned` length; the remainder and the
quotient by `MaxSegmentSize`, which is unsigned (it holds a `sizeof`), are
those of the length itself in the 32-bit build. -/
def Payload.UpdatePayload (M : Nat) (p : Payload) (netFrom netTo mailFrom mailTo : Int)
    (length : Nat) (messageType : MessageType) : Payload :=
  { msgSize := ofU32 length
    remainder := length % M
    nbSegments := if length % M = 0 then length / M else length / M + 1
    pktHdr := { from_ := netFrom, to_ := netTo, length := M + sizeofMailHeader }
    mailHdr := { p.mailHdr with from_ := mailFrom, to_ := mailTo, length := length,
                                messageType := messageType } }

/-- `Payload::UpdatePayloadSize`. -/
def Payload.UpdatePayloadSize (M : Nat) (p : Payload) (length : Nat) : Payload :=
  p.UpdatePayload M p.pktHdr.from_ p.pktHdr.to_ p.mailHdr.from_ p.mailHdr.to_ length
    MessageType.DATA

/-- `Mail::Mail`: the headers of the payload and a full segment of `msgData`. -/
def Mail.new (M : Nat) (p : Payload) (msgData : List Byte) : Mail :=
  { pktHdr := p.pktHdr, mailHdr := p.mailHdr, data := padTake M msgData }

/-- `MailBox::MailBox()`. -/
def MailBox.new : MailBox :=
  { messages := [], waitedId := 0, ackId := -1 }

/-- `MailBox::Put`. -/
def MailBox.Put (M : Nat) (box : MailBox) (p : Payload) (data : List Byte) : MailBox :=
  { box with messages := box.messages ++ [Mail.new M p data] }

/-- What `MailBox::Get` does with the mail it removed: update the payload from
the mail and copy `remainder` bytes (last segment) or a whole segment to
`data + off`. -/
def MailBox.getMail (M : Nat) (mail : Mail) (p : Payload) (segmentIndex : Nat)
    (data : List Byte) (off : Nat) : Payload × List Byte :=
  let p1 := p.UpdatePayload M mail.pktHdr.from_ mail.pktHdr.to_ mail.mailHdr.from_
    mail.mailHdr.to_ mail.mailHdr.length mail.mailHdr.messageType
  let p2 := { p1 with mailHdr := { p1.mailHdr with messageId := mail.mailHdr.messageId } }
  if segmentIndex + 1 = p2.nbSegments then (p2, bcopy mail.data 0 data off p2.remainder)
  else (p2, bcopy mail.data 0 data off M)

/-- `MailBox::Get(p, segmentIndex, data + off)`; on an empty box the caller
waits, which is the fault `blocked` when nothing more arrives. -/
def MailBox.Get (M : Nat) (box : MailBox) (p : Payload) (segmentIndex : Nat)
    (data : List Byte) (off : Nat) : Except Fault (MailBox × Payload × List Byte) :=
  match box.messages with
  | [] => .error Fault.blocked
  | mail :: rest =>
    let r := MailBox.getMail M mail p segmentIndex data off
    .ok ({ box with messages := rest }, r.1, r.2)

/-- The state of a `PostOffice`: its address, its boxes, the bitmap of used
boxes and the remembered CONNs. -/
structure PostOffice where
  netAddr : Int
  numBoxes : Nat
  boxes : List MailBox
  usedBoxes : BitMap
  connections : List ConnReminder
  deriving DecidableEq, Repr

/-- `PostOffice::PostOffice(addr, reliability, nBoxes)`: new boxes, and
`LISTEN_BOX` marked as used. -/
def PostOffice.new (addr : Int) (nBoxes : Nat) : PostOffice :=
  { netAddr := addr, numBoxes := nBoxes
    boxes := List.replicate nBoxes MailBox.new
    usedBoxes := ⟨(List.replicate nBoxes false).set 0 true⟩
    connections := [] }

/-- The read `boxes[box]`. -/
def PostOffice.box (po : PostOffice) (box : Int) : Except Fault MailBox :=
  if 0 ≤ box ∧ box < po.boxes.length then
    match po.boxes.get? box.toNat with
    | some b => .ok b
    | none => .error Fault.outOfBounds
  else .error Fault.outOfBounds

/-- The store `boxes[box] = b`. -/
def PostOffice.setBox (po : PostOffice) (box : Int) (b : MailBox) : PostOffice :=
  { po with boxes := po.boxes.set box.toNat b }

/-- The store `connections = cs`. -/
def PostOffice.setConnections (po : PostOffice) (cs : List ConnReminder) : PostOffice :=
  { po with connections := cs }

/-- The timestamp that `PostalDelivery` reads at the start of the body of a
CONN packet (`time_t` of the 32-bit build). -/
def decodeTime (body : List Byte) : Int := decodeInt body 0

/-- One turn of the loop of `PostOffice::PostalDelivery` on the packet that
arrived: the post office after it and the ACK packet it sends, if any. -/
def PostOffice.PostalDelivery (M : Nat) (po : PostOffice) (pkt : Packet) :
    Except Fault (PostOffice × Option Packet) :=
  let pktHdr := pkt.pktHdr
  let mailHdr := pkt.mailHdr
  if ¬ (0 ≤ mailHdr.to_ ∧ mailHdr.to_ < po.numBoxes) then .error Fault.assertBoxRange
  else do
    let p0 := Payload.new.UpdatePayload M pktHdr.from_ pktHdr.to_ mailHdr.from_ mailHdr.to_
      mailHdr.length mailHdr.messageType
    let p := { p0 with mailHdr := { p0.mailHdr with messageId := mailHdr.messageId } }
    let box ← po.box mailHdr.to_
    let po1 : PostOffice :=
      if mailHdr.messageType = MessageType.CONN ∧ mailHdr.to_ = LISTEN_BOX then
        let cRm : ConnReminder :=
          { connTimestamp := decodeTime pkt.body, netFrom := pktHdr.from_, netTo := pktHdr.to_
            mailFrom := mailHdr.from_, mailTo := mailHdr.to_ }
        let r := ValidConn po.connections cRm
        if r.1 then (po.setBox mailHdr.to_ (box.Put M p pkt.body)).setConnections r.2
        else po.setConnections r.2
      else if mailHdr.messageType = MessageType.DATA ∧ mailHdr.messageId = box.waitedId then
        po.setBox mailHdr.to_ { (box.Put M p pkt.body) with waitedId := box.waitedId + 1 }
      else if mailHdr.messageType = MessageType.ACK then
        po.setBox mailHdr.to_ { box with ackId := mailHdr.messageId }
      else po
    let ack : Option Packet :=
      if mailHdr.messageType ≠ MessageType.ACK then
        some { pktHdr := { from_ := pktHdr.to_, to_ := pktHdr.from_, length := sizeofMailHeader }
               mailHdr := { from_ := mailHdr.to_, to_ := mailHdr.from_
                            messageType := MessageType.ACK, messageId := mailHdr.messageId
                            length := 0 }
               body := [] }
      else none
    pure (po1, ack)

/-- The postal worker on a sequence of arriving packets, and the ACKs it sent. -/
def PostOffice.deliverAll (M : Nat) :
    PostOffice → List Packet → Except Fault (PostOffice × List Packet)
  | po, [] => pure (po, [])
  | po, pkt :: rest => do
    let (po1, ack) ← po.PostalDelivery M pkt
    let (po2, acks) ← PostOffice.deliverAll M po1 rest
    pure (po2, ack.toList ++ acks)

/-- The loop of `PostOffice::SendPayload`, with `left` segments still to send:
the packet of segment `segIndex` is built and handed to `ReliableSendSegment`,
whose verdict for a message id is `acked`. -/
def SendPayload.loop (M : Nat) (acked : Int → Bool) (data : List Byte) :
    Nat → Nat → Payload → Bool × Payload × List Packet
  | 0, _, p => (true, p, [])
  | left + 1, segIndex, p =>
    let body : List Byte :=
      if segIndex + 1 = p.nbSegments then
        bcopy data (segIndex * M) (List.replicate M 0) 0 p.remainder
      else bcopy data (segIndex * M) (List.replicate M 0) 0 M
    let pkt : Packet := { pktHdr := p.pktHdr, mailHdr := p.mailHdr, body := body }
    if !acked p.mailHdr.messageId then (false, p, [pkt])
    else
      let r := SendPayload.loop M acked data left (segIndex + 1)
        { p with mailHdr := { p.mailHdr with messageId := p.mailHdr.messageId + 1 } }
      (r.1, r.2.1, pkt :: r.2.2)

/-- `PostOffice::SendPayload`: the verdict, the payload after the call (its
message id has advanced) and the data packets put on the network, one per
segment handed to `ReliableSendSegment`. -/
def PostOffice.SendPayload (M : Nat) (po : PostOffice) (acked : Int → Bool) (p : Payload)
    (data : List Byte) : Except Fault (Bool × Payload × List Packet) :=
  if ¬ (0 ≤ p.mailHdr.to_ ∧ p.mailHdr.to_ < po.numBoxes) then .error Fault.assertPayload
  else if p.pktHdr.from_ ≠ po.netAddr then .error Fault.assertPayload
  else if p.pktHdr.length ≠ M + sizeofMailHeader then .error Fault.assertPayload
  else .ok (SendPayload.loop M acked data p.nbSegments 0 p)

/-- `strlen(data)`: the bytes before the first zero byte. -/
def strlen : List Byte → Nat
  | [] => 0
  | b :: rest => if b = 0 then 0 else strlen rest + 1

/-- `bzero(data, n)`. -/
def bzero (data : List Byte) (n : Nat) : List Byte :=
  bcopy [] 0 data 0 n

/-- The loop of `PostOffice::ReceivePayload` after the first `Get`: as long as
`segIndex < p->nbSegments`, get the next mail of the box. -/
def ReceivePayload.loop (M : Nat) :
    List Mail → Nat → Payload → List Byte → Except Fault (List Mail × Payload × List Byte)
  | [], segIndex, p, data =>
    if segIndex < p.nbSegments then .error Fault.blocked else .ok ([], p, data)
  | mail :: rest, segIndex, p, data =>
    if segIndex < p.nbSegments then
      let r := MailBox.getMail M mail p segIndex data (segIndex * M)
      ReceivePayload.loop M rest (segIndex + 1) r.1 r.2
    else .ok (mail :: rest, p, data)

/-- `PostOffice::ReceivePayload(p, box, data)`: the post office, the payload
and the caller's buffer after the call. -/
def PostOffice.ReceivePayload (M : Nat) (po : PostOffice) (p : Payload) (box : Int)
    (data : List Byte) : Except Fault (PostOffice × Payload × List Byte) :=
  if ¬ (box ≥ 0 ∧ box < po.numBoxes) then .error Fault.assertBoxRange
  else do
    let data0 := bzero data (strlen data + 1)
    let b ← po.box box
    let (b1, p1, data1) ← b.Get M p 0 data0 0
    let (rest, p2, data2) ← ReceivePayload.loop M b1.messages 1 p1 data1
    pure (po.setBox box { b1 with messages := rest }, p2, data2)

/-- The drain loop `do { Wait } while (RemoveNoWaiting() != NULL)` of
`DisconnectPayload`; `waits` lists the packets that arrive during each wait. -/
def DisconnectPayload.loop (M : Nat) (box : Int) :
    Nat → PostOffice → List (List Packet) → Except Fault PostOffice
  | 0, _, _ => .error Fault.outOfFuel
  | fuel + 1, po, waits => do
    let (po1, _) ← PostOffice.deliverAll M po (waits.headD [])
    let b ← po1.box box
    match b.messages with
    | [] => pure po1
    | _ :: rest =>
      DisconnectPayload.loop M box fuel (po1.setBox box { b with messages := rest }) waits.tail

/-- `PostOffice::DisconnectPayload(inP)`; `waits` lists the packets that arrive
during each wait on the disconnect condition. -/
def PostOffice.DisconnectPayload (M : Nat) (po : PostOffice) (inP : Payload)
    (waits : List (List Packet)) : Except Fault PostOffice := do
  let box := inP.mailHdr.to_
  let b ← po.box box
  let po1 := po.setBox box { b with messages := [] }
  let (po2, _) ← PostOffice.deliverAll M po1 (waits.headD [])
  let po3 ← DisconnectPayload.loop M box ((waits.map List.length).sum + 1) po2 waits.tail
  let b3 ← po3.box box
  let po4 := po3.setBox box { b3 with waitedId := 0 }
  let used ← po4.usedBoxes.Clear box
  pure { po4 with usedBoxes := used }

/-- `PostOffice::Connect(addr)`: the connection (or NULL), the post office after
the call and the packets sent.  `timestamp` is `time(0)`, `acked` the verdict of
`ReliableSendSegment`, `arrivals` the packets the postal worker handles while
the caller waits for the answer. -/
def PostOffice.Connect (M : Nat) (po : PostOffice) (addr : Int) (timestamp : Int)
    (acked : Int → Bool) (arrivals : List Packet) :
    Except Fault (Option Connection × PostOffice × List Packet) :=
  if addr = po.netAddr then pure (none, po, [])
  else
    let (box, used) := po.usedBoxes.Find
    if box = -1 then pure (none, { po with usedBoxes := used }, [])
    else do
      let po1 := { po with usedBoxes := used }
      let b ← po1.box box
      let po2 := po1.setBox box { b with waitedId := 0 }
      let pOut := Payload.new.UpdatePayload M po.netAddr addr box LISTEN_BOX 4 MessageType.CONN
      let (_, pOut1, sent) ← po2.SendPayload M acked pOut (encodeInt timestamp)
      let (po3, acks) ← PostOffice.deliverAll M po2 arrivals
      let (po4, pIn, buffer) ← po3.ReceivePayload M Payload.new box (List.replicate M 0)
      if ¬ (buffer.getD 0 0 = 67 ∧ buffer.getD 1 0 = 0) then .error Fault.assertNotC
      else
        let pOut2 := pOut1.UpdatePayload M po.netAddr addr box pIn.mailHdr.from_ 0
          MessageType.DATA
        pure (some { pIn := pIn, pOut := pOut2 }, po4, sent ++ acks)

/-- `PostOffice::Listen()`: the connection (or NULL), the post office after the
call and the packets sent; `arrivals` are the packets the postal worker handles
while the caller waits on `LISTEN_BOX`. -/
def PostOffice.Listen (M : Nat) (po : PostOffice) (acked : Int → Bool)
    (arrivals : List Packet) : Except Fault (Option Connection × PostOffice × List Packet) :=
  let (box, used) := po.usedBoxes.Find
  if box = -1 then pure (none, { po with usedBoxes := used }, [])
  else do
    let po1 := { po with usedBoxes := used }
    let b ← po1.box box
    let po2 := po1.setBox box { b with waitedId := 1 }
    let (po3, acks) ← PostOffice.deliverAll M po2 arrivals
    let (po4, pIn, _) ← po3.ReceivePayload M Payload.new LISTEN_BOX (List.replicate M 0)
    if pIn.mailHdr.messageType ≠ MessageType.CONN then .error Fault.assertNotConn
    else do
      let pOut := Payload.new.UpdatePayload M po.netAddr pIn.pktHdr.from_ box pIn.mailHdr.from_ 2
        MessageType.DATA
      let (_, pOut1, sent) ← po4.SendPayload M acked pOut [67, 0]
      pure (some { pIn := pIn, pOut := pOut1 }, po4, acks ++ sent)

/-- `PostOffice::Send(conn, data, data_size)`. -/
def PostOffice.Send (M : Nat) (po : PostOffice) (acked : Int → Bool) (conn : Option Connection)
    (data : List Byte) (data_size : Nat) :
    Except Fault (Bool × Option Connection × List Packet) :=
  match conn with
  | none => pure (false, none, [])
  | some c => do
    let (ok, pOut1, sent) ← po.SendPayload M acked (c.pOut.UpdatePayloadSize M data_size) data
    pure (ok, some { c with pOut := pOut1 }, sent)

/-- `PostOffice::Receive(conn, data)`: it reads the box `conn->pOut->mailHdr.from`. -/
def PostOffice.Receive (M : Nat) (po : PostOffice) (conn : Option Connection)
    (data : List Byte) : Except Fault (Bool × Option Connection × PostOffice × List Byte) :=
  match conn with
  | none => pure (false, none, po, data)
  | some c => do
    let (po1, pIn, data1) ← po.ReceivePayload M c.pIn c.pOut.mailHdr.from_ data
    pure (true, some { c with pIn := pIn }, po1, data1)

/-- `PostOffice::Disconnect(conn)`: it drains and frees the box
`conn->pIn->mailHdr.to`. -/
def PostOffice.Disconnect (M : Nat) (po : PostOffice) (conn : Option Connection)
    (waits : List (List Packet)) : Except Fault PostOffice :=
  match conn with
  | none => pure po
  | some c => po.DisconnectPayload M c.pIn waits

/-- The messages of box `b`, or nothing when `b` is no box. -/
def PostOffice.queue (po : PostOffice) (b : Int) : List Mail :=
  match po.box b with
  | .ok box => box.messages
  | .error _ => []

/-- The segmentation round trip: machine 0 sends `data` from its box 1 to box 2
of machine 1 with `SendPayload`; the network delivers every packet (so every
segment is acknowledged), the postal worker of machine 1 handles the packets in
order, and `ReceivePayload` on box 2 fills the buffer `buf0`.  The result is
the buffer after the call. -/
def segmentRoundTrip (M : Nat) (data : List Byte) (buf0 : List Byte) :
    Except Fault (List Byte) := do
  let sender := PostOffice.new 0 10
  let receiver := PostOffice.new 1 10
  let p := Payload.new.UpdatePayload M 0 1 1 2 data.length MessageType.DATA
  let (_, _, pkts) ← sender.SendPayload M (fun _ => true) p data
  let (receiver1, _) ← PostOffice.deliverAll M receiver pkts
  let (_, _, out) ← receiver1.ReceivePayload M Payload.new 2 buf0
  pure out

/-- A CONN packet as `Connect` on machine 0 sends it from its box 1 to the
`LISTEN_BOX` of machine 1, with timestamp 1000. -/
def connPacket : Packet :=
  { pktHdr := { to_ := 1, from_ := 0, length := 52 }
    mailHdr := { to_ := 0, from_ := 1, length := 4, messageType := MessageType.CONN,
                 messageId := 0 }
    body := padTake 32 (encodeInt 1000) }

/-- A DATA packet from box 1 of machine 0 to box `toBox` of machine 1, with
message id `id` and a one-byte message. -/
def dataPacket (toBox : Int) (id : Int) : Packet :=
  { pktHdr := { to_ := 1, from_ := 0, length := 52 }
    mailHdr := { to_ := toBox, from_ := 1, length := 1, messageType := MessageType.DATA,
                 messageId := id }
    body := padTake 32 [7] }

/-- Machine 1 with ten boxes calls `Listen`; the CONN of machine 0 arrives. -/
def listenScenario : Except Fault (Option Connection × PostOffice × List Packet) :=
  PostOffice.Listen 32 (PostOffice.new 1 10) (fun _ => true) [connPacket]

/-- The free map of a freshly formatted disk of `N` sectors on which one file
has been created: sectors 0 to 5 are taken (the two well-known headers, the
data sector of the free map, the two data sectors of the root directory, the
header of the file). -/
def formattedMap (N : Nat) : BitMap :=
  ⟨List.replicate 6 true ++ List.replicate (N - 6) false⟩

/-- The header of the free-map file of a 1024-sector disk: 128 bytes in sector 2. -/
def freeMapHeader : FileHeader :=
  { type := DATA_FILE, numBytes := 128, numSectors := 1
    dataSectors := [2] ++ List.replicate 28 0 }

/-- The header of the root directory: 200 bytes in sectors 3 and 4. -/
def rootHeader : FileHeader :=
  { type := ROOT, numBytes := 200, numSectors := 2
    dataSectors := [3, 4] ++ List.replicate 27 0 }

/-- The header of an empty file, as `Create(name, 0)` writes it when the memory
of the header object was zero. -/
def emptyHeader : FileHeader :=
  { type := DATA_FILE, numBytes := 0, numSectors := 0, dataSectors := List.replicate 29 0 }

/-- A freshly formatted disk (128-byte sectors, 1024 sectors) with one empty
file whose header is in sector 5; every other sector is still zero. -/
def formattedDisk : Disk := fun t =>
  if t = 0 then freeMapHeader.encode
  else if t = 1 then rootHeader.encode
  else if t = 2 then (formattedMap 1024).toBytes
  else if t = 5 then emptyHeader.encode
  else []

/-- The file system on `formattedDisk` after `OpenUser` of the empty file: it
is open under descriptor 0. -/
def openedFileSystem : FileSystem :=
  { freeMapFile := { hdr := freeMapHeader, seekPosition := 0 }
    directoryFile := { hdr := rootHeader, seekPosition := 0 }
    DirectorySector := 1
    openedFileMap := ⟨[true] ++ List.replicate 9 false⟩
    openedFiles := List.replicate 10 { object := { hdr := emptyHeader, seekPosition := 0 }, id := 5 } }

/-- The round trip of the file calls on the opened empty file:
`WriteUser(buf, k, 0)`, `SeekUser(0, 0)`, `ReadUser(out, k, 0)`; the result is
the two values returned and the bytes read. -/
def writeSeekRead (k : Int) (buf : List Byte) : Except Fault (Int × Int × List Byte) := do
  let (written, fs1, disk1) ← openedFileSystem.WriteUser 128 1024 formattedDisk buf k 0
  let (_, fs2) ← fs1.SeekUser 0 0
  let (read, out, _) ← fs2.ReadUser 128 1024 disk1 k 0
  pure (written, read, out)
/-- The step from the free map `m` to the free map `m1` took exactly the
sectors of `l` : the maps have the same size, the sectors of `l` are pairwise
distinct, each was clear in `m` (free before it was taken) and is set in `m1`,
and every other bit is the same in `m` and `m1`. -/
def Taken (m m1 : BitMap) (l : List Int) : Prop :=
  m1.bits.length = m.bits.length ∧ l.Nodup ∧
  (∀ s ∈ l, m.Test s = .ok false ∧ m1.Test s = .ok true) ∧
  (∀ s, s ∉ l → m1.Test s = m.Test s)

/-- The calls `file->Write((char *)&sector, 4)` for the sectors of a list, one
after the other: the disk and the file after them. -/
def writeAll (S N : Nat) : Disk → OpenFile → List Int → Except Fault (Disk × OpenFile)
  | disk, file, [] => pure (disk, file)
  | disk, file, sector :: rest => do
    let (_, file1, disk1) ← OpenFile.Write S N disk file (encodeInt sector) 4
    writeAll S N disk1 file1 rest

/-- What a successful `Extend` from header `h`, free map `m` and disk `disk`
did, in terms of four lists of sectors: `direct` are the sectors stored in the
new direct entries of the header, `und` is the sector of the header of the
undirected block when the call created that block (else empty), `own` are the
new data sectors of the undirected block (the new entries of its header,
which is written back to the sector in entry `NumDirect - 1`), and `ptrs` are
the sector numbers written, four bytes each, at the end of the file of the
undirected block.  All of them together are what the call took from the free
map. -/
def ExtendTook (S N : Nat) (m m1 : BitMap) (disk disk1 : Disk) (h h1 : FileHeader)
    (direct und own ptrs : List Int) : Prop :=
  Taken m m1 (direct ++ und ++ own ++ ptrs) ∧
    h1.dataSectors.length = h.dataSectors.length ∧
    (∀ j : Int, getEntry h1.dataSectors j =
      if h.numSectors ≤ j ∧ j < h.numSectors + direct.length then
        .ok (direct.getD (j - h.numSectors).toNat 0)
      else if und ≠ [] ∧ j = (NumDirect S : Int) - 1 then .ok (und.getD 0 0)
      else getEntry h.dataSectors j) ∧
    (direct.length : Int) =
      max (min h1.numSectors ((NumDirect S : Int) - 1) - h.numSectors) 0 ∧
    (h1.numSectors ≤ max h.numSectors ((NumDirect S : Int) - 1) →
      und = [] ∧ own = [] ∧ ptrs = [] ∧ disk1 = disk) ∧
    (max h.numSectors ((NumDirect S : Int) - 1) < h1.numSectors →
      und.length = (if h.numSectors ≤ (NumDirect S : Int) - 1 then 1 else 0) ∧
      (ptrs.length : Int) = h1.numSectors - max h.numSectors ((NumDirect S : Int) - 1) ∧
      ∃ (u : Int) (ind ind1 : FileHeader) (diskW : Disk) (file file1 : OpenFile),
        getEntry h1.dataSectors ((NumDirect S : Int) - 1) = .ok u ∧
        (if h.numSectors > (NumDirect S : Int) - 1 then
            FileHeader.FetchFrom S N disk u = .ok ind
          else ind = { type := DATA_FILE, numBytes := 0, numSectors := 0,
                       dataSectors := List.replicate (NumDirect S) 0 }) ∧
        ind1.numBytes = ind.numBytes + (ptrs.length : Int) * 4 ∧
        ind1.numSectors = divRoundUp ind1.numBytes S ∧
        (own.length : Int) = max (ind1.numSectors - ind.numSectors) 0 ∧
        (∀ j : Int, getEntry ind1.dataSectors j =
          if ind.numSectors ≤ j ∧ j < ind.numSectors + own.length then
            .ok (own.getD (j - ind.numSectors).toNat 0)
          else getEntry ind.dataSectors j) ∧
        ind1.WriteBack S N disk u = .ok diskW ∧
        OpenFile.new S N diskW u = .ok file ∧
        writeAll S N diskW (file.Seek (file.Length - (ptrs.length : Int) * 4)) ptrs =
          .ok (disk1, file1))

/-- The header of the file of the formatted disk once it holds 100 bytes, in
sector 6. -/
def smallHeader : FileHeader :=
  { type := DATA_FILE, numBytes := 100, numSectors := 1
    dataSectors := [6] ++ List.replicate 28 0 }

/-- On the formatted disk with the empty file open under descriptor 0:
`WriteUser` of 100 bytes, then, from the seek position 100 where that call
leaves the file, `WriteUser(buffer, 2147483647, 0)`.  The result is what the
two calls return and the `numBytes` and `numSectors` of the header of the file
as it is on the disk afterwards. -/
def writeHugeAfterSmall : Except Fault (Int × Int × Int × Int) := do
  let (v1, fs1, disk1) ←
    openedFileSystem.WriteUser 128 1024 formattedDisk (List.replicate 100 7) 100 0
  let (v2, _, disk2) ← fs1.WriteUser 128 1024 disk1 [7] 2147483647 0
  let hdr ← FileHeader.FetchFrom 128 1024 disk2 5
  pure (v1, v2, hdr.numBytes, hdr.numSectors)

/-- `Allocate(size)` on the header object of the empty file with the free map
of the formatted disk, then `Deallocate`: the free map after both. -/
def allocateThenDeallocate (size : Int) : Except Fault BitMap := do
  let (_, m, d, h) ← emptyHeader.Allocate 128 1024 (formattedMap 1024) formattedDisk size DATA_FILE
  h.Deallocate 128 1024 d m

/-- The header of the file of the undirected block when `Extend` asks it for
897 pointers: 3588 bytes in 29 sectors. -/
def pointerFileHeader : FileHeader :=
  { type := DATA_FILE, numBytes := 3588, numSectors := 29
    dataSectors := (List.range 29).map (fun (i : Nat) => (35 : Int) + (i : Int)) }

/-- A call of the user-level interface on the open-file table: `OpenUser(name)`
on the disk as it is at the time of the call, or `CloseUser(index)`. -/
inductive TableCall where
  | openUser (disk : Disk) (name : List Byte)
  | closeUser (index : Int)

/-- The file system after a sequence of `OpenUser` and `CloseUser` calls. -/
def FileSystem.tableCalls (S N W : Nat) : FileSystem → List TableCall → Except Fault FileSystem
  | fs, [] => pure fs
  | fs, TableCall.openUser disk name :: rest => do
    let (_, fs1) ← fs.OpenUser S N W disk name
    FileSystem.tableCalls S N W fs1 rest
  | fs, TableCall.closeUser index :: rest => do
    let (_, fs1) ← fs.CloseUser index
    FileSystem.tableCalls S N W fs1 rest

/-- O-Unique: no two live entries of the open-file table hold the same header
sector. -/
def OUnique (fs : FileSystem) : Prop :=
  ∀ (i j : Int) (a b : UserFile), fs.openedFileMap.Test i = .ok true →
    fs.openedFileMap.Test j = .ok true → fs.entry i = .ok a → fs.entry j = .ok b →
    a.id = b.id → i = j

/-- The open-file table has its `MaxOpenedFiles` slots and its bitmap as many bits. -/
def TableSized (fs : FileSystem) : Prop :=
  fs.openedFileMap.bits.length = 10 ∧ fs.openedFiles.length = 10

/-! ## Scenarios of the directory calls -/

/-- The name `Test`. -/
def testName : List Byte := [84, 101, 115, 116]

/-- The name `docs`. -/
def docsName : List Byte := [100, 111, 99, 115]

/-- An entry of a directory that is not in use. -/
def unusedEntry : DirectoryEntry := { inUse := false, name := List.replicate 12 0, sector := 0 }

/-- A root directory with the data file `Test` (header in sector 5) and the
directory `docs` (header in sector 6). -/
def rootDirectory : Directory :=
  ⟨[{ inUse := true, name := padTake 12 testName, sector := 5 },
    { inUse := true, name := padTake 12 docsName, sector := 6 }] ++ List.replicate 8 unusedEntry⟩

/-- The directory `docs`: only `.` (itself, sector 6) and `..` (the root, sector 1). -/
def docsDirectory : Directory :=
  ⟨[{ inUse := true, name := padTake 12 [46], sector := 6 },
    { inUse := true, name := padTake 12 [46, 46], sector := 1 }] ++ List.replicate 8 unusedEntry⟩

/-- The header of the directory `docs`: 200 bytes in sectors 7 and 8. -/
def docsHeader : FileHeader :=
  { type := DIRECTORY, numBytes := 200, numSectors := 2
    dataSectors := [7, 8] ++ List.replicate 27 0 }

/-- The bytes of a directory file with 12-byte names. -/
def Directory.bytes (d : Directory) : List Byte :=
  (d.table.map (DirectoryEntry.encode 12)).flatten

/-- The formatted disk after `Create("Test", 0)` and `CreateDir("docs")`:
sectors 0 to 8 are taken. -/
def populatedDisk : Disk := fun t =>
  if t = 2 then (BitMap.mk (List.replicate 9 true ++ List.replicate 1015 false)).toBytes
  else if t = 3 then rootDirectory.bytes.take 128
  else if t = 4 then rootDirectory.bytes.drop 128
  else if t = 6 then docsHeader.encode
  else if t = 7 then docsDirectory.bytes.take 128
  else if t = 8 then docsDirectory.bytes.drop 128
  else formattedDisk t

/-- The file system after boot on a formatted disk: the root directory is the
current directory and no file is open. -/
def bootedFileSystem : FileSystem :=
  { freeMapFile := { hdr := freeMapHeader, seekPosition := 0 }
    directoryFile := { hdr := rootHeader, seekPosition := 0 }
    DirectorySector := 1
    openedFileMap := ⟨List.replicate 10 false⟩
    openedFiles := List.replicate 10
      { object := { hdr := { type := 0, numBytes := 0, numSectors := 0, dataSectors := [] },
                    seekPosition := 0 }, id := 0 } }

/-- The booted file system after `OpenUser("Test")` on the populated disk:
the file is open under descriptor 0. -/
def testOpened : FileSystem :=
  { bootedFileSystem with
    openedFileMap := ⟨[true] ++ List.replicate 9 false⟩
    openedFiles := bootedFileSystem.openedFiles.set 0
      { object := { hdr := emptyHeader, seekPosition := 0 }, id := 5 } }

/-- The free map of a disk that is almost full: of the 1024 sectors only the
40 sectors from 6 to 45 are free. -/
def nearlyFullMap : BitMap :=
  ⟨List.replicate 6 true ++ List.replicate 40 false ++ List.replicate 978 true⟩

/-- The formatted disk with the almost full free map in the free-map file. -/
def nearlyFullDisk : Disk := fun t =>
  if t = 2 then nearlyFullMap.toBytes else formattedDisk t

/-- Two calls of `Extend` on the almost full disk: the empty file grows to 29
sectors (this takes 31 sectors and creates the undirected block, with one
pointer), then by 20 sectors more, for which 9 sectors are left.  The result
is the two verdicts, and the size in the header of the undirected block on
disk after the first and after the second call. -/
def extendTwice : Except Fault (Bool × Bool × Int × Int) := do
  let (ok1, freeMap1, disk1, hdr1) ← emptyHeader.Extend 128 1024 nearlyFullMap formattedDisk 3712
  let (ok2, _, disk2, _) ← hdr1.Extend 128 1024 freeMap1 disk1 2560
  let undirected ← getEntry hdr1.dataSectors 28
  let before ← FileHeader.FetchFrom 128 1024 disk1 undirected
  let after ← FileHeader.FetchFrom 128 1024 disk2 undirected
  pure (ok1, ok2, before.numBytes, after.numBytes)

/-- `WriteUser` of `size` bytes on the empty file open under descriptor 0 of the
almost full disk: the value returned and whether sectors 34 and 35 of the disk
are what they were before the call. -/
def writeOnFullDisk (size : Int) : Except Fault (Int × Bool × Bool) := do
  let (value, _, disk1) ←
    openedFileSystem.WriteUser 128 1024 nearlyFullDisk (List.replicate size.toNat 7) size 0
  pure (value, disk1 34 == nearlyFullDisk 34, disk1 35 == nearlyFullDisk 35)

/-- An address space of 32 pages of 128 bytes (4096 bytes) after
`InitializeThreadData`; the frames are 0 to 31. -/
def exampleSpace : AddrSpace :=
  AddrSpace.InitializeThreadData 128
    { numPages := 32
      pageTable := (List.range 32).map (fun (i : Nat) =>
        { virtualPage := (i : Int), physicalPage := (i : Int), valid := true, use := false,
          dirty := false, readOnly := false })
      brk := 4096
      stackStartAddrs := [] }

/-- The entries that the loops of the constructor and of `do_Sbrk` write from
virtual page `i` on: valid, not used, not dirty, writable, and numbered by
their index. -/
def FreshEntries (table : List TranslationEntry) (i : Nat) : Prop :=
  ∀ (k : Nat) (e : TranslationEntry), table.get? k = some e →
    e.virtualPage = ((i + k : Nat) : Int) ∧ e.valid = true ∧ e.use = false ∧ e.dirty = false ∧
      e.readOnly = false

/-- The frames of a page table. -/
def framesOf (table : List TranslationEntry) : List Int :=
  table.map (fun e => e.physicalPage)

/-- The frames of the live address spaces, one after the other. -/
def Frames.frames (st : Frames) : List Int :=
  (st.spaces.map (fun s => framesOf s.pageTable)).flatten

/-- The state of the frames is coherent: the frame map has `NumPhysPages`
bits, the count of available frames is the number of clear bits, every page
table has `numPages` entries, no frame is in two entries of live page tables,
and the frames of the live page tables are exactly the set bits. -/
def FramesInv (NumPhysPages : Nat) (st : Frames) : Prop :=
  st.fp.frameMap.bits.length = NumPhysPages ∧
  st.fp.nAvailFrame = st.fp.frameMap.NumClear ∧
  (∀ s ∈ st.spaces, s.pageTable.length = s.numPages) ∧
  st.frames.Nodup ∧
  (∀ f ∈ st.frames, st.fp.frameMap.Test f = .ok true) ∧
  st.fp.frameMap.NumClear + st.frames.length = NumPhysPages

/-- A sequence of calls on a machine of 64 frames: two address spaces of 20
and 10 pages, three more pages for the second, the end of the first process,
a `do_Sbrk` that asks for more frames than are left, and a third address space
of 8 pages. -/
def exampleFrameCalls : List FrameCall :=
  [FrameCall.create 20, FrameCall.create 10, FrameCall.sbrk 1 3, FrameCall.release 0,
   FrameCall.sbrk 0 60, FrameCall.create 8]

/-- The frames of a machine of 64 frames after `exampleFrameCalls`. -/
def framesAfterCalls : Frames :=
  match Frames.run 128 64 { fp := FrameProvider.new 64, spaces := [] } exampleFrameCalls with
  | .ok st => st
  | .error _ => { fp := FrameProvider.new 64, spaces := [] }

/-! ## User semaphores, process join and strings of the user (`userthread.cc`, `exception.cc`) -/

/-- `#define MAX_SEM 128`. -/
def MAX_SEM : Nat := 128

/-- The fields `semBitmap` and `semList` of the class `AddrSpace`; a null
pointer in `semList` is `none`. -/
structure SemTable where
  semBitmap : BitMap
  semList : List (Option Semaphore)
  deriving DecidableEq, Repr

/-- The table of a new address space: `new BitMap(MAX_SEM)` and
`new Semaphore *[MAX_SEM]`. -/
def SemTable.new : SemTable :=
  { semBitmap := ⟨List.replicate MAX_SEM false⟩, semList := List.replicate MAX_SEM none }

/-- The read `semList[semId]`; an index outside the table is a fault. -/
def SemTable.entry (t : SemTable) (semId : Int) : Except Fault (Option Semaphore) :=
  if 0 ≤ semId ∧ semId < t.semList.length then .ok (t.semList.getD semId.toNat none)
  else .error Fault.outOfBounds

/-- `do_SemInit`: the identifier returned and the table after the call. -/
def do_SemInit (t : SemTable) (initValue : Int) : Int × SemTable :=
  let (semId, map1) := t.semBitmap.Find
  if semId != -1 then
    (semId, { semBitmap := map1, semList := t.semList.set semId.toNat (some (Semaphore.new initValue)) })
  else (semId, { t with semBitmap := map1 })

/-- `do_SemPost`: the table after the call and the thread made ready, if any. -/
def do_SemPost (t : SemTable) (semId : Int) : Except Fault (SemTable × Option Nat) :=
  if semId < MAX_SEM then do
    let marked ← t.semBitmap.Test semId
    if marked then do
      let sem ← t.entry semId
      match sem with
      | some s =>
        let r := s.V
        pure ({ t with semList := t.semList.set semId.toNat (some r.1) }, r.2)
      | none => pure (t, none)
    else pure (t, none)
  else pure (t, none)

/-- `do_SemWait` by the thread `currentThread`: the table after the call, and
whether the caller went to sleep in `P`. -/
def do_SemWait (t : SemTable) (semId : Int) (currentThread : Nat) :
    Except Fault (SemTable × Bool) :=
  if semId < MAX_SEM then do
    let marked ← t.semBitmap.Test semId
    if marked then do
      let sem ← t.entry semId
      match sem with
      | some s =>
        match s.P currentThread with
        | POutcome.returned s1 => pure ({ t with semList := t.semList.set semId.toNat (some s1) }, false)
        | POutcome.asleep s1 => pure ({ t with semList := t.semList.set semId.toNat (some s1) }, true)
      | none => pure (t, false)
    else pure (t, false)
  else pure (t, false)

/-- `do_SemDestroy`: the table after the call. -/
def do_SemDestroy (t : SemTable) (semId : Int) : Except Fault SemTable :=
  if semId < MAX_SEM then do
    let marked ← t.semBitmap.Test semId
    if marked then do
      let sem ← t.entry semId
      match sem with
      | some _ => do
        let map1 ← t.semBitmap.Clear semId
        pure { semBitmap := map1, semList := t.semList.set semId.toNat none }
      | none => pure t
    else pure t
  else pure t

/-- What `do_ProcessJoin` does after its test of `pid`: it returns, or it
waits on `processJoinCond` of the address space. -/
inductive JoinOutcome where
  | returned
  | waiting
  deriving DecidableEq, Repr

/-- `do_ProcessJoin` from the call to the first test of its loop.
`MaxProcesses` is `NumPhysPages`; `addrspaces` is the global table of the
address spaces by pid (a null pointer is `none`), `pidMap` the bitmap of the
pids in use. -/
def do_ProcessJoin (MaxProcesses : Nat) (addrspaces : List (Option AddrSpace)) (pidMap : BitMap)
    (pid : Int) : Except Fault JoinOutcome :=
  if pid < 0 ∨ pid > MaxProcesses then pure JoinOutcome.returned
  else do
    let space ←
      if 0 ≤ pid ∧ pid < addrspaces.length then
        (pure (addrspaces.getD pid.toNat none) : Except Fault (Option AddrSpace))
      else .error Fault.outOfBounds
    match space with
    | none => pure JoinOutcome.returned
    | some _ => do
      let marked ← pidMap.Test pid
      if marked then pure JoinOutcome.waiting else pure JoinOutcome.returned

/-- Modelled from the spec: `Machine::ReadMem(addr, 1, value)` of the
simulator (`translate.cc` is not among the sources), on the bytes of the
virtual memory of the running process: the byte at `addr` as an `int`, or
nothing when the address does not translate (then `*value` is not written). -/
def ReadMem (mem : List Byte) (addr : Int) : Option Int :=
  if 0 ≤ addr ∧ addr < mem.length then some ((mem.getD addr.toNat 0 % 256 : Nat) : Int) else none

/-- The loop of `copyStringFromMachine` with `left = size - i` turns to go:
`ReadMem(from + i, 1, (int *)(to + i))` stores an `int`, four bytes from
`to + i` on; the result is `i` at the exit of the loop and the buffer.  `to_`
holds the bytes from the address `to` on. -/
def copyStringFromMachine.loop (mem : List Byte) (from_ : Int) :
    Nat → Nat → List Byte → Nat × List Byte
  | 0, i, to_ => (i, to_)
  | left + 1, i, to_ =>
    let to1 :=
      match ReadMem mem (ofU32 (toU32 (from_ + i))) with
      | some value => bcopy (encodeInt value) 0 to_ i 4
      | none => to_
    if to1.getD i 0 = 0 then (i, to1)
    else copyStringFromMachine.loop mem from_ left (i + 1) to1

/-- `copyStringFromMachine(from, to, size)`: the bytes from the address `to`
on after the call. -/
def copyStringFromMachine (mem : List Byte) (from_ : Int) (to_ : List Byte) (size : Nat) :
    List Byte :=
  let r := copyStringFromMachine.loop mem from_ size 0 to_
  r.2.set r.1 0

/-! ## Stop-and-wait emission of a segment (`PostOffice::ReliableSendSegment`) -/

/-- The loop of `ReliableSendSegment` with `left = MAXREEMISSIONS - nReemissions`
turns to go.  At each turn the packet `pkt` is handed to the network and the
caller waits on the condition of the box `p->mailHdr.from`; `wakes` lists, for
each wait in turn, the packets that the postal worker handles before the caller
runs again (none when the tempo handler woke it).  The result is the verdict,
the post office after the call and the packets emitted. -/
def ReliableSendSegment.loop (M : Nat) (p : Payload) (pkt : Packet) :
    Nat → PostOffice → List (List Packet) → Except Fault (Bool × PostOffice × List Packet)
  | 0, po, _ => pure (false, po, [])
  | left + 1, po, wakes => do
    let (po1, _) ← PostOffice.deliverAll M po (wakes.headD [])
    let box ← po1.box p.mailHdr.from_
    let ackId := box.ackId
    if ackId = p.mailHdr.messageId then pure (true, po1, [pkt])
    else do
      let r ← ReliableSendSegment.loop M p pkt left po1 wakes.tail
      pure (r.1, r.2.1, pkt :: r.2.2)

/-- `PostOffice::ReliableSendSegment(p, data)`: `pkt` is the packet made of
`p->pktHdr` and the buffer `data`. -/
def PostOffice.ReliableSendSegment (M : Nat) (po : PostOffice) (p : Payload) (pkt : Packet)
    (wakes : List (List Packet)) : Except Fault (Bool × PostOffice × List Packet) :=
  ReliableSendSegment.loop M p pkt MAXREEMISSIONS po wakes

/-! ## Scenarios of the user calls -/

/-- The semaphore table of an address space after a first `do_SemInit(1)`:
semaphore 0 exists with the value 1, the 127 other slots are free. -/
def exampleSems : SemTable :=
  (do_SemInit SemTable.new 1).2

/-- A process table of a machine of 64 frames (`MaxProcesses` 64) in which
only the process 0 lives. -/
def exampleProcesses : List (Option AddrSpace) :=
  some exampleSpace :: List.replicate 63 none

/-- The bitmap `pidMap` that goes with `exampleProcesses`. -/
def examplePidMap : BitMap :=
  ⟨true :: List.replicate 63 false⟩

/-- A user memory of 16 bytes that holds `abcdef` with no zero byte in the
first six bytes, then `hi` and a zero byte. -/
def exampleUserMemory : List Byte :=
  [97, 98, 99, 100, 101, 102, 104, 105, 0, 0, 0, 0, 0, 0, 0, 0]

/-- A destination buffer of four bytes (value 1) and the four bytes that lie
behind it in the memory of the kernel (value 7). -/
def exampleBuffer : List Byte :=
  [1, 1, 1, 1, 7, 7, 7, 7]

/-- The value of `boxes[box].ackId` that a sender reads at its wake-up number
`k` (from 0): the postal worker has handled the packets of the waits 0 to `k`. -/
def PostOffice.ackIdAtWake (M : Nat) (po : PostOffice) (box : Int) (wakes : List (List Packet))
    (k : Nat) : Except Fault Int := do
  let (po1, _) ← PostOffice.deliverAll M po (wakes.take (k + 1)).flatten
  let b ← po1.box box
  pure b.ackId

/-- The packets of a wait are legal for an office of `numBoxes` boxes: each is
addressed to one of its boxes. -/
def LegalPackets (numBoxes : Nat) (pkts : List Packet) : Prop :=
  ∀ q ∈ pkts, 0 ≤ q.mailHdr.to_ ∧ q.mailHdr.to_ < numBoxes

/-- The ACK that machine 1 sends to box 1 of machine 0 for the message 0. -/
def ackPacket : Packet :=
  { pktHdr := { to_ := 0, from_ := 1, length := 20 }
    mailHdr := { to_ := 1, from_ := 0, length := 0, messageType := MessageType.ACK,
                 messageId := 0 }
    body := [] }

/-- The answer `"C"` of `Listen` on machine 1, sent from its box 1 to box 1 of
machine 0 with the message id 0. -/
def acceptPacket : Packet :=
  { pktHdr := { to_ := 0, from_ := 1, length := 52 }
    mailHdr := { to_ := 1, from_ := 1, length := 2, messageType := MessageType.DATA,
                 messageId := 0 }
    body := padTake 32 [67, 0] }

/-- Machine 0 with ten boxes connects to machine 1 (its CONN with id 0 is
acknowledged and the answer `"C"` arrives), then disconnects: the office after
`Disconnect`, during which no packet arrives. -/
def officeAfterDisconnect : Except Fault PostOffice := do
  let (conn, po1, _) ← (PostOffice.new 0 10).Connect 32 1 1000 (fun _ => true)
    [ackPacket, acceptPacket]
  po1.Disconnect 32 conn []

/-- The payload of the CONN that a second `Connect(1)` of machine 0 sends from
the box 1 it has been given again: a new payload, so with the message id 0. -/
def secondConnPayload : Payload :=
  Payload.new.UpdatePayload 32 0 1 1 LISTEN_BOX 4 MessageType.CONN

/-- The packet of that CONN, with the timestamp 2000. -/
def secondConnPacket : Packet :=
  { pktHdr := secondConnPayload.pktHdr, mailHdr := secondConnPayload.mailHdr
    body := padTake 32 (encodeInt 2000) }

/-- The second `Connect(1)` of machine 0 up to the end of its
`ReliableSendSegment`: box 1 is allocated again, its `waitedId` is reset, and
the CONN is emitted; the first wake-up comes from the tempo handler, no packet
has arrived. -/
def secondConnect : Except Fault (Int × Bool × PostOffice × List Packet) := do
  let po ← officeAfterDisconnect
  let (box, used) := po.usedBoxes.Find
  let po1 := { po with usedBoxes := used }
  let b ← po1.box box
  let po2 := po1.setBox box { b with waitedId := 0 }
  let r ← po2.ReliableSendSegment 32 secondConnPayload secondConnPacket []
  pure (box, r)

/-- The payload of a message of 40 bytes (two segments) that machine 0 sends
from its box 1 to box 2 of machine 1, with the message id 0. -/
def examplePayload : Payload :=
  Payload.new.UpdatePayload 32 0 1 1 2 40 MessageType.DATA

/-- The packet of the first segment of `examplePayload`, 32 bytes `A`. -/
def exampleSegment : Packet :=
  { pktHdr := examplePayload.pktHdr, mailHdr := examplePayload.mailHdr
    body := List.replicate 32 65 }

/-- The waits of a sender on box 1 of machine 0: the tempo handler wakes it
first, then the ACK for the message 0 arrives. -/
def exampleWakes : List (List Packet) :=
  [[], [ackPacket]]

/-! ## Process migration (`migrate.cc`)

`NumTotalRegs` comes from `machine.h`: a parameter.  A field is one message
of the connection, the bytes handed to one `Send`; the connection layer that
carries the fields is the post office above. -/

/-- `INT_MAX` of `<climits>`, the mark of a free slot. -/
def INT_MAX : Int := 2147483647

/-- Modelled from the spec: `Machine::WriteMem(addr, 1, value)` of the
simulator (`translate.cc` is not among the sources), on the bytes of the
virtual memory of the running process: the low byte of `value` is stored at
`addr`; nothing is stored when the address does not translate. -/
def WriteMem (mem : List Byte) (addr : Int) (value : Int) : List Byte :=
  if 0 ≤ addr ∧ addr < mem.length then mem.set addr.toNat (toU32 value % 256) else mem

/-- The value of a `char` of the kernel as an `int` (sign extension). -/
def charToInt (b : Byte) : Int :=
  if b % 256 < 128 then ((b % 256 : Nat) : Int) else ((b % 256 : Nat) : Int) - 256

/-- A live thread of a slot of `localThreadsInfos`: its `userthread_id` and
the `userRegisters` of its kernel thread. -/
structure SlotThread where
  userthread_id : Nat
  userRegisters : List Int
  deriving DecidableEq, Repr

/-- What `SendProcess` reads of the sending process, and what `ListenProcess`
builds: the page count, the bytes of the virtual memory by address, the user
registers of the main thread, the semaphores, `nThreads`, and for each slot
its live thread, if any. -/
structure ProcessImage where
  numPages : Nat
  memory : List Byte
  userRegisters : List Int
  sems : SemTable
  nThreads : Int
  localThreadsInfos : List (Option SlotThread)
  deriving DecidableEq, Repr

/-- The field of one byte of memory:
`int value; ReadMem(addr, 1, &value); Send(c, (char *)&value, sizeof(char))`.
An address that does not translate leaves `value` unset, 0 here. -/
def SendProcess.byte (mem : List Byte) (addr : Nat) : List Byte :=
  match ReadMem mem addr with
  | some value => (encodeInt value).take 1
  | none => [0]

/-- The inner loop of `SendProcess` on page `nPage`, from `j` on with
`left = PageSize - j` turns to go. -/
def SendProcess.page (PageSize : Nat) (mem : List Byte) (nPage : Nat) :
    Nat → Nat → List (List Byte)
  | 0, _ => []
  | left + 1, j =>
    SendProcess.byte mem (nPage * PageSize + j) :: SendProcess.page PageSize mem nPage left (j + 1)

/-- The outer loop of `SendProcess` over the pages, from `nPage` on. -/
def SendProcess.pages (PageSize : Nat) (mem : List Byte) : Nat → Nat → List (List Byte)
  | 0, _ => []
  | left + 1, nPage =>
    SendProcess.page PageSize mem nPage PageSize 0 ++ SendProcess.pages PageSize mem left (nPage + 1)

/-- The loop that sends `userRegisters[r]`, four bytes each, from `r` on. -/
def SendProcess.registers (regs : List Int) : Nat → Nat → List (List Byte)
  | 0, _ => []
  | left + 1, r => encodeInt (regs.getD r 0) :: SendProcess.registers regs left (r + 1)

/-- The loop that sends the value of each semaphore, or `INT_MAX` for a free
slot, from `i` on. -/
def SendProcess.semValues (sems : SemTable) : Nat → Nat → List (List Byte)
  | 0, _ => []
  | left + 1, i =>
    (if sems.semBitmap.bits.getD i false then
      match sems.semList.getD i none with
      | some s => encodeInt s.value
      | none => encodeInt 0
    else encodeInt INT_MAX) :: SendProcess.semValues sems left (i + 1)

/-- The loop over the slots of `localThreadsInfos`, from `i` on: the
`userthread_id` and the registers of a live thread, or `INT_MAX`. -/
def SendProcess.threads (NumTotalRegs : Nat) (infos : List (Option SlotThread)) :
    Nat → Nat → List (List Byte)
  | 0, _ => []
  | left + 1, i =>
    (match infos.getD i none with
      | some info =>
        encodeInt info.userthread_id :: SendProcess.registers info.userRegisters NumTotalRegs 0
      | none => [encodeInt INT_MAX]) ++ SendProcess.threads NumTotalRegs infos left (i + 1)

/-- The sequence of fields that `SendProcess` hands to `Send`, when every
`Send` succeeds. -/
def SendProcess.fields (PageSize NumTotalRegs : Nat) (s : ProcessImage) : List (List Byte) :=
  [encodeInt s.numPages] ++
  SendProcess.pages PageSize s.memory s.numPages 0 ++
  SendProcess.registers s.userRegisters NumTotalRegs 0 ++
  SendProcess.semValues s.sems MAX_SEM 0 ++
  [encodeInt s.nThreads] ++
  SendProcess.threads NumTotalRegs s.localThreadsInfos (MaxThreadsPerProcess PageSize) 0

/-- `Receive(c, data)` on the fields still to come, for fields of one segment:
`ReceivePayload` clears `data` up to its first zero byte and `MailBox::Get`
copies the bytes of the field to the start of `data`.  With no field left the
caller waits for ever. -/
def receiveField (fields : List (List Byte)) (data : List Byte) :
    Except Fault (List Byte × List (List Byte)) :=
  match fields with
  | [] => .error Fault.blocked
  | msg :: rest => .ok (bcopy msg 0 (bzero data (strlen data + 1)) 0 msg.length, rest)

/-- `Receive(c, (char *)&value)` into an `int`: the value of the variable
after the call.  The variable is not initialised, four zero bytes here. -/
def receiveInt (fields : List (List Byte)) : Except Fault (Int × List (List Byte)) := do
  let (data, rest) ← receiveField fields [0, 0, 0, 0]
  pure (decodeInt data 0, rest)

/-- The inner loop of `ListenProcess` on page `nPage`, from `j` on:
`Receive(c, &buffer[0]); WriteMem(nPage * PageSize + j, 1, buffer[0])`. -/
def ListenProcess.page (PageSize : Nat) (nPage : Nat) :
    Nat → Nat → List Byte → List Byte → List (List Byte) →
      Except Fault (List Byte × List Byte × List (List Byte))
  | 0, _, buffer, mem, fields => pure (buffer, mem, fields)
  | left + 1, j, buffer, mem, fields => do
    let (buffer1, rest) ← receiveField fields buffer
    let mem1 := WriteMem mem ((nPage * PageSize + j : Nat) : Int) (charToInt (buffer1.getD 0 0))
    ListenProcess.page PageSize nPage left (j + 1) buffer1 mem1 rest

/-- The outer loop of `ListenProcess` over the pages, from `nPage` on. -/
def ListenProcess.pages (PageSize : Nat) :
    Nat → Nat → List Byte → List Byte → List (List Byte) →
      Except Fault (List Byte × List Byte × List (List Byte))
  | 0, _, buffer, mem, fields => pure (buffer, mem, fields)
  | left + 1, nPage, buffer, mem, fields => do
    let (buffer1, mem1, rest) ← ListenProcess.page PageSize nPage PageSize 0 buffer mem fields
    ListenProcess.pages PageSize left (nPage + 1) buffer1 mem1 rest

/-- The loop that receives the registers of a thread: `left` values. -/
def ListenProcess.registers : Nat → List (List Byte) → Except Fault (List Int × List (List Byte))
  | 0, fields => pure ([], fields)
  | left + 1, fields => do
    let (value, rest) ← receiveInt fields
    let (regs, rest1) ← ListenProcess.registers left rest
    pure (value :: regs, rest1)

/-- The loop that receives the semaphore values, from `i` on: a value other
than `INT_MAX` makes a semaphore in slot `i` and marks the slot. -/
def ListenProcess.semValues :
    Nat → Nat → SemTable → List (List Byte) → Except Fault (SemTable × List (List Byte))
  | 0, _, t, fields => pure (t, fields)
  | left + 1, i, t, fields => do
    let (semValue, rest) ← receiveInt fields
    if semValue ≠ INT_MAX then do
      let map1 ← t.semBitmap.Mark i
      ListenProcess.semValues left (i + 1)
        { semBitmap := map1, semList := t.semList.set i (some (Semaphore.new semValue)) } rest
    else ListenProcess.semValues left (i + 1) t rest

/-- The loop of `ListenProcess` over the slots, from `i` on: an id other than
`INT_MAX` makes a thread in slot `i`, whose registers follow. -/
def ListenProcess.threads (NumTotalRegs : Nat) :
    Nat → Nat → List (List Byte) → Except Fault (List (Option SlotThread) × List (List Byte))
  | 0, _, fields => pure ([], fields)
  | left + 1, i, fields => do
    let (value, rest) ← receiveInt fields
    let userThreadid := toU32 value
    if (userThreadid : Int) ≠ INT_MAX then do
      let (regs, rest1) ← ListenProcess.registers NumTotalRegs rest
      let (infos, rest2) ← ListenProcess.threads NumTotalRegs left (i + 1) rest1
      pure (some { userthread_id := userThreadid, userRegisters := regs } :: infos, rest2)
    else do
      let (infos, rest2) ← ListenProcess.threads NumTotalRegs left (i + 1) rest
      pure (none :: infos, rest2)

/-- `ListenProcess` from its first `Receive` on, on the fields that arrive:
the process it builds, its address space, and the frame provider after the
call.  `buffer` is the local array `buffer[PageSize]`; the frames of the new
address space come zeroed from `GetEmptyFrame`. -/
def ListenProcess (PageSize NumPhysPages NumTotalRegs : Nat) (fp : FrameProvider)
    (buffer : List Byte) (fields : List (List Byte)) :
    Except Fault (ProcessImage × AddrSpace × FrameProvider) := do
  let (value, f1) ← receiveInt fields
  let nPages := toU32 value
  let (newSpace, fp1) ← AddrSpace.new PageSize NumPhysPages nPages fp
  let (_, mem, f2) ←
    ListenProcess.pages PageSize nPages 0 buffer (List.replicate (nPages * PageSize) 0) f1
  let (regs, f3) ← ListenProcess.registers NumTotalRegs f2
  let regs1 := regs.set 2 1
  let (sems, f4) ← ListenProcess.semValues MAX_SEM 0 SemTable.new f3
  let (nThreads, f5) ← receiveInt f4
  let (infos, _) ← ListenProcess.threads NumTotalRegs (MaxThreadsPerProcess PageSize) 0 f5
  pure ({ numPages := newSpace.numPages, memory := mem, userRegisters := regs1, sems := sems,
          nThreads := nThreads, localThreadsInfos := infos }, newSpace, fp1)

/-- The sending process is well formed: the page count fits in 32 bits, the
memory has `numPages * PageSize` bytes, each below 256, there are
`NumTotalRegs` registers, each a 32-bit `int`, and the `userthread_id` of a
live thread fits in 32 bits and is not `INT_MAX`. -/
def ProcessImage.WellFormed (PageSize NumTotalRegs : Nat) (s : ProcessImage) : Prop :=
  s.numPages < 4294967296 ∧
  s.memory.length = s.numPages * PageSize ∧
  (∀ b ∈ s.memory, b < 256) ∧
  s.userRegisters.length = NumTotalRegs ∧
  (∀ x ∈ s.userRegisters, -2147483648 ≤ x ∧ x < 2147483648) ∧
  (∀ info ∈ s.localThreadsInfos, ∀ t, info = some t →
    t.userthread_id < 4294967296 ∧ t.userthread_id ≠ 2147483647)

/-- A process of one page of 128 bytes (byte `a` holds `a`), 40 registers
that all hold 7, one semaphore with the value 1 and no other thread. -/
def exampleProcess : ProcessImage :=
  { numPages := 1, memory := List.range 128, userRegisters := List.replicate 40 7,
    sems := exampleSems, nThreads := 0, localThreadsInfos := List.replicate 7 none }

/-! ## Scenario of a disk with a stale sector -/

/-- What the bytes left in a free sector by a removed file read as, when they
are taken for a file header: a file of 4 bytes whose entries are all 0. -/
def staleHeader : FileHeader :=
  { type := DATA_FILE, numBytes := 4, numSectors := 1, dataSectors := List.replicate 29 0 }

/-- The formatted disk with one empty file, on which the free sector 63 still
holds the bytes of a removed file. -/
def staleDisk : Disk := fun t =>
  if t = 63 then staleHeader.encode else formattedDisk t

/-- The header of a file of 118273 bytes (925 sectors) allocated on the
formatted disk: the direct entries 6 to 33 and the undirected block in
sector 34. -/
def allocatedHeader : FileHeader :=
  { type := DATA_FILE, numBytes := 118273, numSectors := 925
    dataSectors := (List.range 28).map (fun (i : Nat) => (6 : Int) + (i : Int)) ++ [34] }

/-! # Lemmas and theorems -/

/-! ### Lemmas on the filter -/

theorem ConnReminder.matchesExisting_iff (conn e : ConnReminder) :
    conn.matchesExisting e = true ↔ e.sameKey conn ∧ e.connTimestamp ≥ conn.connTimestamp := by
  simp [ConnReminder.matchesExisting, ConnReminder.sameKey, and_assoc]

theorem ValidConn_accept (connections : List ConnReminder) (conn : ConnReminder)
    (h : ∀ e ∈ connections, ¬ (e.sameKey conn ∧ e.connTimestamp ≥ conn.connTimestamp)) :
    ValidConn connections conn = (true, connections ++ [conn]) := by
  have hfind : connections.find? (fun e => conn.matchesExisting e) = none := by
    rw [List.find?_eq_none]
    intro e he hm
    exact h e he ((ConnReminder.matchesExisting_iff conn e).1 hm)
  simp [ValidConn, hfind]

theorem ValidConn_reject (connections : List ConnReminder) (conn : ConnReminder)
    (h : ∃ e ∈ connections, e.sameKey conn ∧ e.connTimestamp ≥ conn.connTimestamp) :
    ValidConn connections conn = (false, connections) := by
  obtain ⟨e, he, hm⟩ := h
  cases hfind : connections.find? (fun e => conn.matchesExisting e) with
  | none =>
    rw [List.find?_eq_none] at hfind
    exact absurd ((ConnReminder.matchesExisting_iff conn e).2 hm) (hfind e he)
  | some x => simp [ValidConn, hfind]

theorem ValidConn_preserves_noDup (connections : List ConnReminder) (conn : ConnReminder)
    (h : ConnNoDup connections) : ConnNoDup (ValidConn connections conn).2 := by
  by_cases hex : ∃ e ∈ connections, e.sameKey conn ∧ e.connTimestamp ≥ conn.connTimestamp
  · rw [ValidConn_reject connections conn hex]
    exact h
  · have hall : ∀ e ∈ connections,
        ¬ (e.sameKey conn ∧ e.connTimestamp ≥ conn.connTimestamp) := by
      intro e he hm
      exact hex ⟨e, he, hm⟩
    rw [ValidConn_accept connections conn hall]
    show ConnNoDup (connections ++ [conn])
    unfold ConnNoDup
    rw [List.pairwise_append]
    refine ⟨h, List.pairwise_singleton _ _, ?_⟩
    intro a ha b hb hkey
    rw [List.mem_singleton] at hb
    subst hb
    by_contra hlt
    exact hall a ha ⟨hkey, le_of_not_lt hlt⟩

theorem ValidConn_run_preserves_noDup (calls : List ConnReminder) :
    ∀ connections : List ConnReminder, ConnNoDup connections →
      ConnNoDup (ValidConn.run connections calls) := by
  induction calls with
  | nil => intro connections h; exact h
  | cons conn rest ih =>
    intro connections h
    exact ih _ (ValidConn_preserves_noDup connections conn h)

/-! ## Checked claims -/

/-- C9. Duplicate-CONN rule: `ValidConn` returns false exactly when the
remembered list already holds an entry with the key of `conn` and a timestamp
not smaller than that of `conn`, and then the list is unchanged; otherwise it
returns true and the list becomes the old one with `conn` appended.  The same
CONN presented a second time is rejected. -/
theorem C9_ValidConn_rule (connections : List ConnReminder) (conn : ConnReminder) :
    (((ValidConn connections conn).1 = false ↔
        ∃ e ∈ connections, e.sameKey conn ∧ e.connTimestamp ≥ conn.connTimestamp) ∧
      ((ValidConn connections conn).1 = false →
        (ValidConn connections conn).2 = connections) ∧
      ((ValidConn connections conn).1 = true →
        (ValidConn connections conn).2 = connections ++ [conn])) ∧
    (ValidConn (ValidConn connections conn).2 conn).1 = false := by
  by_cases hex : ∃ e ∈ connections, e.sameKey conn ∧ e.connTimestamp ≥ conn.connTimestamp
  · have h1 := ValidConn_reject connections conn hex
    refine ⟨⟨?_, ?_, ?_⟩, ?_⟩
    · simp [h1, hex]
    · intro _; rw [h1]
    · intro h; rw [h1] at h; cases h
    · rw [h1]; show (ValidConn connections conn).1 = false; rw [h1]
  · have hall : ∀ e ∈ connections,
        ¬ (e.sameKey conn ∧ e.connTimestamp ≥ conn.connTimestamp) := by
      intro e he hm
      exact hex ⟨e, he, hm⟩
    have h1 := ValidConn_accept connections conn hall
    refine ⟨⟨?_, ?_, ?_⟩, ?_⟩
    · simp only [h1]
      constructor
      · intro h; cases h
      · intro h; exact absurd h hex
    · intro h; rw [h1] at h; cases h
    · intro _; rw [h1]
    · rw [h1]
      show (ValidConn (connections ++ [conn]) conn).1 = false
      rw [ValidConn_reject (connections ++ [conn]) conn
        ⟨conn, by simp, ⟨rfl, rfl, rfl, rfl⟩, le_refl _⟩]

/-- C10. C-NoDup: in every remembered list reachable from the empty one
through calls of `ValidConn`, two entries at positions `i < j` (so the second
was accepted later) with the same key have timestamps `ts i < ts j`; in
particular they differ. -/
theorem C10_ConnNoDup_reachable (calls : List ConnReminder) (i j : Nat) (a b : ConnReminder)
    (hij : i < j)
    (ha : (ValidConn.run [] calls).get? i = some a)
    (hb : (ValidConn.run [] calls).get? j = some b)
    (hkey : a.sameKey b) :
    a.connTimestamp < b.connTimestamp ∧ a.connTimestamp ≠ b.connTimestamp := by
  have hinv : ConnNoDup (ValidConn.run [] calls) :=
    ValidConn_run_preserves_noDup calls [] List.Pairwise.nil
  obtain ⟨hi, hai⟩ := List.get?_eq_some.1 ha
  obtain ⟨hj, hbj⟩ := List.get?_eq_some.1 hb
  have hlt := (List.pairwise_iff_get.1 hinv) ⟨i, hi⟩ ⟨j, hj⟩ hij
  rw [hai, hbj] at hlt
  exact ⟨hlt hkey, ne_of_lt (hlt hkey)⟩

/-- C10 (witness). Two CONNs with the same key and timestamps 5 and 9,
presented in that order, are both remembered. -/
theorem C10_ConnNoDup_witness :
    (0 < 1 ∧
      (ValidConn.run [] [⟨0, 1, 1, 0, 5⟩, ⟨0, 1, 1, 0, 9⟩]).get? 0 = some ⟨0, 1, 1, 0, 5⟩ ∧
      (ValidConn.run [] [⟨0, 1, 1, 0, 5⟩, ⟨0, 1, 1, 0, 9⟩]).get? 1 = some ⟨0, 1, 1, 0, 9⟩ ∧
      ConnReminder.sameKey ⟨0, 1, 1, 0, 5⟩ ⟨0, 1, 1, 0, 9⟩) ∧
    ((5 : Int) < 9 ∧ (5 : Int) ≠ 9) :=
  ⟨⟨by decide, by decide, by decide, ⟨rfl, rfl, rfl, rfl⟩⟩,
    C10_ConnNoDup_reachable [⟨0, 1, 1, 0, 5⟩, ⟨0, 1, 1, 0, 9⟩] 0 1 ⟨0, 1, 1, 0, 5⟩ ⟨0, 1, 1, 0, 9⟩
      (by decide) (by decide) (by decide) ⟨rfl, rfl, rfl, rfl⟩⟩

/-- C1 (failing input). With `MaxSegmentSize = 32`, a message of exactly 32
bytes (all `'A'`) sent with `SendPayload` and received with `ReceivePayload`
into a zeroed buffer leaves the buffer all zero: the single segment is the last
one, `remainder` is 0, so the sender copies no byte into the packet and the
receiver copies no byte out of it. -/
theorem C1_exact_multiple_is_lost :
    segmentRoundTrip 32 (List.replicate 32 65) (List.replicate 32 0) =
      .ok (List.replicate 32 0) := by
  decide!

/-- With `MaxSegmentSize = 32`, of a message of 64 bytes only the first segment
arrives in the buffer; a message of 33 bytes arrives whole. -/
theorem segmentRoundTrip_examples :
    segmentRoundTrip 32 (List.replicate 64 65) (List.replicate 64 0) =
      .ok (List.replicate 32 65 ++ List.replicate 32 0) ∧
    segmentRoundTrip 32 (List.replicate 33 65) (List.replicate 33 0) =
      .ok (List.replicate 33 65) := by
  decide!

/-- C8 (failing input). Machine 1 calls `Listen`, the CONN of machine 0
arrives, and `Listen` returns a connection whose private box is box 1 (boxes 0
and 1 are then used).  `Disconnect` on that connection, with no `Receive` in
between, clears box 0 (`LISTEN_BOX`) from `usedBoxes`; box 1 stays used and its
`waitedId` stays 1. -/
theorem C8_disconnect_after_listen_frees_listen_box :
    (do
      let (c, po, _) ← listenScenario
      let po1 ← po.Disconnect 32 c []
      pure (c.map (fun c => (c.pOut.mailHdr.from_, c.pIn.mailHdr.to_)),
        po.usedBoxes.bits.take 3, po1.usedBoxes.bits.take 3,
        po1.boxes.map (fun b => b.waitedId)) :
      Except Fault (Option (Int × Int) × List Bool × List Bool × List Int)) =
    .ok (some (1, 0), [true, true, false], [false, true, false],
      [0, 1, 0, 0, 0, 0, 0, 0, 0, 0]) := by
  decide!

theorem wrapInt_of_int (x : Int) (h0 : -2147483648 ≤ x) (h1 : x < 2147483648) :
    wrapInt x = x := by
  unfold wrapInt ofU32 toU32
  split <;> omega

theorem Extend_ok_fields (S N : Nat) (freeMap freeMap1 : BitMap) (disk disk1 : Disk)
    (h h1 : FileHeader) (newSize : Int)
    (hext : h.Extend S N freeMap disk newSize = .ok (true, freeMap1, disk1, h1)) :
    h1.numBytes = wrapInt (h.numBytes + newSize) ∧
    h1.numSectors = divRoundUp (wrapInt (h.numBytes + newSize)) S ∧ h1.type = h.type := by
  unfold FileHeader.Extend at hext
  simp only [bind, Except.bind, pure, Except.pure] at hext
  repeat' split at hext
  all_goals (cases hext; first | done | exact ⟨rfl, rfl, rfl⟩)

theorem ExtendUndirectedBlock_ok_fields (S : Nat) (freeMap freeMap1 : BitMap)
    (h h1 : FileHeader) (newSectors : Int)
    (hext : h.ExtendUndirectedBlock S freeMap newSectors = .ok (true, freeMap1, h1)) :
    h1.numBytes = h.numBytes + newSectors * 4 ∧
    h1.numSectors = divRoundUp (h.numBytes + newSectors * 4) S ∧
    h1.numSectors ≤ (NumDirect S : Int) ∧ h1.type = h.type := by
  unfold FileHeader.ExtendUndirectedBlock at hext
  simp only [bind, Except.bind, pure, Except.pure] at hext
  repeat' split at hext
  all_goals (cases hext; first | done | (refine ⟨rfl, rfl, ?_, rfl⟩; simp only []; omega))

theorem tmod_neg_left (n s : Int) : Int.tmod (-n) s = - Int.tmod n s := by
  rw [Int.tmod_def, Int.tmod_def, Int.neg_tdiv]
  ring

/-- The macro `divRoundUp` is the ceiling of the quotient: it is the least `q`
with `n ≤ q * s`. -/
theorem divRoundUp_is_ceil (n s : Int) (hs : 0 < s) :
    n ≤ divRoundUp n s * s ∧ ∀ q : Int, n ≤ q * s → divRoundUp n s ≤ q := by
  unfold divRoundUp
  have h1 := Int.tdiv_add_tmod' n s
  have h2 : Int.tmod n s < s := Int.tmod_lt_of_pos n hs
  have hsign : (0 ≤ n → 0 ≤ Int.tmod n s) ∧ (n ≤ 0 → Int.tmod n s ≤ 0) := by
    constructor
    · intro hn; exact Int.tmod_nonneg s hn
    · intro hn
      have h5 := tmod_neg_left n s
      have := Int.tmod_nonneg s (show 0 ≤ -n by omega)
      omega
  have h3 : -s < Int.tmod n s := by
    rcases Int.le_total 0 n with hn | hn
    · have := hsign.1 hn
      omega
    · have h4 : Int.tmod (-n) s < s := Int.tmod_lt_of_pos (-n) hs
      have h5 := tmod_neg_left n s
      omega
  constructor
  · split
    · nlinarith
    · nlinarith
  · intro q hq
    split
    · rename_i hpos
      by_contra hlt
      have hq1 : q ≤ Int.tdiv n s := by omega
      have : q * s ≤ Int.tdiv n s * s := Int.mul_le_mul_of_nonneg_right hq1 (le_of_lt hs)
      omega
    · rename_i hnp
      by_contra hlt
      have hq1 : q + 1 ≤ Int.tdiv n s := by omega
      have : (q + 1) * s ≤ Int.tdiv n s * s := Int.mul_le_mul_of_nonneg_right hq1 (le_of_lt hs)
      have : (q + 1) * s = q * s + s := by ring
      omega
theorem findMark_some (bits bits1 : List Bool) (i : Nat) (h : findMark bits = some (i, bits1)) :
    i < bits.length ∧ bits.getD i true = false ∧ bits1 = bits.set i true := by
  induction bits generalizing i bits1 with
  | nil => simp [findMark] at h
  | cons b rest ih =>
    cases b with
    | false =>
      simp only [findMark, Option.some.injEq, Prod.mk.injEq] at h
      obtain ⟨hi, hb⟩ := h
      subst hi; subst hb
      simp
    | true =>
      simp only [findMark] at h
      cases hr : findMark rest with
      | none => rw [hr] at h; cases h
      | some r =>
        obtain ⟨j, rest1⟩ := r
        rw [hr] at h
        simp only [Option.some.injEq, Prod.mk.injEq] at h
        obtain ⟨hi, hb⟩ := h
        subst hi; subst hb
        obtain ⟨h1, h2, h3⟩ := ih rest1 j hr
        refine ⟨by simp; omega, ?_, by simp [h3]⟩
        simpa using h2

theorem Taken.nil (m : BitMap) : Taken m m [] :=
  ⟨rfl, List.nodup_nil, by simp, by simp⟩

theorem Taken.append {m m1 m2 : BitMap} {l1 l2 : List Int} (h1 : Taken m m1 l1)
    (h2 : Taken m1 m2 l2) : Taken m m2 (l1 ++ l2) := by
  obtain ⟨ha1, hb1, hc1, hd1⟩ := h1
  obtain ⟨ha2, hb2, hc2, hd2⟩ := h2
  refine ⟨ha2.trans ha1, ?_, ?_, ?_⟩
  · rw [List.nodup_append]
    refine ⟨hb1, hb2, ?_⟩
    intro s hs1 hs2
    have := (hc1 s hs1).2
    rw [(hc2 s hs2).1] at this
    cases this
  · intro s hs
    rw [List.mem_append] at hs
    rcases hs with hs | hs
    · refine ⟨(hc1 s hs).1, ?_⟩
      by_cases hs2 : s ∈ l2
      · exact (hc2 s hs2).2
      · rw [hd2 s hs2]; exact (hc1 s hs).2
    · refine ⟨?_, (hc2 s hs).2⟩
      have hn1 : s ∉ l1 := by
        intro hs1
        have := (hc1 s hs1).2
        rw [(hc2 s hs).1] at this
        cases this
      rw [← hd1 s hn1]; exact (hc2 s hs).1
  · intro s hs
    rw [List.mem_append, not_or] at hs
    rw [hd2 s hs.2, hd1 s hs.1]

theorem Find_spec (m m1 : BitMap) (s : Int) (h : m.Find = (s, m1)) :
    (s = -1 ∧ m1 = m) ∨ (s ≠ -1 ∧ Taken m m1 [s]) := by
  unfold BitMap.Find at h
  cases hf : findMark m.bits with
  | none =>
    rw [hf] at h
    simp only [Prod.mk.injEq] at h
    exact Or.inl ⟨h.1.symm, h.2.symm⟩
  | some r =>
    obtain ⟨i, bits1⟩ := r
    rw [hf] at h
    simp only [Prod.mk.injEq] at h
    obtain ⟨hs, hm⟩ := h
    subst hs; subst hm
    obtain ⟨h1, h2, h3⟩ := findMark_some m.bits bits1 i hf
    subst h3
    right
    refine ⟨by omega, by simp, by simp, ?_, ?_⟩
    · intro s hs
      rw [List.mem_singleton] at hs
      subst hs
      have hr : (0 : Int) ≤ (i : Int) ∧ (i : Int) < (m.bits.length : Int) := by omega
      simp only [BitMap.Test, List.length_set, hr, and_self, if_true, Int.toNat_ofNat,
        Except.ok.injEq]
      constructor
      · rw [List.getD_eq_getElem?_getD] at h2 ⊢
        rw [List.getElem?_eq_getElem h1] at h2 ⊢
        simpa using h2
      · rw [List.getD_eq_getElem?_getD]
        simp [List.getElem?_set, h1]
    · intro s hs
      rw [List.mem_singleton] at hs
      simp only [BitMap.Test, List.length_set]
      by_cases hr : 0 ≤ s ∧ s < (m.bits.length : Int)
      · rw [if_pos hr, if_pos hr]
        have hne : i ≠ s.toNat := by omega
        rw [List.getD_eq_getElem?_getD, List.getD_eq_getElem?_getD]
        simp [List.getElem?_set, hne]
      · rw [if_neg hr, if_neg hr]
theorem setEntry_spec (ds ds1 : List Int) (i v : Int) (h : setEntry ds i v = .ok ds1) :
    ds1.length = ds.length ∧ 0 ≤ i ∧ i < ds.length ∧
    ∀ j : Int, getEntry ds1 j = if j = i then .ok v else getEntry ds j := by
  unfold setEntry at h
  split at h
  · rename_i hr
    simp only [Except.ok.injEq] at h
    subst h
    refine ⟨by simp, hr.1, hr.2, ?_⟩
    intro j
    unfold getEntry
    simp only [List.length_set]
    by_cases hj : 0 ≤ j ∧ j < (ds.length : Int)
    · rw [if_pos hj, if_pos hj]
      by_cases hji : j = i
      · subst hji
        have hlt : j.toNat < ds.length := by omega
        rw [if_pos rfl, List.getD_eq_getElem?_getD]
        simp [List.getElem?_set, hlt]
      · rw [if_neg hji]
        have hne : i.toNat ≠ j.toNat := by omega
        rw [List.getD_eq_getElem?_getD, List.getD_eq_getElem?_getD]
        simp [List.getElem?_set, hne]
    · rw [if_neg hj, if_neg hj]
      have hji : j ≠ i := by
        intro hji; subst hji; exact hj hr
      rw [if_neg hji]
  · cases h

theorem allocDirect_spec : ∀ (count : Nat) (i : Int) (m m1 : BitMap) (ds ds1 : List Int),
    Extend.allocDirect count i m ds = .ok (true, m1, ds1) →
    ∃ l : List Int, l.length = count ∧ Taken m m1 l ∧ ds1.length = ds.length ∧
      (0 < count → 0 ≤ i ∧ i + count ≤ ds.length) ∧
      ∀ j : Int, getEntry ds1 j =
        if i ≤ j ∧ j < i + count then .ok (l.getD (j - i).toNat 0) else getEntry ds j := by
  intro count
  induction count with
  | zero =>
    intro i m m1 ds ds1 h
    simp only [Extend.allocDirect, pure, Except.pure, Except.ok.injEq, Prod.mk.injEq,
      true_and] at h
    obtain ⟨hm, hd⟩ := h
    subst hm; subst hd
    refine ⟨[], rfl, Taken.nil m, rfl, by simp, ?_⟩
    intro j
    have : ¬ (i ≤ j ∧ j < i + ((0 : Nat) : Int)) := by omega
    rw [if_neg this]
  | succ c ih =>
    intro i m m1 ds ds1 h
    simp only [Extend.allocDirect, bind, Except.bind] at h
    cases hF : m.Find with
    | mk sector mA =>
      rw [hF] at h
      simp only [] at h
      cases hS : setEntry ds i sector with
      | error e => rw [hS] at h; cases h
      | ok dsA =>
        rw [hS] at h
        simp only [] at h
        split at h
        · simp only [pure, Except.pure, Except.ok.injEq, Prod.mk.injEq] at h
          exact absurd h.1 (by simp)
        · rename_i hne
          have hsec : sector ≠ -1 := by
            intro hs; apply hne; simp [hs]
          rcases Find_spec m mA sector hF with ⟨hs, _⟩ | ⟨_, hT⟩
          · exact absurd hs hsec
          · obtain ⟨l, hl, hT2, hlen, hrange, hent⟩ := ih (i + 1) mA m1 dsA ds1 h
            obtain ⟨hlenA, hi0, hi1, hentA⟩ := setEntry_spec ds dsA i sector hS
            refine ⟨sector :: l, by simp [hl], Taken.append hT hT2, hlen.trans hlenA, ?_, ?_⟩
            · intro _
              refine ⟨hi0, ?_⟩
              by_cases hc : 0 < c
              · have := (hrange hc).2
                rw [hlenA] at this
                push_cast
                omega
              · have : c = 0 := by omega
                subst this
                push_cast
                omega
            · intro j
              rw [hent j, hentA j]
              by_cases hj1 : i + 1 ≤ j ∧ j < i + 1 + (c : Int)
              · rw [if_pos hj1]
                have hj2 : i ≤ j ∧ j < i + ((c + 1 : Nat) : Int) := by push_cast; omega
                rw [if_pos hj2]
                have : (j - i).toNat = (j - (i + 1)).toNat + 1 := by omega
                rw [this, List.getD_cons_succ]
              · rw [if_neg hj1]
                by_cases hji : j = i
                · subst hji
                  have hj2 : j ≤ j ∧ j < j + ((c + 1 : Nat) : Int) := by push_cast; omega
                  rw [if_pos rfl, if_pos hj2]
                  simp
                · rw [if_neg hji]
                  have hj2 : ¬ (i ≤ j ∧ j < i + ((c + 1 : Nat) : Int)) := by push_cast; omega
                  rw [if_neg hj2]
theorem writePointers_spec (S N : Nat) : ∀ (count : Nat) (m m1 : BitMap) (disk disk1 : Disk)
    (file file1 : OpenFile),
    Extend.writePointers S N count m disk file = .ok (true, m1, disk1, file1) →
    ∃ l : List Int, l.length = count ∧ Taken m m1 l ∧
      writeAll S N disk file l = .ok (disk1, file1) := by
  intro count
  induction count with
  | zero =>
    intro m m1 disk disk1 file file1 h
    simp only [Extend.writePointers, pure, Except.pure, Except.ok.injEq, Prod.mk.injEq,
      true_and] at h
    obtain ⟨hm, hd, hf⟩ := h
    subst hm; subst hd; subst hf
    exact ⟨[], rfl, Taken.nil m, rfl⟩
  | succ c ih =>
    intro m m1 disk disk1 file file1 h
    simp only [Extend.writePointers, bind, Except.bind] at h
    cases hF : m.Find with
    | mk sector mA =>
      rw [hF] at h
      simp only [] at h
      split at h
      · simp only [pure, Except.pure, Except.ok.injEq, Prod.mk.injEq] at h
        exact absurd h.1 (by simp)
      · rename_i hne
        have hsec : sector ≠ -1 := by
          intro hs; apply hne; simp [hs]
        cases hW : OpenFile.Write S N disk file (encodeInt sector) 4 with
        | error e => rw [hW] at h; cases h
        | ok r =>
          obtain ⟨v, fileA, diskA⟩ := r
          rw [hW] at h
          simp only [] at h
          rcases Find_spec m mA sector hF with ⟨hs, _⟩ | ⟨_, hT⟩
          · exact absurd hs hsec
          · obtain ⟨l, hl, hT2, hw⟩ := ih mA m1 diskA disk1 fileA file1 h
            refine ⟨sector :: l, by simp [hl], Taken.append hT hT2, ?_⟩
            simp only [writeAll, bind, Except.bind, hW]
            exact hw

theorem ExtendUndirectedBlock_spec (S : Nat) (m m1 : BitMap) (h h1 : FileHeader)
    (newSectors : Int)
    (hext : h.ExtendUndirectedBlock S m newSectors = .ok (true, m1, h1)) :
    ∃ l : List Int, Taken m m1 l ∧
      (l.length : Int) = max (h1.numSectors - h.numSectors) 0 ∧
      h1.dataSectors.length = h.dataSectors.length ∧
      ∀ j : Int, getEntry h1.dataSectors j =
        if h.numSectors ≤ j ∧ j < h.numSectors + l.length then
          .ok (l.getD (j - h.numSectors).toNat 0)
        else getEntry h.dataSectors j := by
  unfold FileHeader.ExtendUndirectedBlock at hext
  simp only [] at hext
  split at hext
  · simp only [pure, Except.pure, Except.ok.injEq, Prod.mk.injEq] at hext
    exact absurd hext.1 (by simp)
  · simp only [bind, Except.bind] at hext
    cases hA : Extend.allocDirect
        (divRoundUp (h.numBytes + newSectors * 4) S - h.numSectors).toNat h.numSectors m
        h.dataSectors with
    | error e => rw [hA] at hext; cases hext
    | ok r =>
      obtain ⟨ok, mA, dsA⟩ := r
      rw [hA] at hext
      simp only [] at hext
      cases ok with
      | false =>
        simp only [Bool.not_false, if_true, pure, Except.pure, Except.ok.injEq,
          Prod.mk.injEq] at hext
        exact absurd hext.1 (by simp)
      | true =>
        simp only [Bool.not_true, Bool.false_eq_true, if_false, pure, Except.pure,
          Except.ok.injEq, Prod.mk.injEq, true_and] at hext
        obtain ⟨hm, hh⟩ := hext
        subst hm; subst hh
        obtain ⟨l, hl, hT, hlen, _, hent⟩ := allocDirect_spec _ _ _ _ _ _ hA
        refine ⟨l, hT, ?_, hlen, ?_⟩
        · simp only [hl]
          omega
        · intro j
          simp only []
          rw [hent j, hl]
theorem Extend_spec (S N : Nat) (m m1 : BitMap) (disk disk1 : Disk) (h h1 : FileHeader)
    (newSize : Int)
    (hext : h.Extend S N m disk newSize = .ok (true, m1, disk1, h1)) :
    ∃ direct und own ptrs : List Int,
      ExtendTook S N m m1 disk disk1 h h1 direct und own ptrs := by
  unfold ExtendTook
  unfold FileHeader.Extend at hext
  simp only [bind, Except.bind] at hext
  generalize hT : divRoundUp (wrapInt (h.numBytes + newSize)) S = T at hext
  generalize hD1 : (NumDirect S : Int) - 1 = D1 at hext ⊢
  cases hA : Extend.allocDirect (min T D1 - h.numSectors).toNat h.numSectors m
      h.dataSectors with
  | error e => rw [hA] at hext; cases hext
  | ok r =>
    obtain ⟨okA, mA, dsA⟩ := r
    rw [hA] at hext
    simp only [] at hext
    cases okA with
    | false =>
      simp only [Bool.not_false, if_true, pure, Except.pure, Except.ok.injEq,
        Prod.mk.injEq] at hext
      exact absurd hext.1 (by simp)
    | true =>
      simp only [Bool.not_true, Bool.false_eq_true, if_false] at hext
      obtain ⟨direct, hdl, hTd, hlenA, _, hentA⟩ := allocDirect_spec _ _ _ _ _ _ hA
      have hdlen : (direct.length : Int) = max (min T D1 - h.numSectors) 0 := by
        rw [hdl]; omega
      by_cases hi : h.numSectors + ((min T D1 - h.numSectors).toNat : Int) < T
      · rw [if_pos hi] at hext
        have hinv : max h.numSectors D1 < T := by omega
        split at hext
        · cases hext
        · rename_i v hG
          obtain ⟨go, m2, ds2, ind, k⟩ := v
          simp only [] at hext hG
          split at hext
          · simp only [pure, Except.pure, Except.ok.injEq, Prod.mk.injEq] at hext
            exact absurd hext.1 (by simp)
          · rename_i hgo
            split at hext
            · cases hext
            · rename_i vE hE
              obtain ⟨okE, m3, ind1⟩ := vE
              simp only [] at hext hE
              split at hext
              · simp only [pure, Except.pure, Except.ok.injEq, Prod.mk.injEq] at hext
                exact absurd hext.1 (by simp)
              · rename_i hokE
                split at hext
                · cases hext
                · rename_i u hU
                  split at hext
                  · cases hext
                  · rename_i diskW hW
                    split at hext
                    · cases hext
                    · rename_i file hO
                      split at hext
                      · cases hext
                      · rename_i vP hP
                        obtain ⟨okP, m4, disk2, file1⟩ := vP
                        simp only [] at hext hP
                        split at hext
                        · simp only [pure, Except.pure, Except.ok.injEq, Prod.mk.injEq] at hext
                          exact absurd hext.1 (by simp)
                        · rename_i hokP
                          simp only [pure, Except.pure, Except.ok.injEq, Prod.mk.injEq,
                            true_and] at hext
                          obtain ⟨hm, hd, hh⟩ := hext
                          subst hm; subst hd; subst hh
                          have hgo1 : go = true := by simpa using hgo
                          have hokE1 : okE = true := by simpa using hokE
                          have hokP1 : okP = true := by simpa using hokP
                          subst hgo1; subst hokE1; subst hokP1
                          obtain ⟨own, hTo, holen, hindlen, hentO⟩ :=
                            ExtendUndirectedBlock_spec S m2 m3 ind ind1 k hE
                          obtain ⟨hE1, hE2, _, _⟩ :=
                            ExtendUndirectedBlock_ok_fields S m2 m3 ind ind1 k hE
                          obtain ⟨ptrs, hpl, hTp, hwa⟩ :=
                            writePointers_spec S N _ _ _ _ _ _ _ hP
                          have hk : (ptrs.length : Int) = k ∧ 0 ≤ k := by
                            by_cases hex : h.numSectors > D1
                            · rw [if_pos hex] at hG
                              split at hG
                              · cases hG
                              · split at hG
                                · cases hG
                                · simp only [pure, Except.pure, Except.ok.injEq,
                                    Prod.mk.injEq, true_and] at hG
                                  omega
                            · rw [if_neg hex] at hG
                              split at hG
                              · cases hG
                              · simp only [pure, Except.pure, Except.ok.injEq,
                                  Prod.mk.injEq] at hG
                                omega
                          have hkl : (ptrs.length : Int) * 4 = k * 4 := by rw [hk.1]
                          by_cases hex : h.numSectors > D1
                          · rw [if_pos hex] at hG
                            split at hG
                            · cases hG
                            · rename_i u1 hU1
                              split at hG
                              · cases hG
                              · rename_i ind0 hF
                                simp only [pure, Except.pure, Except.ok.injEq, Prod.mk.injEq,
                                  true_and] at hG
                                obtain ⟨hm2, hds2, hind, hkk⟩ := hG
                                subst hm2; subst hds2; subst hind
                                have hu : u1 = u := by
                                  rw [hU1] at hU; cases hU; rfl
                                subst hu
                                refine ⟨direct, [], own, ptrs, ?_, hlenA, ?_, hdlen, ?_, ?_⟩
                                · simpa using Taken.append (Taken.append hTd hTo) hTp
                                · intro j
                                  simp only []
                                  rw [hentA j, hdl]
                                  simp
                                · intro hle
                                  dsimp only at hle
                                  omega
                                · intro _
                                  refine ⟨by rw [if_neg (by omega)]; rfl, ?_, u1, ind0, ind1, diskW, file,
                                    file1, hU, by rw [if_pos hex]; exact hF, ?_, ?_, ?_, ?_,
                                    hW, hO, ?_⟩
                                  · dsimp only; omega
                                  · rw [hE1, hkl]
                                  · rw [hE2, hE1]
                                  · exact holen
                                  · exact hentO
                                  · rw [hkl]; exact hwa
                          · rw [if_neg hex] at hG
                            split at hG
                            · cases hG
                            · rename_i dsB hS
                              simp only [pure, Except.pure, Except.ok.injEq, Prod.mk.injEq] at hG
                              obtain ⟨hne, hm2, hds2, hind, hkk⟩ := hG
                              subst hds2; subst hind
                              obtain ⟨hlenB, _, _, hentB⟩ := setEntry_spec dsA dsB D1 _ hS
                              have hfind : mA.Find = (mA.Find.1, m2) := by
                                rw [← hm2]
                              rcases Find_spec mA m2 mA.Find.1 hfind with ⟨hs, _⟩ | ⟨_, hTu⟩
                              · rw [hs] at hne; simp at hne
                              · have hu : u = mA.Find.1 := by
                                  rw [hentB D1, if_pos rfl] at hU; cases hU; rfl
                                refine ⟨direct, [mA.Find.1], own, ptrs, ?_, hlenB.trans hlenA, ?_,
                                  hdlen, ?_, ?_⟩
                                · exact Taken.append (Taken.append (Taken.append hTd hTu) hTo) hTp
                                · intro j
                                  simp only []
                                  rw [hentB j, hentA j, hdl]
                                  by_cases hj : h.numSectors ≤ j ∧
                                      j < h.numSectors + ((T ⊓ D1 - h.numSectors).toNat : Int)
                                  · have hjd : j ≠ D1 := by omega
                                    simp only [if_neg hjd, if_pos hj]
                                  · by_cases hjd : j = D1
                                    · rw [if_pos hjd, if_neg hj, if_pos ⟨by simp, hjd⟩]
                                      rfl
                                    · rw [if_neg hjd, if_neg hj, if_neg hj,
                                        if_neg (fun hc => hjd hc.2)]
                                · intro hle
                                  dsimp only at hle
                                  omega
                                · intro _
                                  refine ⟨by rw [if_pos (by omega)]; rfl, ?_, u, _, ind1, diskW, file,
                                    file1, hU, by rw [if_neg hex], ?_, ?_, ?_, ?_,
                                    hW, hO, ?_⟩
                                  · dsimp only; omega
                                  · rw [hE1, hkl]
                                  · rw [hE2, hE1]
                                  · exact holen
                                  · exact hentO
                                  · rw [hkl]; exact hwa
      · rw [if_neg hi] at hext
        simp only [pure, Except.pure, Except.ok.injEq, Prod.mk.injEq, true_and] at hext
        obtain ⟨hm, hd, hh⟩ := hext
        subst hm; subst hd; subst hh
        refine ⟨direct, [], [], [], by simpa using hTd, hlenA, ?_, hdlen, ?_, ?_⟩
        · intro j
          simp only []
          rw [hentA j, hdl]
          simp
        · intro _; exact ⟨rfl, rfl, rfl, rfl⟩
        · intro hlt
          simp only [] at hlt hi
          omega
/-- F-Size on 32 bits: after every successful `Extend(addSize)` the header has
`numSectors = divRoundUp(numBytes, SectorSize)`, which is the ceiling of
`numBytes / SectorSize`, and `numBytes` is the 32-bit sum of the old value and
`addSize`: it has grown by exactly `addSize` when that sum is an `int`.  A
header set up by a successful `Allocate(size)` satisfies the invariant with
`numBytes = size`.  When the call reaches the undirected block, the header of
that block, as the call writes it back to the sector in entry `NumDirect - 1`,
satisfies the same invariant, and its `numBytes` is 4 times the number of
sectors of the file beyond the direct ones whenever that was so before the
call. -/
theorem Extend_F_Size (S N : Nat) (m m1 : BitMap) (disk disk1 : Disk) (h h1 : FileHeader)
    (addSize : Int) (hS : 0 < S)
    (hext : h.Extend S N m disk addSize = .ok (true, m1, disk1, h1)) :
    (h1.numSectors = divRoundUp h1.numBytes S ∧ h1.numBytes = wrapInt (h.numBytes + addSize)) ∧
    (-2147483648 ≤ h.numBytes + addSize ∧ h.numBytes + addSize < 2147483648 →
      h1.numBytes = h.numBytes + addSize) ∧
    (h1.numBytes ≤ h1.numSectors * S ∧ ∀ q : Int, h1.numBytes ≤ q * S → h1.numSectors ≤ q) ∧
    (∀ (g : FileHeader) (size which : Int) (m2 : BitMap) (disk2 : Disk) (h2 : FileHeader),
      g.Allocate S N m disk size which = .ok (true, m2, disk2, h2) →
      h2.numSectors = divRoundUp h2.numBytes S ∧ h2.numBytes = wrapInt size) ∧
    (max h.numSectors ((NumDirect S : Int) - 1) < h1.numSectors →
      ∃ (u : Int) (ind ind1 : FileHeader) (diskW : Disk),
        getEntry h1.dataSectors ((NumDirect S : Int) - 1) = .ok u ∧
        (if h.numSectors > (NumDirect S : Int) - 1 then
            FileHeader.FetchFrom S N disk u = .ok ind
          else ind = { type := DATA_FILE, numBytes := 0, numSectors := 0,
                       dataSectors := List.replicate (NumDirect S) 0 }) ∧
        ind1.WriteBack S N disk u = .ok diskW ∧
        ind1.numSectors = divRoundUp ind1.numBytes S ∧
        (ind.numBytes =
            4 * (max h.numSectors ((NumDirect S : Int) - 1) - ((NumDirect S : Int) - 1)) →
          ind1.numBytes = 4 * (h1.numSectors - ((NumDirect S : Int) - 1)))) := by
  obtain ⟨hnb, hns, _⟩ := Extend_ok_fields S N m m1 disk disk1 h h1 addSize hext
  have hinv : h1.numSectors = divRoundUp h1.numBytes S := by rw [hns, hnb]
  refine ⟨⟨hinv, hnb⟩, ?_, ?_, ?_, ?_⟩
  · intro hr
    rw [hnb]
    exact wrapInt_of_int _ hr.1 hr.2
  · rw [hinv]
    exact divRoundUp_is_ceil h1.numBytes S (by exact_mod_cast hS)
  · intro g size which m2 disk2 h2 hal
    unfold FileHeader.Allocate at hal
    obtain ⟨hnb2, hns2, _⟩ := Extend_ok_fields S N m m2 disk disk2 _ h2 size hal
    simp only [zero_add] at hnb2 hns2
    exact ⟨by rw [hns2, hnb2], hnb2⟩
  · intro hlt
    obtain ⟨direct, und, own, ptrs, hspec⟩ := Extend_spec S N m m1 disk disk1 h h1 addSize hext
    unfold ExtendTook at hspec
    obtain ⟨_, _, _, _, _, htail⟩ := hspec
    obtain ⟨_, hpl, u, ind, ind1, diskW, file, file1, hU, hind, hb, hs, _, _, hW, _, _⟩ :=
      htail hlt
    refine ⟨u, ind, ind1, diskW, hU, hind, hW, hs, ?_⟩
    intro hold
    rw [hb, hold, hpl]
    ring

/-- What a successful `Extend` takes from the free map are the sectors it hands
out: the new direct entries of the header, the sector of the header of the
undirected block when it creates that block, the new data sectors of the
undirected block and the sector numbers it hands to `Write` on the file of
the undirected block (`ExtendTook`).  Those sectors are pairwise distinct, each
was free before the call and is marked after it, no other bit changes.  Where
`Write` puts the numbers on the disk is not part of this statement. -/
theorem Extend_takes_free_sectors (S N : Nat) (m m1 : BitMap) (disk disk1 : Disk)
    (h h1 : FileHeader) (addSize : Int)
    (hext : h.Extend S N m disk addSize = .ok (true, m1, disk1, h1)) :
    ∃ direct und own ptrs : List Int,
      ExtendTook S N m m1 disk disk1 h h1 direct und own ptrs ∧
      (direct ++ und ++ own ++ ptrs).Nodup ∧
      (∀ s ∈ direct ++ und ++ own ++ ptrs, m.Test s = .ok false ∧ m1.Test s = .ok true) ∧
      (∀ s : Int, m.Test s = .ok true →
        m1.Test s = .ok true ∧ s ∉ direct ++ und ++ own ++ ptrs) := by
  obtain ⟨direct, und, own, ptrs, hspec⟩ := Extend_spec S N m m1 disk disk1 h h1 addSize hext
  have hT : Taken m m1 (direct ++ und ++ own ++ ptrs) := by
    unfold ExtendTook at hspec; exact hspec.1
  obtain ⟨_, hnd, hmem, hother⟩ := hT
  refine ⟨direct, und, own, ptrs, hspec, hnd, hmem, ?_⟩
  intro s hs
  have hnot : s ∉ direct ++ und ++ own ++ ptrs := by
    intro hin
    have := (hmem s hin).1
    rw [hs] at this
    cases this
  exact ⟨by rw [hother s hnot]; exact hs, hnot⟩

theorem Except.map_error_iff {ε α β : Type} (f : α → β) (x : Except ε α) (e : ε) :
    x.map f = .error e ↔ x = .error e := by
  cases x <;> simp [Except.map]

theorem WriteUser_fault_of_Extend (S N : Nat) (fs : FileSystem) (disk : Disk)
    (buffer : List Byte) (size index : Int) (uf : UserFile) (freeMap : BitMap)
    (fileHdr : FileHeader) (e : Fault)
    (h1 : ¬ index ≥ MaxOpenedFiles) (h2 : fs.openedFileMap.Test index = .ok true)
    (h3 : fs.entry index = .ok uf)
    (h4 : BitMap.FetchFrom S N disk N fs.freeMapFile = .ok freeMap)
    (h5 : FileHeader.FetchFrom S N disk uf.id = .ok fileHdr)
    (sizeToExtend : Int)
    (hsz : wrapInt (wrapInt (uf.object.GetSeek + size) - fileHdr.GetNumBytes) = sizeToExtend)
    (h6 : sizeToExtend > 0)
    (h7 : fileHdr.Extend S N freeMap disk sizeToExtend = .error e) :
    fs.WriteUser S N disk buffer size index = .error e := by
  unfold FileSystem.WriteUser
  simp only [bind, Except.bind, h1, if_false, h2, Bool.not_true, Bool.false_eq_true, h3, h4, h5,
    hsz, h6, if_true, h7]

/-- C3 (failing input). On the formatted disk, `Allocate(3584)` (28 sectors,
`NumDirect - 1`) followed by `Deallocate` does not give back the free map:
`Deallocate` takes entry 28, which `Allocate` never set (here 0), for an
undirected block and clears sector 0 and, from the header it reads there,
sector 2.  With 27 sectors (3456 bytes) or 29 sectors (3585 bytes) the free map
is restored. -/
theorem C3_deallocate_after_28_sectors :
    (allocateThenDeallocate 3584).map
        (fun m1 => (m1.bits.take 8, decide (m1 = formattedMap 1024))) =
      .ok ([false, true, false, true, true, true, false, false], false) ∧
    allocateThenDeallocate 3456 = .ok (formattedMap 1024) ∧
    allocateThenDeallocate 3585 = .ok (formattedMap 1024) := by
  decide!

/-! ### The write of the pointers into the file of the undirected block

Lemmas for 128-byte sectors on a 1024-sector disk: a write of four bytes below
offset 3584 goes through a direct entry and changes one sector; a write at
offset 3584 goes through entry 28. -/

theorem tdiv_128 (q : Nat) (x : Int) (h0 : 0 ≤ x) (h1 : x < 128) :
    Int.tdiv ((q : Int) * 128 + x) 128 = q := by
  rw [Int.tdiv_eq_ediv (by omega) (by omega)]
  omega

theorem toU32_small (q : Nat) (hq : q < 4294967296) : toU32 (q : Int) = q := by
  unfold toU32
  omega

theorem ByteToSector_direct (disk : Disk) (h : FileHeader) (q : Nat) (hq : q < 28) :
    h.ByteToSector 128 1024 disk ((q : Int) * 128) = getEntry h.dataSectors q := by
  unfold FileHeader.ByteToSector ByteToSector.go
  have h1 : Int.tdiv ((q : Int) * 128) ((128 : Nat) : Int) = q := by
    have := tdiv_128 q 0 (by omega) (by omega)
    simp at this ⊢
  simp only [h1, toU32_small q (by omega)]
  have h2 : q < NumDirect 128 - 1 := by
    have : NumDirect 128 = 29 := by decide
    omega
  simp only [h2, if_true]

theorem readSectors_one_direct (disk : Disk) (h : FileHeader) (q : Nat) (hq : q < 28) (s : Int)
    (hs : getEntry h.dataSectors q = .ok s) (hs0 : 0 ≤ s) (hs1 : s < 1024) :
    readSectors 128 1024 disk (FileHeader.ByteToSector 128 1024 disk h) 1 (q : Int) =
      .ok (padTake 128 (disk s.toNat) ++ []) := by
  unfold readSectors readSectors
  have hb := ByteToSector_direct disk h q hq
  simp only [Nat.cast_ofNat] at hb ⊢
  simp only [bind, Except.bind, pure, Except.pure, hb, hs, ReadSector]
  rw [if_pos ⟨hs0, by simpa using hs1⟩]

theorem ReadAt_direct (disk : Disk) (f : OpenFile) (q : Nat) (hq : q < 28) (s : Int)
    (hs : getEntry f.hdr.dataSectors q = .ok s) (hs0 : 0 ≤ s) (hs1 : s < 1024)
    (hlen : (q : Int) * 128 < f.hdr.numBytes) :
    ∃ b, OpenFile.ReadAt 128 1024 disk f 128 ((q : Int) * 128) = .ok b := by
  unfold OpenFile.ReadAt readAtWith
  simp only [FileHeader.FileLength, Nat.cast_ofNat]
  rw [if_neg (by omega)]
  simp only [divRoundDown]
  have h1 : Int.tdiv ((q : Int) * 128) 128 = q := by
    have := tdiv_128 q 0 (by omega) (by omega)
    simp at this ⊢
  generalize hnb : (if (q : Int) * 128 + 128 > f.hdr.numBytes then f.hdr.numBytes - (q : Int) * 128
    else 128) = nb
  have hnb1 : 1 ≤ nb ∧ nb ≤ 128 := by
    subst hnb
    split <;> omega
  have h2 : Int.tdiv ((q : Int) * 128 + nb - 1) 128 = q := by
    have e : (q : Int) * 128 + nb - 1 = (q : Int) * 128 + (nb - 1) := by ring
    rw [e]
    exact tdiv_128 q (nb - 1) (by omega) (by omega)
  rw [h1, h2]
  have h3 : (1 + (q : Int) - q).toNat = 1 := by
    have : 1 + (q : Int) - q = 1 := by ring
    rw [this]; rfl
  rw [h3, readSectors_one_direct disk f.hdr q hq s hs hs0 hs1]
  exact ⟨_, rfl⟩

theorem writeSectors_one_direct (disk : Disk) (h : FileHeader) (q : Nat) (hq : q < 28) (s : Int)
    (hs : getEntry h.dataSectors q = .ok s) (hs0 : 0 ≤ s) (hs1 : s < 1024) (buf : List Byte) :
    writeSectors 128 1024 h 1 (q : Int) buf disk =
      .ok (fun t => if t = s.toNat then padTake 128 (buf.take 128) else disk t) := by
  unfold writeSectors writeSectors
  have hb := ByteToSector_direct disk h q hq
  simp only [Nat.cast_ofNat] at hb ⊢
  simp only [bind, Except.bind, pure, Except.pure, hb, hs, WriteSector]
  rw [if_pos ⟨hs0, by simpa using hs1⟩]

theorem WriteAt_direct (disk : Disk) (f : OpenFile) (q r : Nat) (hq : q < 28) (hr : r < 32)
    (s : Int) (hs : getEntry f.hdr.dataSectors q = .ok s) (hs0 : 0 ≤ s) (hs1 : s < 1024)
    (hlen : (q : Int) * 128 + 4 * r + 4 ≤ f.hdr.numBytes) (from_ : List Byte) :
    ∃ data, OpenFile.WriteAt 128 1024 disk f from_ 4 ((q : Int) * 128 + 4 * r) =
      .ok (4, fun t => if t = s.toNat then data else disk t) := by
  obtain ⟨b, hb⟩ := ReadAt_direct disk f q hq s hs hs0 hs1 (by omega)
  unfold OpenFile.WriteAt
  simp only [FileHeader.FileLength, Nat.cast_ofNat]
  rw [if_neg (show ¬ ((4 : Int) ≤ 0 ∨ (q : Int) * 128 + 4 * r ≥ f.hdr.numBytes) by omega)]
  simp only [divRoundDown]
  simp only [if_neg (show ¬ ((q : Int) * 128 + 4 * r + 4 > f.hdr.numBytes) by omega)]
  have h1 : Int.tdiv ((q : Int) * 128 + 4 * r) 128 = q := tdiv_128 q (4 * r) (by omega) (by omega)
  have h2 : Int.tdiv ((q : Int) * 128 + 4 * r + 4 - 1) 128 = q := by
    have e : (q : Int) * 128 + 4 * r + 4 - 1 = (q : Int) * 128 + (4 * r + 3) := by ring
    rw [e]
    exact tdiv_128 q (4 * r + 3) (by omega) (by omega)
  rw [h1, h2]
  have h3 : (1 + (q : Int) - q).toNat = 1 := by
    have : 1 + (q : Int) - q = 1 := by ring
    rw [this]; rfl
  simp only [h3, hb, bind, Except.bind, pure, Except.pure,
    writeSectors_one_direct disk f.hdr q hq s hs hs0 hs1]
  split <;> split <;> exact ⟨_, rfl⟩


theorem findMark_replicate (k f : Nat) :
    findMark (List.replicate k true ++ List.replicate (f + 1) false) =
      some (k, List.replicate (k + 1) true ++ List.replicate f false) := by
  induction k with
  | zero => simp [findMark, List.replicate_succ]
  | succ k ih =>
    rw [List.replicate_succ, List.cons_append, findMark, ih]
    simp [List.replicate_succ]

theorem Find_replicate (k f : Nat) :
    BitMap.Find ⟨List.replicate k true ++ List.replicate (f + 1) false⟩ =
      ((k : Int), ⟨List.replicate (k + 1) true ++ List.replicate f false⟩) := by
  unfold BitMap.Find
  simp only [findMark_replicate]


theorem writePointers_direct (h : FileHeader)
    (hds : ∀ q : Nat, q < 28 → ∃ s, getEntry h.dataSectors q = .ok s ∧ 0 ≤ s ∧ s < 1024) :
    ∀ (count c2 k f j : Nat) (disk : Disk),
      j + count ≤ 896 → 4 * ((j : Int) + count) ≤ h.numBytes → count ≤ f →
      ∃ disk1 : Disk,
        (∀ t : Nat, (∀ q : Nat, q < 28 → getEntry h.dataSectors q ≠ .ok (t : Int)) →
          disk1 t = disk t) ∧
        Extend.writePointers 128 1024 (count + c2)
            ⟨List.replicate k true ++ List.replicate f false⟩ disk ⟨h, ((4 * j : Nat) : Int)⟩ =
          Extend.writePointers 128 1024 c2
            ⟨List.replicate (k + count) true ++ List.replicate (f - count) false⟩ disk1
            ⟨h, ((4 * (j + count) : Nat) : Int)⟩ := by
  intro count
  induction count with
  | zero =>
    intro c2 k f j disk _ _ _
    exact ⟨disk, fun _ _ => rfl, by simp⟩
  | succ count ih =>
    intro c2 k f j disk hj hlen hf
    obtain ⟨f1, rfl⟩ : ∃ f1, f = f1 + 1 := ⟨f - 1, by omega⟩
    obtain ⟨s, hs, hs0, hs1⟩ := hds (j / 32) (by omega)
    have hpos : ((4 * j : Nat) : Int) = ((j / 32 : Nat) : Int) * 128 + 4 * ((j % 32 : Nat) : Int) := by
      omega
    obtain ⟨data, hw⟩ := WriteAt_direct disk ⟨h, ((4 * j : Nat) : Int)⟩ (j / 32) (j % 32)
      (by omega) (Nat.mod_lt _ (by decide)) s hs hs0 hs1 (by dsimp only; omega) (encodeInt (k : Int))
    obtain ⟨disk2, hframe, hrec⟩ := ih c2 (k + 1) f1 (j + 1)
      (fun t => if t = s.toNat then data else disk t) (by omega) (by push_cast at hlen ⊢; omega)
      (by omega)
    refine ⟨disk2, ?_, ?_⟩
    · intro t ht
      rw [hframe t ht]
      have : t ≠ s.toNat := by
        intro e
        apply ht (j / 32) (by omega)
        rw [hs, e, Int.toNat_of_nonneg hs0]
      simp only [this, if_false]
    · have e1 : count + 1 + c2 = (count + c2) + 1 := by omega
      rw [e1]
      conv_lhs => rw [Extend.writePointers]
      simp only [Find_replicate]
      have hne : ((k : Int) == -1) = false := by
        rw [beq_eq_false_iff_ne]
        omega
      simp only [hne, Bool.false_eq_true, if_false, OpenFile.Write, bind, Except.bind, pure, Except.pure]
      rw [← hpos] at hw
      simp only [hw]
      have e2 : k + (count + 1) = k + 1 + count := by omega
      have e3 : f1 + 1 - (count + 1) = f1 - count := by omega
      have e4 : j + (count + 1) = j + 1 + count := by omega
      have e5 : ((4 * j : Nat) : Int) + 4 = ((4 * (j + 1) : Nat) : Int) := by
        push_cast
        ring
      rw [e2, e3, e4, e5, hrec]


theorem ByteToSector_entry28 (disk : Disk) (h : FileHeader) (u : Int)
    (hu : getEntry h.dataSectors 28 = .ok u) (hu0 : 0 ≤ u) (hu1 : u < 1024)
    (hzero : disk u.toNat = []) :
    h.ByteToSector 128 1024 disk 3584 = .error Fault.assertSizeIs4 := by
  unfold FileHeader.ByteToSector ByteToSector.go
  have h1 : toU32 (Int.tdiv 3584 ((128 : Nat) : Int)) = 28 := by decide
  have h2 : ¬ (28 < NumDirect 128 - 1) := by decide
  have h3 : ((NumDirect 128 : Nat) : Int) - 1 = 28 := by decide
  simp only [h1, h2, if_false, h3, hu, bind, Except.bind, FileHeader.FetchFrom, ReadSector]
  rw [if_pos ⟨hu0, by simpa using hu1⟩]
  simp only [hzero, pure, Except.pure]
  have h4 : (FileHeader.decode 128 []).FileLength = 0 := by decide
  unfold readAtWith
  rw [h4]
  have h5 : ofU32 (4 * (toU32 (3584 - ((128 * (NumDirect 128 - 1) : Nat) : Int)) / 128)) = 0 := by
    decide
  rw [h5, if_pos (Or.inr (le_refl 0))]
  rfl

theorem ReadAt_entry28 (disk : Disk) (f : OpenFile) (u : Int)
    (hu : getEntry f.hdr.dataSectors 28 = .ok u) (hu0 : 0 ≤ u) (hu1 : u < 1024)
    (hzero : disk u.toNat = []) (hnb : f.hdr.numBytes = 3588) :
    OpenFile.ReadAt 128 1024 disk f 128 3584 = .error Fault.assertSizeIs4 := by
  unfold OpenFile.ReadAt readAtWith
  simp only [FileHeader.FileLength, hnb, divRoundDown, Nat.cast_ofNat]
  rw [if_neg (by decide)]
  have h1 : (1 + Int.tdiv (3584 + (if (3584 : Int) + 128 > 3588 then 3588 - 3584
      else 128) - 1) 128 - Int.tdiv 3584 128).toNat = 1 := by decide
  have h2 : Int.tdiv 3584 128 = 28 := by decide
  rw [h1, h2]
  unfold readSectors
  have h3 : (28 : Int) * 128 = 3584 := by decide
  simp only [Nat.cast_ofNat, h3, ByteToSector_entry28 disk f.hdr u hu hu0 hu1 hzero, bind,
    Except.bind]

theorem WriteAt_entry28 (disk : Disk) (f : OpenFile) (u : Int)
    (hu : getEntry f.hdr.dataSectors 28 = .ok u) (hu0 : 0 ≤ u) (hu1 : u < 1024)
    (hzero : disk u.toNat = []) (hnb : f.hdr.numBytes = 3588) (from_ : List Byte) :
    OpenFile.WriteAt 128 1024 disk f from_ 4 3584 = .error Fault.assertSizeIs4 := by
  unfold OpenFile.WriteAt
  simp only [FileHeader.FileLength, hnb, divRoundDown, Nat.cast_ofNat]
  rw [if_neg (by decide)]
  have h1 : (if (3584 : Int) + 4 > 3588 then (3588 : Int) - 3584 else 4) = 4 := by decide
  have h2 : Int.tdiv 3584 128 = 28 := by decide
  have h3 : Int.tdiv (3584 + 4 - 1) 128 = 28 := by decide
  have h4 : (28 : Int) * 128 = 3584 := by decide
  simp only [h1, h2, h3, h4]
  have h6 : ((3584 : Int) == 3584) = true := by decide
  have h7 : ((3584 : Int) + 4 == (28 + 1) * 128) = false := by decide
  have h8 : ((28 : Int) != 28) = false := by decide
  simp only [h6, h7, h8, Bool.not_true, Bool.not_false, Bool.false_or, Bool.and_self,
    Bool.false_eq_true, if_false, if_true, pure, Except.pure, bind, Except.bind,
    ReadAt_entry28 disk f u hu hu0 hu1 hzero hnb]

theorem writePointers_entry28 (disk : Disk) (h : FileHeader) (u : Int) (k f : Nat)
    (hu : getEntry h.dataSectors 28 = .ok u) (hu0 : 0 ≤ u) (hu1 : u < 1024)
    (hzero : disk u.toNat = []) (hnb : h.numBytes = 3588) :
    Extend.writePointers 128 1024 1 ⟨List.replicate k true ++ List.replicate (f + 1) false⟩ disk
      ⟨h, 3584⟩ = .error Fault.assertSizeIs4 := by
  rw [Extend.writePointers]
  simp only [Find_replicate]
  have hne : ((k : Int) == -1) = false := by
    rw [beq_eq_false_iff_ne]
    omega
  simp only [hne, Bool.false_eq_true, if_false, OpenFile.Write, bind, Except.bind,
    WriteAt_entry28 disk ⟨h, 3584⟩ u hu hu0 hu1 hzero hnb]


theorem Extend_fault_in_writePointers (S N : Nat) (freeMap : BitMap) (disk : Disk)
    (h : FileHeader) (newSize : Int) (count : Nat) (freeMap1 freeMap2 freeMap3 : BitMap)
    (ds1 ds2 : List Int) (sector undirected : Int) (fileHdr3 : FileHeader) (disk1 : Disk)
    (file : OpenFile) (e : Fault) (newUndirectedSectors position : Int) (n : Nat)
    (hcount : (min (divRoundUp (wrapInt (h.numBytes + newSize)) S) ((NumDirect S : Int) - 1) -
      h.numSectors).toNat = count)
    (hA : Extend.allocDirect count h.numSectors freeMap h.dataSectors = .ok (true, freeMap1, ds1))
    (hlt : h.numSectors + (count : Int) < divRoundUp (wrapInt (h.numBytes + newSize)) S)
    (hnew : ¬ h.numSectors > (NumDirect S : Int) - 1)
    (hF : freeMap1.Find = (sector, freeMap2))
    (hS : setEntry ds1 ((NumDirect S : Int) - 1) sector = .ok ds2)
    (hne : (sector != -1) = true)
    (hnus : divRoundUp (wrapInt (h.numBytes + newSize)) S - h.numSectors - count = newUndirectedSectors)
    (hE : FileHeader.ExtendUndirectedBlock S freeMap2
      { type := DATA_FILE, numBytes := 0, numSectors := 0,
        dataSectors := List.replicate (NumDirect S) 0 }
      newUndirectedSectors = .ok (true, freeMap3, fileHdr3))
    (hU : getEntry ds2 ((NumDirect S : Int) - 1) = .ok undirected)
    (hW : fileHdr3.WriteBack S N disk undirected = .ok disk1)
    (hO : OpenFile.new S N disk1 undirected = .ok file)
    (hpos : file.Length - newUndirectedSectors * 4 = position)
    (hn : newUndirectedSectors.toNat = n)
    (hP : Extend.writePointers S N n freeMap3 disk1 (file.Seek position) = .error e) :
    h.Extend S N freeMap disk newSize = .error e := by
  unfold FileHeader.Extend
  simp only [hcount, hA, bind, Except.bind, pure, Except.pure, Bool.not_true, Bool.false_eq_true,
    if_false, hlt, if_true, hnew, hF, hS, hne, hnus, hE, hU, hW, hO, hpos, hn, hP]

/-- On the formatted disk, `Extend` of the empty file by 118273 bytes (925
sectors) stops on `ASSERT(size == 4)` of `ByteToSector`: the file of the
undirected block needs a 29th data sector, which `ExtendUndirectedBlock`
grants, but `ByteToSector` takes entry 28 of that header for an undirected
block of its own.  The first 896 pointers are written into the 28 direct
sectors of that file; the 897th is the one that fails. -/
theorem Extend_925_sectors_asserts :
    emptyHeader.Extend 128 1024 (formattedMap 1024) formattedDisk 118273 =
      .error Fault.assertSizeIs4 := by
  have hds : ∀ q : Nat, q < 28 →
      ∃ s, getEntry pointerFileHeader.dataSectors q = .ok s ∧ 0 ≤ s ∧ s < 1024 := by
    intro q hq
    interval_cases q <;> exact ⟨_, rfl, by decide, by decide⟩
  have hfr : ∀ q : Nat, q < 28 → getEntry pointerFileHeader.dataSectors q ≠ .ok ((63 : Nat) : Int) := by
    decide
  obtain ⟨disk2, hframe, hrec⟩ := writePointers_direct pointerFileHeader hds 896 1 64 960 0
    (fun t => if t = 34 then padTake 128 pointerFileHeader.encode else formattedDisk t)
    (by decide) (by decide) (by decide)
  have hz : disk2 (63 : Int).toNat = [] := by
    have := hframe 63 hfr
    simpa using this
  have hlast := writePointers_entry28 disk2 pointerFileHeader 63 (64 + 896) 63 rfl (by decide)
    (by decide) hz rfl
  have hP : Extend.writePointers 128 1024 897
      ⟨List.replicate 64 true ++ List.replicate 960 false⟩
      (fun t => if t = 34 then padTake 128 pointerFileHeader.encode else formattedDisk t)
      ⟨pointerFileHeader, 0⟩ = .error Fault.assertSizeIs4 := by
    rw [← hlast]
    exact hrec
  have hcount : (min (divRoundUp (wrapInt (emptyHeader.numBytes + 118273)) (128 : Nat))
      (((NumDirect 128 : Nat) : Int) - 1) - emptyHeader.numSectors).toNat = 28 := by decide
  have hA : Extend.allocDirect 28 emptyHeader.numSectors (formattedMap 1024)
      emptyHeader.dataSectors =
      .ok (true, ⟨List.replicate 34 true ++ List.replicate 990 false⟩,
        (List.range 28).map (fun (i : Nat) => (6 : Int) + (i : Int)) ++ [0]) := by decide!
  have hF : BitMap.Find ⟨List.replicate 34 true ++ List.replicate 990 false⟩ =
      ((34 : Int), ⟨List.replicate 35 true ++ List.replicate 989 false⟩) := by decide!
  have hS : setEntry ((List.range 28).map (fun (i : Nat) => (6 : Int) + (i : Int)) ++ [0])
      (((NumDirect 128 : Nat) : Int) - 1) 34 =
      .ok ((List.range 28).map (fun (i : Nat) => (6 : Int) + (i : Int)) ++ [34]) := by decide!
  have hnus : divRoundUp (wrapInt (emptyHeader.numBytes + 118273)) (128 : Nat) - emptyHeader.numSectors -
      ((28 : Nat) : Int) = 897 := by decide
  have hE : FileHeader.ExtendUndirectedBlock 128
      ⟨List.replicate 35 true ++ List.replicate 989 false⟩
      { type := DATA_FILE, numBytes := 0, numSectors := 0,
        dataSectors := List.replicate (NumDirect 128) 0 } 897 =
      .ok (true, ⟨List.replicate 64 true ++ List.replicate 960 false⟩, pointerFileHeader) := by
    decide!
  have hU : getEntry ((List.range 28).map (fun (i : Nat) => (6 : Int) + (i : Int)) ++ [34])
      (((NumDirect 128 : Nat) : Int) - 1) = .ok 34 := by decide!
  have hO : OpenFile.new 128 1024
      (fun t => if t = 34 then padTake 128 pointerFileHeader.encode else formattedDisk t) 34 =
      .ok ⟨pointerFileHeader, 0⟩ := by decide!
  exact Extend_fault_in_writePointers 128 1024 (formattedMap 1024) formattedDisk emptyHeader
    118273 28 _ _ _ _ _ 34 34 pointerFileHeader _ ⟨pointerFileHeader, 0⟩ Fault.assertSizeIs4
    897 0 897 hcount hA (by decide) (by decide) hF hS (by decide) hnus hE hU rfl hO
    (by decide) (by decide) hP

/-- C4 (failing input). `MaxLen` is 122368 for 128-byte sectors; on the
formatted disk (1018 free sectors) `Allocate(118273)`, a size below `MaxLen`,
does not return TRUE: it stops on `ASSERT(size == 4)`.  `Allocate(122369)`,
the first size above `MaxLen`, returns FALSE. -/
theorem C4_allocate_below_MaxLen_asserts :
    MaxLen 128 = 122368 ∧
    emptyHeader.Allocate 128 1024 (formattedMap 1024) formattedDisk 118273 DATA_FILE =
      .error Fault.assertSizeIs4 ∧
    (emptyHeader.Allocate 128 1024 (formattedMap 1024) formattedDisk 122369 DATA_FILE).map
      (fun r => r.1) = .ok false := by
  refine ⟨by decide, Extend_925_sectors_asserts, by decide!⟩

/-- C2 (failing input). On the formatted disk with the empty file open under
descriptor 0, `WriteUser` of 118273 bytes does not return 118273: it stops on
`ASSERT(size == 4)`.  A round trip of 14 bytes (the program `test.c`) returns
14 twice and the bytes written. -/
theorem C2_write_118273_bytes_asserts :
    writeSeekRead 118273 (List.replicate 118273 7) = .error Fault.assertSizeIs4 ∧
    writeSeekRead 14 [72, 101, 108, 108, 111, 44, 32, 87, 111, 114, 108, 100, 33, 0] =
      .ok (14, 14, [72, 101, 108, 108, 111, 44, 32, 87, 111, 114, 108, 100, 33, 0]) := by
  refine ⟨?_, by decide!⟩
  have h2 : openedFileSystem.openedFileMap.Test 0 = .ok true := by decide!
  have h3 : openedFileSystem.entry 0 =
      .ok { object := { hdr := emptyHeader, seekPosition := 0 }, id := 5 } := by decide!
  have h4 : BitMap.FetchFrom 128 1024 formattedDisk 1024 openedFileSystem.freeMapFile =
      .ok (formattedMap 1024) := by decide!
  have h5 : FileHeader.FetchFrom 128 1024 formattedDisk 5 = .ok emptyHeader := by decide!
  have hw : openedFileSystem.WriteUser 128 1024 formattedDisk (List.replicate 118273 7) 118273 0 =
      .error Fault.assertSizeIs4 :=
    WriteUser_fault_of_Extend 128 1024 openedFileSystem formattedDisk _ 118273 0
      { object := { hdr := emptyHeader, seekPosition := 0 }, id := 5 } (formattedMap 1024)
      emptyHeader Fault.assertSizeIs4 (by decide) h2 h3 h4 h5 118273 (by decide) (by decide)
      Extend_925_sectors_asserts
  unfold writeSeekRead
  rw [hw]
  rfl

theorem Test_ok (m : BitMap) (i : Int) (b : Bool) (h : m.Test i = .ok b) :
    0 ≤ i ∧ i < m.bits.length ∧ m.bits.getD i.toNat false = b := by
  unfold BitMap.Test at h
  split at h
  · rename_i hr
    simp only [Except.ok.injEq] at h
    exact ⟨hr.1, hr.2, h⟩
  · cases h

theorem Test_of_range (m : BitMap) (i : Int) (h0 : 0 ≤ i) (h1 : i < m.bits.length) :
    m.Test i = .ok (m.bits.getD i.toNat false) := by
  unfold BitMap.Test
  rw [if_pos ⟨h0, h1⟩]

theorem Clear_spec (m m1 : BitMap) (i : Int) (h : m.Clear i = .ok m1) :
    m1.bits.length = m.bits.length ∧ m1.Test i = .ok false ∧
      ∀ j, j ≠ i → m1.Test j = m.Test j := by
  unfold BitMap.Clear at h
  split at h
  · rename_i hr
    simp only [Except.ok.injEq] at h
    subst h
    refine ⟨by simp, ?_, ?_⟩
    · simp only [BitMap.Test, List.length_set, hr, and_self, if_true, Except.ok.injEq]
      rw [List.getD_eq_getElem?_getD]
      have : i.toNat < m.bits.length := by omega
      simp [List.getElem?_set, this]
    · intro j hj
      simp only [BitMap.Test, List.length_set]
      by_cases hjr : 0 ≤ j ∧ j < (m.bits.length : Int)
      · rw [if_pos hjr, if_pos hjr]
        have hne : i.toNat ≠ j.toNat := by omega
        rw [List.getD_eq_getElem?_getD, List.getD_eq_getElem?_getD]
        simp [List.getElem?_set, hne]
      · rw [if_neg hjr, if_neg hjr]
  · cases h

theorem entry_of_range (fs : FileSystem) (i : Int) (h0 : 0 ≤ i) (h1 : i < fs.openedFiles.length) :
    ∃ uf, fs.entry i = .ok uf := by
  unfold FileSystem.entry
  rw [if_pos ⟨h0, h1⟩]
  have : i.toNat < fs.openedFiles.length := by omega
  rw [List.get?_eq_get this]
  exact ⟨_, rfl⟩

/-- The scan of the table answers whether a live entry in `[i, i + count)`
holds `sector`. -/
theorem isOpened_spec (fs : FileSystem) (sector : Int) :
    ∀ (count : Nat) (i : Int), 0 ≤ i → i + count ≤ fs.openedFileMap.bits.length →
      i + count ≤ fs.openedFiles.length →
      ∃ b, fs.isOpened sector count i = .ok b ∧
        (b = true ↔ ∃ j uf, i ≤ j ∧ j < i + count ∧ fs.openedFileMap.Test j = .ok true ∧
          fs.entry j = .ok uf ∧ uf.id = sector) := by
  intro count
  induction count with
  | zero =>
    intro i _ _ _
    refine ⟨false, rfl, ?_⟩
    constructor
    · intro h; cases h
    · rintro ⟨j, uf, h1, h2, _⟩
      simp at h2
      omega
  | succ count ih =>
    intro i h0 h1 h2
    push_cast at h1 h2
    obtain ⟨b, hb, hiff⟩ := ih (i + 1) (by omega) (by omega) (by omega)
    obtain ⟨uf, huf⟩ := entry_of_range fs i h0 (by omega)
    have ht := Test_of_range fs.openedFileMap i h0 (by omega)
    unfold FileSystem.isOpened
    simp only [bind, Except.bind, pure, Except.pure, ht, huf]
    by_cases hlive : fs.openedFileMap.bits.getD i.toNat false = true
    · rw [hlive] at ht ⊢
      simp only [if_true]
      by_cases hid : uf.id = sector
      · refine ⟨true, by simp [hid], ?_⟩
        simp only [true_iff]
        exact ⟨i, uf, le_refl _, by push_cast; omega, ht, huf, hid⟩
      · have hne : (uf.id == sector) = false := by simpa using hid
        simp only [hne, Bool.false_eq_true, if_false]
        refine ⟨b, hb, ?_⟩
        rw [hiff]
        constructor
        · rintro ⟨j, u, h3, h4, h5⟩
          exact ⟨j, u, by omega, by push_cast; omega, h5⟩
        · rintro ⟨j, u, h3, h4, h5, h6, h7⟩
          refine ⟨j, u, ?_, by push_cast at h4; omega, h5, h6, h7⟩
          by_contra hlt
          have : j = i := by omega
          subst this
          rw [huf] at h6
          cases h6
          exact hid h7
    · have hf : fs.openedFileMap.bits.getD i.toNat false = false := by
        simpa using hlive
      rw [hf] at ht ⊢
      simp only [Bool.false_eq_true, if_false]
      refine ⟨b, hb, ?_⟩
      rw [hiff]
      constructor
      · rintro ⟨j, u, h3, h4, h5⟩
        exact ⟨j, u, by omega, by push_cast; omega, h5⟩
      · rintro ⟨j, u, h3, h4, h5, h6, h7⟩
        refine ⟨j, u, ?_, by push_cast at h4; omega, h5, h6, h7⟩
        by_contra hlt
        have : j = i := by omega
        subst this
        rw [ht] at h5
        cases h5

theorem OpenUser_cases (S N W : Nat) (fs fs1 : FileSystem) (disk : Disk) (name : List Byte)
    (r : Int) (h : fs.OpenUser S N W disk name = .ok (r, fs1)) :
    (r = -1 ∧ fs1 = fs) ∨
    (∃ map1 uf, fs.openedFileMap.Find = (r, map1) ∧ r ≠ -1 ∧ 0 ≤ r ∧ r < fs.openedFiles.length ∧
      fs.isOpened uf.id MaxOpenedFiles.toNat 0 = .ok false ∧
      fs1 = { fs with openedFileMap := map1, openedFiles := fs.openedFiles.set r.toNat uf }) := by
  unfold FileSystem.OpenUser at h
  simp only [bind, Except.bind, pure, Except.pure] at h
  cases hd : Directory.FetchFrom S N W disk fs.directoryFile with
  | error e => rw [hd] at h; cases h
  | ok directory =>
    rw [hd] at h
    simp only at h
    split at h
    · cases h; exact Or.inl ⟨rfl, rfl⟩
    · cases ho : OpenFile.new S N disk (directory.Find W name) with
      | error e => rw [ho] at h; cases h
      | ok openFile =>
        rw [ho] at h
        simp only at h
        cases hh : FileHeader.FetchFrom S N disk (directory.Find W name) with
        | error e => rw [hh] at h; cases h
        | ok fileHdr =>
          rw [hh] at h
          simp only at h
          split at h
          · cases h; exact Or.inl ⟨rfl, rfl⟩
          · cases hs : fs.isOpened (directory.Find W name) MaxOpenedFiles.toNat 0 with
            | error e => rw [hs] at h; cases h
            | ok opened =>
              rw [hs] at h
              simp only at h
              split at h
              · cases h; exact Or.inl ⟨rfl, rfl⟩
              · rename_i hopened
                split at h
                · cases h; exact Or.inl ⟨rfl, rfl⟩
                · rename_i hidx
                  split at h
                  · cases h
                  · rename_i v hset
                    simp only [Except.ok.injEq, Prod.mk.injEq] at h
                    obtain ⟨h1, h2⟩ := h
                    subst h2
                    unfold FileSystem.setUserFile at hset
                    split at hset
                    · rename_i hr
                      simp only [Except.ok.injEq] at hset
                      right
                      refine ⟨fs.openedFileMap.Find.2,
                        { object := openFile, id := directory.Find W name }, ?_, ?_, ?_, ?_, ?_, ?_⟩
                      · rw [← h1]
                      · rw [← h1]; simpa using hidx
                      · rw [← h1]; exact hr.1
                      · rw [← h1]; exact hr.2
                      · have hf : opened = false := by simpa using hopened
                        rw [hs, hf]
                      · rw [← hset, ← h1]
                    · cases hset

theorem CloseUser_cases (fs fs1 : FileSystem) (index r : Int)
    (h : fs.CloseUser index = .ok (r, fs1)) :
    (r = -1 ∧ fs1 = fs) ∨
    (∃ map1, r = 0 ∧ fs.openedFileMap.Test index = .ok true ∧
      fs.openedFileMap.Clear index = .ok map1 ∧ fs1 = { fs with openedFileMap := map1 }) := by
  unfold FileSystem.CloseUser at h
  simp only [bind, Except.bind, pure, Except.pure] at h
  split at h
  · cases ht : fs.openedFileMap.Test index with
    | error e => rw [ht] at h; cases h
    | ok live =>
      rw [ht] at h
      simp only at h
      split at h
      · rename_i hl
        cases hc : fs.openedFileMap.Clear index with
        | error e => rw [hc] at h; cases h
        | ok map1 =>
          rw [hc] at h
          cases h
          subst hl
          exact Or.inr ⟨map1, rfl, rfl, rfl, rfl⟩
      · cases h; exact Or.inl ⟨rfl, rfl⟩
  · cases h; exact Or.inl ⟨rfl, rfl⟩

theorem entry_set (fs : FileSystem) (map1 : BitMap) (n : Nat) (uf a : UserFile) (j : Int)
    (h : FileSystem.entry
      { fs with openedFileMap := map1, openedFiles := fs.openedFiles.set n uf } j = .ok a) :
    (j.toNat = n ∧ a = uf) ∨ (j.toNat ≠ n ∧ fs.entry j = .ok a) := by
  unfold FileSystem.entry at h ⊢
  simp only [List.length_set] at h
  split at h
  · rename_i hr
    rw [if_pos hr]
    have hlt : j.toNat < fs.openedFiles.length := by omega
    by_cases hj : j.toNat = n
    · left
      refine ⟨hj, ?_⟩
      subst hj
      rw [List.get?_eq_getElem?, List.getElem?_set_self hlt] at h
      simp only [Except.ok.injEq] at h
      exact h.symm
    · right
      refine ⟨hj, ?_⟩
      rw [List.get?_eq_getElem?, List.getElem?_set_ne (Ne.symm hj)] at h
      rw [List.get?_eq_getElem?]
      exact h
  · cases h

theorem OpenUser_preserves (S N W : Nat) (fs fs1 : FileSystem) (disk : Disk) (name : List Byte)
    (r : Int) (h : fs.OpenUser S N W disk name = .ok (r, fs1))
    (hs : TableSized fs) (hu : OUnique fs) : TableSized fs1 ∧ OUnique fs1 := by
  rcases OpenUser_cases S N W fs fs1 disk name r h with ⟨_, rfl⟩ | ⟨map1, uf, hf, hne, h0, h1, hno, rfl⟩
  · exact ⟨hs, hu⟩
  · rcases Find_spec _ _ _ hf with ⟨hm, _⟩ | ⟨_, hlen, _, htk, hoth⟩
    · exact absurd hm hne
    · have hsz : TableSized
          { fs with openedFileMap := map1, openedFiles := fs.openedFiles.set r.toNat uf } :=
        ⟨hlen.trans hs.1, by simp [hs.2]⟩
      refine ⟨hsz, ?_⟩
      obtain ⟨b, hb, hiff⟩ := isOpened_spec fs uf.id MaxOpenedFiles.toNat 0 (le_refl 0)
        (by rw [hs.1]; decide) (by rw [hs.2]; decide)
      rw [hno] at hb
      cases hb
      have hnone : ∀ (j : Int) (u : UserFile), fs.openedFileMap.Test j = .ok true →
          fs.entry j = .ok u → u.id ≠ uf.id := by
        intro j u hj hu1 hid
        have hjr := Test_ok _ _ _ hj
        have : false = true := hiff.2 ⟨j, u, hjr.1, by
          have := hjr.2.1
          rw [hs.1] at this
          simpa [MaxOpenedFiles] using this, hj, hu1, hid⟩
        cases this
      have hlive : ∀ j : Int, j ≠ r → map1.Test j = .ok true → fs.openedFileMap.Test j = .ok true := by
        intro j hj ht
        rw [← hoth j (by simpa using hj)]
        exact ht
      intro i j a b hi hj ha hb hid
      rcases entry_set fs map1 r.toNat uf a i ha with ⟨hia, hau⟩ | ⟨hia, ha1⟩ <;>
        rcases entry_set fs map1 r.toNat uf b j hb with ⟨hjb, hbu⟩ | ⟨hjb, hb1⟩
      · have := (Test_ok _ _ _ hi).1
        have := (Test_ok _ _ _ hj).1
        omega
      · exfalso
        have hjr : j ≠ r := by
          intro e; subst e; exact hjb rfl
        rw [hau] at hid
        exact hnone j b (hlive j hjr hj) hb1 hid.symm
      · exfalso
        have hir : i ≠ r := by
          intro e; subst e; exact hia rfl
        rw [hbu] at hid
        exact hnone i a (hlive i hir hi) ha1 hid
      · have hir : i ≠ r := by
          intro e; subst e; exact hia rfl
        have hjr : j ≠ r := by
          intro e; subst e; exact hjb rfl
        exact hu i j a b (hlive i hir hi) (hlive j hjr hj) ha1 hb1 hid

theorem CloseUser_preserves (fs fs1 : FileSystem) (index r : Int)
    (h : fs.CloseUser index = .ok (r, fs1))
    (hs : TableSized fs) (hu : OUnique fs) : TableSized fs1 ∧ OUnique fs1 := by
  rcases CloseUser_cases fs fs1 index r h with ⟨_, rfl⟩ | ⟨map1, _, _, hc, rfl⟩
  · exact ⟨hs, hu⟩
  · obtain ⟨hlen, hidx, hoth⟩ := Clear_spec _ _ _ hc
    refine ⟨⟨hlen.trans hs.1, hs.2⟩, ?_⟩
    have hlive : ∀ j : Int, map1.Test j = .ok true → fs.openedFileMap.Test j = .ok true := by
      intro j ht
      by_cases hj : j = index
      · subst hj
        rw [hidx] at ht
        cases ht
      · rw [← hoth j hj]
        exact ht
    intro i j a b hi hj ha hb hid
    exact hu i j a b (hlive i hi) (hlive j hj) ha hb hid

theorem tableCalls_preserve (S N W : Nat) (calls : List TableCall) :
    ∀ (fs0 fs : FileSystem), fs0.tableCalls S N W calls = .ok fs →
      TableSized fs0 → OUnique fs0 → TableSized fs ∧ OUnique fs := by
  induction calls with
  | nil =>
    intro fs0 fs h hs hu
    cases h
    exact ⟨hs, hu⟩
  | cons c rest ih =>
    intro fs0 fs h hs hu
    cases c with
    | openUser disk name =>
      simp only [FileSystem.tableCalls, bind, Except.bind] at h
      cases ho : fs0.OpenUser S N W disk name with
      | error e => rw [ho] at h; cases h
      | ok v =>
        obtain ⟨r, fs1⟩ := v
        rw [ho] at h
        obtain ⟨hs1, hu1⟩ := OpenUser_preserves S N W fs0 fs1 disk name r ho hs hu
        exact ih fs1 fs h hs1 hu1
    | closeUser index =>
      simp only [FileSystem.tableCalls, bind, Except.bind] at h
      cases ho : fs0.CloseUser index with
      | error e => rw [ho] at h; cases h
      | ok v =>
        obtain ⟨r, fs1⟩ := v
        rw [ho] at h
        obtain ⟨hs1, hu1⟩ := CloseUser_preserves fs0 fs1 index r ho hs hu
        exact ih fs1 fs h hs1 hu1

theorem OUnique_of_empty (fs : FileSystem)
    (h : fs.openedFileMap = ⟨List.replicate 10 false⟩) : OUnique fs := by
  intro i j a b hi _ _ _ _
  rw [h] at hi
  have := Test_ok _ _ _ hi
  obtain ⟨_, _, h3⟩ := this
  rw [List.getD_eq_getElem?_getD] at h3
  simp only at h3
  by_cases hlt : i.toNat < 10
  · rw [List.getElem?_replicate] at h3
    simp [hlt] at h3
  · rw [List.getElem?_replicate] at h3
    simp [hlt] at h3

theorem OpenUser_refuses (S N W : Nat) (fs : FileSystem) (disk : Disk) (name : List Byte)
    (directory : Directory) (fileHdr : FileHeader) (i : Int) (uf : UserFile)
    (hs : TableSized fs)
    (hd : Directory.FetchFrom S N W disk fs.directoryFile = .ok directory)
    (hh : FileHeader.FetchFrom S N disk (directory.Find W name) = .ok fileHdr)
    (hi : fs.openedFileMap.Test i = .ok true) (he : fs.entry i = .ok uf)
    (hid : uf.id = directory.Find W name) :
    fs.OpenUser S N W disk name = .ok (-1, fs) := by
  obtain ⟨b, hb, hiff⟩ := isOpened_spec fs (directory.Find W name) MaxOpenedFiles.toNat 0
    (le_refl 0) (by rw [hs.1]; decide) (by rw [hs.2]; decide)
  have hir := Test_ok _ _ _ hi
  have hbt : b = true := hiff.2 ⟨i, uf, hir.1, by
    have := hir.2.1
    rw [hs.1] at this
    simpa [MaxOpenedFiles] using this, hi, he, hid⟩
  subst hbt
  unfold FileSystem.OpenUser
  simp only [bind, Except.bind, pure, Except.pure, hd, OpenFile.new, hh, hb, if_true]
  split
  · rfl
  · split <;> rfl

/-- C11 (O-Unique). In every state reached from an empty open-file table by
`OpenUser` and `CloseUser` calls, no two live entries hold the same header
sector; and in such a state `OpenUser` of a name whose header sector is held
by a live entry returns `-1` and leaves the file system (table and bitmap
included) as it was. -/
theorem C11_O_Unique (S N W : Nat) (fs0 fs : FileSystem) (calls : List TableCall)
    (h0 : fs0.openedFileMap = ⟨List.replicate 10 false⟩) (h1 : fs0.openedFiles.length = 10)
    (hreach : fs0.tableCalls S N W calls = .ok fs) :
    OUnique fs ∧
    ∀ (disk : Disk) (name : List Byte) (directory : Directory) (fileHdr : FileHeader) (i : Int)
      (uf : UserFile),
      Directory.FetchFrom S N W disk fs.directoryFile = .ok directory →
      FileHeader.FetchFrom S N disk (directory.Find W name) = .ok fileHdr →
      fs.openedFileMap.Test i = .ok true → fs.entry i = .ok uf →
      uf.id = directory.Find W name →
      fs.OpenUser S N W disk name = .ok (-1, fs) := by
  have hs0 : TableSized fs0 := ⟨by rw [h0]; rfl, h1⟩
  obtain ⟨hs, hu⟩ := tableCalls_preserve S N W calls fs0 fs hreach hs0 (OUnique_of_empty fs0 h0)
  refine ⟨hu, ?_⟩
  intro disk name directory fileHdr i uf hd hh hi he hid
  exact OpenUser_refuses S N W fs disk name directory fileHdr i uf hs hd hh hi he hid

set_option maxRecDepth 100000 in
theorem C11_O_Unique_witness :
    bootedFileSystem.tableCalls 128 1024 12
      [TableCall.openUser populatedDisk testName, TableCall.closeUser 3,
       TableCall.openUser populatedDisk docsName] = .ok testOpened ∧
    OUnique testOpened ∧
    testOpened.OpenUser 128 1024 12 populatedDisk testName = .ok (-1, testOpened) := by
  have hreach : bootedFileSystem.tableCalls 128 1024 12
      [TableCall.openUser populatedDisk testName, TableCall.closeUser 3,
       TableCall.openUser populatedDisk docsName] = .ok testOpened := by decide!
  have hd : Directory.FetchFrom 128 1024 12 populatedDisk testOpened.directoryFile =
      .ok rootDirectory := by decide!
  have hh : FileHeader.FetchFrom 128 1024 populatedDisk (rootDirectory.Find 12 testName) =
      .ok emptyHeader := by decide!
  have hi : testOpened.openedFileMap.Test 0 = .ok true := by decide!
  have he : testOpened.entry 0 =
      .ok { object := { hdr := emptyHeader, seekPosition := 0 }, id := 5 } := by decide!
  have h := C11_O_Unique 128 1024 12 bootedFileSystem testOpened _ rfl rfl hreach
  exact ⟨hreach, h.1, h.2 populatedDisk testName rootDirectory emptyHeader 0 _ hd hh hi he
    (by decide!)⟩

/-- C12. `Remove(name)` refuses an open file and a directory: when the header
sector that `name` designates in the current directory is held by a live entry
of the open-file table, or its header is not that of a data file, `Remove`
returns FALSE and the disk (free map and directory included) and the file
system (open-file table included) are as before the call. -/
theorem C12_Remove_refuses (S N W : Nat) (fs : FileSystem) (disk : Disk) (name : List Byte)
    (directory : Directory) (fileHdr : FileHeader)
    (hs : TableSized fs)
    (hd : Directory.FetchFrom S N W disk fs.directoryFile = .ok directory)
    (hh : FileHeader.FetchFrom S N disk (directory.Find W name) = .ok fileHdr)
    (hcase : fileHdr.IsDataFile = false ∨
      ∃ (i : Int) (uf : UserFile), fs.openedFileMap.Test i = .ok true ∧ fs.entry i = .ok uf ∧
        uf.id = directory.Find W name) :
    fs.Remove S N W disk name = .ok (false, fs, disk) := by
  unfold FileSystem.Remove
  simp only [bind, Except.bind, pure, Except.pure, hd, hh]
  split
  · rfl
  · rcases hcase with hnd | ⟨i, uf, hi, he, hid⟩
    · simp only [hnd, Bool.not_false, if_true]
    · split
      · rfl
      · obtain ⟨b, hb, hiff⟩ := isOpened_spec fs (directory.Find W name) MaxOpenedFiles.toNat 0
          (le_refl 0) (by rw [hs.1]; decide) (by rw [hs.2]; decide)
        have hir := Test_ok _ _ _ hi
        have hbt : b = true := hiff.2 ⟨i, uf, hir.1, by
          have := hir.2.1
          rw [hs.1] at this
          simpa [MaxOpenedFiles] using this, hi, he, hid⟩
        subst hbt
        simp only [hb, if_true]

set_option maxRecDepth 100000 in
theorem C12_Remove_refuses_witness :
    testOpened.Remove 128 1024 12 populatedDisk testName = .ok (false, testOpened, populatedDisk) ∧
    bootedFileSystem.Remove 128 1024 12 populatedDisk docsName =
      .ok (false, bootedFileSystem, populatedDisk) := by
  have hd : Directory.FetchFrom 128 1024 12 populatedDisk testOpened.directoryFile =
      .ok rootDirectory := by decide!
  have hh : FileHeader.FetchFrom 128 1024 populatedDisk (rootDirectory.Find 12 testName) =
      .ok emptyHeader := by decide!
  have hh2 : FileHeader.FetchFrom 128 1024 populatedDisk (rootDirectory.Find 12 docsName) =
      .ok docsHeader := by decide!
  have hi : testOpened.openedFileMap.Test 0 = .ok true := by decide!
  have he : testOpened.entry 0 =
      .ok { object := { hdr := emptyHeader, seekPosition := 0 }, id := 5 } := by decide!
  exact ⟨C12_Remove_refuses 128 1024 12 testOpened populatedDisk testName rootDirectory emptyHeader
      ⟨rfl, rfl⟩ hd hh (Or.inr ⟨0, _, hi, he, by decide!⟩),
    C12_Remove_refuses 128 1024 12 bootedFileSystem populatedDisk docsName rootDirectory docsHeader
      ⟨rfl, rfl⟩ hd hh2 (Or.inl (by decide!))⟩

theorem ChangeDirRec_fields (S N W : Nat) (disk : Disk) (paths : List (List Byte)) :
    ∀ (fs fs1 : FileSystem) (from_ : OpenFile) (ok : Bool),
      FileSystem.ChangeDirRec S N W disk fs from_ paths = .ok (ok, fs1) →
      fs1.freeMapFile = fs.freeMapFile ∧ fs1.openedFileMap = fs.openedFileMap ∧
        fs1.openedFiles = fs.openedFiles := by
  induction paths with
  | nil =>
    intro fs fs1 from_ ok h
    unfold FileSystem.ChangeDirRec at h
    simp only [bind, Except.bind, pure, Except.pure] at h
    split at h
    · cases h
    · cases h; exact ⟨rfl, rfl, rfl⟩
  | cons p rest ih =>
    intro fs fs1 from_ ok h
    unfold FileSystem.ChangeDirRec at h
    simp only [bind, Except.bind, pure, Except.pure] at h
    split at h
    · cases h
    · split at h
      · cases h; exact ⟨rfl, rfl, rfl⟩
      · split at h
        · cases h
        · split at h
          · cases h; exact ⟨rfl, rfl, rfl⟩
          · split at h
            · cases h
            · simpa using ih _ _ _ _ h

/-- C16. A `ChangeDir(path)` that returns FALSE leaves the current directory
as it was: the directory sector is the one before the call, the directory file
is either the one before the call (empty path) or a file opened on that same
sector, and nothing else of the file system has changed; so when the directory
file before the call was the open file of the current directory sector, the
file system is exactly as before, also when earlier components of the path
were entered. -/
theorem C16_ChangeDir_restores (S N W : Nat) (fs fs1 : FileSystem) (disk : Disk)
    (name : List Byte) (h : fs.ChangeDir S N W disk name = .ok (false, fs1)) :
    fs1.DirectorySector = fs.DirectorySector ∧
    (fs1.directoryFile = fs.directoryFile ∨
      OpenFile.new S N disk fs.DirectorySector = .ok fs1.directoryFile) ∧
    fs1.freeMapFile = fs.freeMapFile ∧ fs1.openedFileMap = fs.openedFileMap ∧
    fs1.openedFiles = fs.openedFiles ∧
    (OpenFile.new S N disk fs.DirectorySector = .ok fs.directoryFile → fs1 = fs) := by
  unfold FileSystem.ChangeDir at h
  split at h
  · cases h
    exact ⟨rfl, Or.inl rfl, rfl, rfl, rfl, fun _ => rfl⟩
  · rename_i paths hp
    simp only [bind, Except.bind, pure, Except.pure] at h
    cases ht : OpenFile.new S N disk fs.DirectorySector with
    | error e => rw [ht] at h; cases h
    | ok tmpFile =>
      rw [ht] at h
      simp only at h
      cases hr : FileSystem.ChangeDirRec S N W disk fs fs.directoryFile paths with
      | error e => rw [hr] at h; cases h
      | ok v =>
        obtain ⟨success, fs2⟩ := v
        rw [hr] at h
        simp only at h
        obtain ⟨h1, h2, h3⟩ := ChangeDirRec_fields S N W disk paths fs fs2 fs.directoryFile success hr
        split at h
        · simp only [Except.ok.injEq, Prod.mk.injEq, true_and] at h
          subst h
          refine ⟨rfl, Or.inr rfl, h1, h2, h3, ?_⟩
          intro hcoh
          have e : tmpFile = fs.directoryFile := by simpa using hcoh
          rw [e, h1, h2, h3]
        · simp only [Except.ok.injEq, Prod.mk.injEq] at h
          exact absurd h.1 (by decide)

set_option maxRecDepth 100000 in
theorem C16_ChangeDir_restores_witness :
    bootedFileSystem.ChangeDir 128 1024 12 populatedDisk (docsName ++ [47] ++ testName) =
      .ok (false, bootedFileSystem) ∧
    OpenFile.new 128 1024 populatedDisk bootedFileSystem.DirectorySector =
      .ok bootedFileSystem.directoryFile ∧
    bootedFileSystem = bootedFileSystem := by
  have h : bootedFileSystem.ChangeDir 128 1024 12 populatedDisk (docsName ++ [47] ++ testName) =
      .ok (false, bootedFileSystem) := by decide!
  have hc : OpenFile.new 128 1024 populatedDisk bootedFileSystem.DirectorySector =
      .ok bootedFileSystem.directoryFile := by decide!
  exact ⟨h, hc, (C16_ChangeDir_restores 128 1024 12 bootedFileSystem bootedFileSystem
    populatedDisk _ h).2.2.2.2.2 hc⟩

set_option maxRecDepth 100000 in
/-- C13 (failing input). With the file `Test` open under descriptor 0, the
descriptor `-1` is not rejected: `CloseUser`, `ReadUser`, `WriteUser` and
`SeekUser` only compare it with `MaxOpenedFiles` and hand it to
`openedFileMap->Test`, outside the bits of the map.  A descriptor of 10 or
more, and a free slot (here 3), are rejected with `-1` and an unchanged file
system. -/
theorem C13_negative_descriptor_reaches_Test :
    testOpened.CloseUser (-1) = .error Fault.assertBitRange ∧
    (testOpened.ReadUser 128 1024 populatedDisk 4 (-1)).map (fun r => r.1) =
      .error Fault.assertBitRange ∧
    (testOpened.WriteUser 128 1024 populatedDisk [1, 2, 3, 4] 4 (-1)).map (fun r => r.1) =
      .error Fault.assertBitRange ∧
    testOpened.SeekUser (-1) 0 = .error Fault.assertBitRange ∧
    testOpened.CloseUser 10 = .ok (-1, testOpened) ∧
    testOpened.CloseUser 3 = .ok (-1, testOpened) ∧
    testOpened.SeekUser 10 0 = .ok (-1, testOpened) ∧
    testOpened.SeekUser 3 0 = .ok (-1, testOpened) ∧
    testOpened.ReadUser 128 1024 populatedDisk 4 3 = .ok (-1, [], testOpened) := by
  decide!

set_option maxRecDepth 100000 in
/-- C14 (failing input). On the newly created file `Test`, open under
descriptor 0 and of length 0, `SeekUser(0, 0)` does not return: it computes
`0 % 0`.  On a file of length 14, `SeekUser(0, 20)` returns 0 and sets the
seek position to 6. -/
theorem C14_seek_on_empty_file_divides_by_zero :
    testOpened.SeekUser 0 0 = .error Fault.divideByZero ∧
    ((testOpened.setObject 0
        { hdr := { emptyHeader with numBytes := 14, numSectors := 1 }, seekPosition := 3 }).SeekUser
        0 20).map (fun r => (r.1, (r.2.entry 0).map (fun uf => uf.object.seekPosition))) =
      .ok (0, .ok 6) := by
  decide!

set_option maxRecDepth 100000 in
/-- C15 (failing input). On the almost full disk a second `Extend`, of a file
that already has its undirected block, returns FALSE after it has written the
header of the undirected block: on disk that header said 4 bytes before the
call and says 84 after it.  And `WriteUser` of 6400 bytes on the empty file
returns `-1` with sectors 34 and 35 of the disk changed (the new header of
the undirected block and the pointers written before the free sectors ran
out). -/
theorem C15_failed_Extend_has_written_the_disk :
    extendTwice = .ok (true, false, 4, 84) ∧
    writeOnFullDisk 6400 = .ok (-1, false, false) := by
  decide!

/-- C20 (failing input). `semFORK` is built with the value `-1`; the first
`P` on it, with no `V` before, finds `value == 0` false, so it does not sleep:
it decrements the value to `-2` and returns.  On a semaphore of value 0 the
caller is put on the queue and sleeps. -/
theorem C20_first_P_on_semFORK_returns :
    semFORK.P 1 = POutcome.returned { value := -2, queue := [] } ∧
    (Semaphore.new 0).P 1 = POutcome.asleep { value := 0, queue := [1] } := by
  decide

theorem findMark_none (bits : List Bool) (h : findMark bits = none) :
    (bits.filter (fun b => !b)).length = 0 := by
  induction bits with
  | nil => rfl
  | cons b rest ih =>
    cases b with
    | false => simp [findMark] at h
    | true =>
      simp only [findMark] at h
      cases hr : findMark rest with
      | none => simpa using ih hr
      | some r => rw [hr] at h; cases h

theorem findMark_count (bits bits1 : List Bool) (i : Nat) (h : findMark bits = some (i, bits1)) :
    (bits1.filter (fun b => !b)).length + 1 = (bits.filter (fun b => !b)).length := by
  induction bits generalizing i bits1 with
  | nil => simp [findMark] at h
  | cons b rest ih =>
    cases b with
    | false =>
      simp only [findMark, Option.some.injEq, Prod.mk.injEq] at h
      obtain ⟨_, hb⟩ := h
      subst hb
      simp
    | true =>
      simp only [findMark] at h
      cases hr : findMark rest with
      | none => rw [hr] at h; cases h
      | some r =>
        obtain ⟨j, rest1⟩ := r
        rw [hr] at h
        simp only [Option.some.injEq, Prod.mk.injEq] at h
        obtain ⟨_, hb⟩ := h
        subst hb
        have := ih rest1 j hr
        simpa using this

/-- `Find` on a map with a clear bit takes one: the bit returned was clear, is
now set, no other bit has changed, and one clear bit less is left. -/
theorem Find_of_clear (m : BitMap) (h : 0 < m.NumClear) :
    ∃ (s : Int) (m1 : BitMap), m.Find = (s, m1) ∧ s ≠ -1 ∧ Taken m m1 [s] ∧
      m1.NumClear + 1 = m.NumClear := by
  cases hf : findMark m.bits with
  | none =>
    have := findMark_none m.bits hf
    unfold BitMap.NumClear at h
    omega
  | some r =>
    obtain ⟨i, bits1⟩ := r
    have hF : m.Find = ((i : Int), ⟨bits1⟩) := by
      unfold BitMap.Find
      rw [hf]
    refine ⟨(i : Int), ⟨bits1⟩, hF, by omega, ?_, ?_⟩
    · rcases Find_spec m ⟨bits1⟩ i hF with ⟨h1, _⟩ | ⟨_, h2⟩
      · omega
      · exact h2
    · exact findMark_count m.bits bits1 i hf

theorem allocPages_spec : ∀ (count i : Nat) (fp : FrameProvider),
    count ≤ fp.frameMap.NumClear →
    (allocPages count i fp).1.length = count ∧
    FreshEntries (allocPages count i fp).1 i ∧
    Taken fp.frameMap (allocPages count i fp).2.frameMap
      (framesOf (allocPages count i fp).1) ∧
    (allocPages count i fp).2.frameMap.NumClear + count = fp.frameMap.NumClear ∧
    (allocPages count i fp).2.nAvailFrame = fp.nAvailFrame - count := by
  intro count
  induction count with
  | zero =>
    intro i fp _
    refine ⟨rfl, ?_, Taken.nil _, rfl, by simp [allocPages]⟩
    intro k e hk
    simp [allocPages] at hk
  | succ count ih =>
    intro i fp hc
    obtain ⟨s, m1, hF, hne, htk, hnc⟩ := Find_of_clear fp.frameMap (by omega)
    have hG : fp.GetEmptyFrame = (s, { frameMap := m1, nAvailFrame := fp.nAvailFrame - 1 }) := by
      unfold FrameProvider.GetEmptyFrame
      rw [hF]
      have : (s != -1) = true := by simpa using hne
      simp only [this, if_true]
    obtain ⟨h1, h2, h3, h4, h5⟩ := ih (i + 1) { frameMap := m1, nAvailFrame := fp.nAvailFrame - 1 }
      (by simp only; omega)
    simp only [allocPages, hG]
    refine ⟨by simp [h1], ?_, ?_, ?_, ?_⟩
    · intro k e hk
      cases k with
      | zero =>
        simp only [List.get?_cons_zero, Option.some.injEq] at hk
        subst hk
        simp
      | succ j =>
        simp only [List.get?_cons_succ] at hk
        have := h2 j e hk
        refine ⟨?_, this.2⟩
        rw [this.1]
        push_cast
        ring
    · simp only [framesOf, List.map_cons]
      exact Taken.append htk h3
    · simp only at h4
      omega
    · simp only at h5
      rw [h5]
      push_cast
      ring

theorem NumClear_le (m : BitMap) : m.NumClear ≤ m.bits.length := by
  unfold BitMap.NumClear
  exact List.length_filter_le _ _

theorem toU32_of_nat (k : Nat) (hk : k < 4294967296) : toU32 (k : Int) = k := by
  unfold toU32
  omega

theorem count_set_false : ∀ (l : List Bool) (i : Nat), i < l.length → l.getD i false = true →
    ((l.set i false).filter (fun b => !b)).length = (l.filter (fun b => !b)).length + 1 := by
  intro l
  induction l with
  | nil => intro i hi; simp at hi
  | cons b rest ih =>
    intro i hi hb
    cases i with
    | zero =>
      simp only [List.getD_cons_zero] at hb
      subst hb
      simp
    | succ j =>
      simp only [List.getD_cons_succ] at hb
      simp only [List.length_cons] at hi
      have := ih j (by omega) hb
      cases b <;> simp [List.set_cons_succ, this]

/-- `Clear` of a set bit leaves one clear bit more. -/
theorem Clear_count (m m1 : BitMap) (f : Int) (ht : m.Test f = .ok true)
    (hc : m.Clear f = .ok m1) : m1.NumClear = m.NumClear + 1 := by
  obtain ⟨h0, h1, h2⟩ := Test_ok m f true ht
  unfold BitMap.Clear at hc
  rw [if_pos ⟨h0, h1⟩] at hc
  simp only [Except.ok.injEq] at hc
  subst hc
  unfold BitMap.NumClear
  exact count_set_false m.bits f.toNat (by omega) h2

theorem releaseFrames_spec : ∀ (l : List TranslationEntry) (fp fp1 : FrameProvider),
    releaseFrames l fp = .ok fp1 → (framesOf l).Nodup →
    (∀ f ∈ framesOf l, fp.frameMap.Test f = .ok true) →
    fp1.frameMap.bits.length = fp.frameMap.bits.length ∧
    fp1.frameMap.NumClear = fp.frameMap.NumClear + l.length ∧
    fp1.nAvailFrame = fp.nAvailFrame + l.length ∧
    ∀ f, f ∉ framesOf l → fp1.frameMap.Test f = fp.frameMap.Test f := by
  intro l
  induction l with
  | nil =>
    intro fp fp1 h _ _
    cases h
    exact ⟨rfl, rfl, by simp, fun _ _ => rfl⟩
  | cons e rest ih =>
    intro fp fp1 h hnd hset
    simp only [framesOf, List.map_cons, List.nodup_cons] at hnd
    simp only [releaseFrames, FrameProvider.ReleaseFrame, bind, Except.bind, pure,
      Except.pure] at h
    cases hc : fp.frameMap.Clear e.physicalPage with
    | error err => rw [hc] at h; cases h
    | ok m1 =>
      rw [hc] at h
      simp only at h
      have ht : fp.frameMap.Test e.physicalPage = .ok true :=
        hset e.physicalPage (by simp [framesOf])
      obtain ⟨hl, _, hoth⟩ := Clear_spec _ _ _ hc
      have hcount := Clear_count _ _ _ ht hc
      obtain ⟨h1, h2, h3, h4⟩ := ih { frameMap := m1, nAvailFrame := fp.nAvailFrame + 1 } fp1 h
        hnd.2 (by
          intro f hf
          have hne : f ≠ e.physicalPage := by
            intro heq
            subst heq
            exact hnd.1 hf
          simp only
          rw [hoth f hne]
          exact hset f (by simp only [framesOf, List.map_cons, List.mem_cons]; exact Or.inr hf))
      simp only at h1 h2 h3 h4
      refine ⟨h1.trans hl, ?_, ?_, ?_⟩
      · rw [h2, hcount]
        simp only [List.length_cons]
        omega
      · rw [h3]
        simp only [List.length_cons]
        push_cast
        ring
      · intro f hf
        simp only [framesOf, List.map_cons, List.mem_cons, not_or] at hf
        rw [h4 f hf.2, hoth f hf.1]

theorem flatten_set_perm {α β : Type} (F : α → List β) :
    ∀ (l : List α) (i : Nat) (x x1 : α) (y : List β), l.get? i = some x → F x1 = F x ++ y →
      List.Perm ((l.set i x1).map F).flatten ((l.map F).flatten ++ y) := by
  intro l
  induction l with
  | nil => intro i x x1 y h; simp at h
  | cons a rest ih =>
    intro i x x1 y h hF
    cases i with
    | zero =>
      simp only [List.get?_cons_zero, Option.some.injEq] at h
      subst h
      simp only [List.set_cons_zero, List.map_cons, List.flatten_cons, hF, List.append_assoc]
      exact List.Perm.append_left _ List.perm_append_comm
    | succ j =>
      simp only [List.get?_cons_succ] at h
      simp only [List.set_cons_succ, List.map_cons, List.flatten_cons, List.append_assoc]
      exact List.Perm.append_left _ (ih j x x1 y h hF)

theorem flatten_eraseIdx_perm {α β : Type} (F : α → List β) :
    ∀ (l : List α) (i : Nat) (x : α), l.get? i = some x →
      List.Perm (l.map F).flatten (F x ++ ((l.eraseIdx i).map F).flatten) := by
  intro l
  induction l with
  | nil => intro i x h; simp at h
  | cons a rest ih =>
    intro i x h
    cases i with
    | zero =>
      simp only [List.get?_cons_zero, Option.some.injEq] at h
      subst h
      simp
    | succ j =>
      simp only [List.get?_cons_succ] at h
      simp only [List.eraseIdx_cons_succ, List.map_cons, List.flatten_cons]
      exact (List.Perm.append_left _ (ih j x h)).trans (List.perm_append_comm_assoc _ _ _)

theorem AddrSpace_new_ok (PageSize N nPages : Nat) (fp fp1 : FrameProvider) (space : AddrSpace)
    (h : AddrSpace.new PageSize N nPages fp = .ok (space, fp1)) :
    toU32 fp.NumAvailFrame ≥ nPages ∧ space.pageTable = (allocPages nPages 0 fp).1 ∧
      space.numPages = nPages ∧ fp1 = (allocPages nPages 0 fp).2 := by
  unfold AddrSpace.new at h
  split at h
  · cases h
  · rename_i h1
    split at h
    · cases h
    · simp only [Except.ok.injEq, Prod.mk.injEq] at h
      obtain ⟨hs, hf⟩ := h
      subst hs
      exact ⟨by omega, rfl, rfl, hf.symm⟩

/-- Frames taken from the map join the frames of the live page tables: the
invariant holds again. -/
theorem FramesInv_after_alloc (N : Nat) (st : Frames) (fp1 : FrameProvider)
    (spaces1 : List AddrSpace) (fresh : List Int) (count : Nat)
    (hinv : FramesInv N st)
    (hsp : ∀ s ∈ spaces1, s.pageTable.length = s.numPages)
    (hperm : List.Perm (Frames.frames { fp := fp1, spaces := spaces1 }) (st.frames ++ fresh))
    (hlen : fresh.length = count)
    (htk : Taken st.fp.frameMap fp1.frameMap fresh)
    (hnc : fp1.frameMap.NumClear + count = st.fp.frameMap.NumClear)
    (hav : fp1.nAvailFrame = st.fp.nAvailFrame - count) :
    FramesInv N { fp := fp1, spaces := spaces1 } := by
  obtain ⟨i1, i2, i3, i4, i5, i6⟩ := hinv
  obtain ⟨t1, t2, t3, t4⟩ := htk
  refine ⟨t1.trans i1, ?_, hsp, ?_, ?_, ?_⟩
  · simp only
    rw [hav, i2]
    omega
  · rw [hperm.nodup_iff, List.nodup_append]
    refine ⟨i4, t2, ?_⟩
    intro f hf1 hf2
    have := i5 f hf1
    rw [(t3 f hf2).1] at this
    cases this
  · intro f hf
    simp only
    have := hperm.mem_iff.1 hf
    rw [List.mem_append] at this
    by_cases hfr : f ∈ fresh
    · exact (t3 f hfr).2
    · rw [t4 f hfr]
      rcases this with h | h
      · exact i5 f h
      · exact absurd h hfr
  · simp only
    rw [hperm.length_eq, List.length_append, hlen]
    omega

theorem frames_append (fp fp1 : FrameProvider) (spaces : List AddrSpace) (space : AddrSpace) :
    Frames.frames { fp := fp1, spaces := spaces ++ [space] } =
      Frames.frames { fp := fp, spaces := spaces } ++ framesOf space.pageTable := by
  simp [Frames.frames]

theorem create_preserves (PageSize N nPages : Nat) (hN : N < 4294967296) (st st1 : Frames)
    (h : st.step PageSize N (FrameCall.create nPages) = .ok st1) (hinv : FramesInv N st) :
    FramesInv N st1 := by
  simp only [Frames.step, bind, Except.bind, pure, Except.pure] at h
  cases hn : AddrSpace.new PageSize N nPages st.fp with
  | error e => rw [hn] at h; cases h
  | ok v =>
    obtain ⟨space, fp1⟩ := v
    rw [hn] at h
    simp only [Except.ok.injEq] at h
    subst h
    obtain ⟨ha, hp, hnp, hf⟩ := AddrSpace_new_ok PageSize N nPages st.fp fp1 space hn
    have hle := NumClear_le st.fp.frameMap
    have hu : toU32 st.fp.NumAvailFrame = st.fp.frameMap.NumClear := by
      unfold FrameProvider.NumAvailFrame
      rw [hinv.2.1]
      exact toU32_of_nat _ (by have := hinv.1; omega)
    rw [hu] at ha
    obtain ⟨h1, _, h3, h4, h5⟩ := allocPages_spec nPages 0 st.fp ha
    rw [← hp, ← hf] at h3
    rw [← hf] at h4 h5
    rw [← hp] at h1
    refine FramesInv_after_alloc N st fp1 _ (framesOf space.pageTable) nPages hinv ?_ ?_
      (by simp [framesOf, h1]) h3 h4 h5
    · intro s hs
      rw [List.mem_append] at hs
      rcases hs with hs | hs
      · exact hinv.2.2.1 s hs
      · simp only [List.mem_singleton] at hs
        subst hs
        rw [h1, hnp]
    · rw [frames_append st.fp fp1 st.spaces space]

theorem sbrk_preserves (PageSize N i n : Nat) (hN : N < 4294967296) (st st1 : Frames)
    (h : st.step PageSize N (FrameCall.sbrk i n) = .ok st1) (hinv : FramesInv N st) :
    FramesInv N st1 := by
  simp only [Frames.step] at h
  cases hg : st.spaces.get? i with
  | none =>
    rw [hg] at h
    cases h
    exact hinv
  | some space =>
    rw [hg] at h
    simp only [pure, Except.pure, Except.ok.injEq] at h
    subst h
    have hmem : space ∈ st.spaces := List.get?_mem hg
    have hlen := hinv.2.2.1 space hmem
    have hle := NumClear_le st.fp.frameMap
    have hu : toU32 st.fp.NumAvailFrame = st.fp.frameMap.NumClear := by
      unfold FrameProvider.NumAvailFrame
      rw [hinv.2.1]
      exact toU32_of_nat _ (by have := hinv.1; omega)
    by_cases hn : n ≤ st.fp.frameMap.NumClear
    · obtain ⟨h1, _, h3, h4, h5⟩ := allocPages_spec n space.numPages st.fp hn
      have hS : space.do_Sbrk PageSize st.fp n =
          (space.brk,
            { space with numPages := space.numPages + n,
                         pageTable := space.pageTable ++ (allocPages n space.numPages st.fp).1,
                         brk := ((space.numPages + n) * PageSize) % 4294967296 },
            (allocPages n space.numPages st.fp).2) := by
        unfold AddrSpace.do_Sbrk
        rw [hu, if_pos (show st.fp.frameMap.NumClear ≥ n from hn)]
        simp only
        rw [← hlen, List.take_length]
      rw [hS]
      simp only
      refine FramesInv_after_alloc N st _ _ (framesOf (allocPages n space.numPages st.fp).1) n hinv
        ?_ ?_ (by simp [framesOf, h1]) h3 h4 h5
      · intro s hs
        rcases List.mem_or_eq_of_mem_set hs with hs | hs
        · exact hinv.2.2.1 s hs
        · subst hs
          simp only [List.length_append, h1, hlen]
      · unfold Frames.frames
        exact flatten_set_perm (fun s => framesOf s.pageTable) st.spaces i space
          { space with numPages := space.numPages + n,
                       pageTable := space.pageTable ++ (allocPages n space.numPages st.fp).1,
                       brk := ((space.numPages + n) * PageSize) % 4294967296 }
          (framesOf (allocPages n space.numPages st.fp).1) hg (by simp [framesOf])
    · have hS : space.do_Sbrk PageSize st.fp n = (0, space, st.fp) := by
        unfold AddrSpace.do_Sbrk
        rw [hu, if_neg (by omega)]
      rw [hS]
      simp only
      have hset : st.spaces.set i space = st.spaces := by
        apply List.ext_get?
        intro k
        by_cases hk : k = i
        · subst hk
          rw [hg]
          rw [List.get?_eq_getElem?] at hg ⊢
          have hlt : k < st.spaces.length := by
            by_contra hge
            rw [List.getElem?_eq_none (by omega)] at hg
            cases hg
          rw [List.getElem?_set_self hlt]
        · rw [List.get?_eq_getElem?, List.get?_eq_getElem?, List.getElem?_set_ne (Ne.symm hk)]
      rw [hset]
      exact hinv

theorem release_preserves (PageSize N i : Nat) (st st1 : Frames)
    (h : st.step PageSize N (FrameCall.release i) = .ok st1) (hinv : FramesInv N st) :
    FramesInv N st1 := by
  simp only [Frames.step] at h
  cases hg : st.spaces.get? i with
  | none =>
    rw [hg] at h
    cases h
    exact hinv
  | some space =>
    rw [hg] at h
    simp only [bind, Except.bind, pure, Except.pure] at h
    cases hr : space.ReleaseFrames st.fp with
    | error e => rw [hr] at h; cases h
    | ok fp1 =>
      rw [hr] at h
      simp only [Except.ok.injEq] at h
      subst h
      obtain ⟨i1, i2, i3, i4, i5, i6⟩ := hinv
      have hmem : space ∈ st.spaces := List.get?_mem hg
      have hlen := i3 space hmem
      unfold AddrSpace.ReleaseFrames at hr
      rw [← hlen, List.take_length] at hr
      have hperm : List.Perm st.frames (framesOf space.pageTable ++
          Frames.frames { fp := fp1, spaces := st.spaces.eraseIdx i }) :=
        flatten_eraseIdx_perm (fun (s : AddrSpace) => framesOf s.pageTable) st.spaces i space hg
      have hnd := hperm.nodup_iff.1 i4
      rw [List.nodup_append] at hnd
      obtain ⟨n1, n2, n3⟩ := hnd
      obtain ⟨r1, r2, r3, r4⟩ := releaseFrames_spec space.pageTable st.fp fp1 hr n1
        (fun f hf => i5 f (hperm.mem_iff.2 (List.mem_append_left _ hf)))
      refine ⟨r1.trans i1, ?_, ?_, n2, ?_, ?_⟩
      · simp only
        rw [r3, r2, i2]
        push_cast
        ring
      · intro s hs
        exact i3 s (List.mem_of_mem_eraseIdx hs)
      · intro f hf
        simp only
        rw [r4 f (fun hf1 => n3 hf1 hf)]
        exact i5 f (hperm.mem_iff.2 (List.mem_append_right _ hf))
      · simp only
        have := hperm.length_eq
        rw [List.length_append] at this
        have hl : (framesOf space.pageTable).length = space.pageTable.length := by
          simp [framesOf]
        rw [r2]
        omega

theorem step_preserves (PageSize N : Nat) (hN : N < 4294967296) (st st1 : Frames) (c : FrameCall)
    (h : st.step PageSize N c = .ok st1) (hinv : FramesInv N st) : FramesInv N st1 := by
  cases c with
  | create nPages => exact create_preserves PageSize N nPages hN st st1 h hinv
  | sbrk i n => exact sbrk_preserves PageSize N i n hN st st1 h hinv
  | release i => exact release_preserves PageSize N i st st1 h hinv

theorem run_preserves (PageSize N : Nat) (hN : N < 4294967296) (calls : List FrameCall) :
    ∀ (st st1 : Frames), Frames.run PageSize N st calls = .ok st1 → FramesInv N st →
      FramesInv N st1 := by
  induction calls with
  | nil =>
    intro st st1 h hinv
    cases h
    exact hinv
  | cons c rest ih =>
    intro st st1 h hinv
    simp only [Frames.run, bind, Except.bind] at h
    cases hs : st.step PageSize N c with
    | error e => rw [hs] at h; cases h
    | ok st2 =>
      rw [hs] at h
      exact ih st2 st1 h (step_preserves PageSize N hN st st2 c hs hinv)

theorem FramesInv_initial (N : Nat) : FramesInv N { fp := FrameProvider.new N, spaces := [] } := by
  refine ⟨by simp [FrameProvider.new], ?_, ?_, ?_, ?_, ?_⟩
  · simp [FrameProvider.new, BitMap.NumClear]
  · intro s hs
    cases hs
  · simp [Frames.frames]
  · intro f hf
    simp [Frames.frames] at hf
  · simp [FrameProvider.new, BitMap.NumClear, Frames.frames]

theorem frames_length (spaces : List AddrSpace) (fp : FrameProvider)
    (h : ∀ s ∈ spaces, s.pageTable.length = s.numPages) :
    (Frames.frames { fp := fp, spaces := spaces }).length =
      Frames.totalPages { fp := fp, spaces := spaces } := by
  induction spaces with
  | nil => rfl
  | cons s rest ih =>
    have h1 := h s (List.mem_cons_self _ _)
    have h2 := ih (fun t ht => h t (List.mem_cons_of_mem _ ht))
    simp only [Frames.frames, Frames.totalPages, List.map_cons, List.flatten_cons,
      List.length_append, List.sum_cons] at h2 ⊢
    rw [h2]
    simp [framesOf, h1]

/-- C18 (P-Frames). In every state reached from the boot state (every frame
free, no address space) by creating address spaces with `AddrSpace(nPages)`,
growing them with `do_Sbrk` and, at the end of a process, releasing the frames
of its address space with `ReleaseFrames`, the available count of the frame
provider plus the sum of `numPages` over the live address spaces is
`NumPhysPages`, and the available count is the number of clear bits of the
frame map. -/
theorem C18_P_Frames (PageSize NumPhysPages : Nat) (hN : NumPhysPages < 4294967296)
    (calls : List FrameCall) (st : Frames)
    (hrun : Frames.run PageSize NumPhysPages
      { fp := FrameProvider.new NumPhysPages, spaces := [] } calls = .ok st) :
    st.fp.NumAvailFrame + (st.totalPages : Int) = (NumPhysPages : Int) ∧
    st.fp.NumAvailFrame = (st.fp.frameMap.NumClear : Int) := by
  obtain ⟨_, i2, i3, _, _, i6⟩ := run_preserves PageSize NumPhysPages hN calls _ st hrun
    (FramesInv_initial NumPhysPages)
  have hl := frames_length st.spaces st.fp i3
  unfold FrameProvider.NumAvailFrame
  refine ⟨?_, i2⟩
  rw [i2]
  have : st.frames.length = st.totalPages := hl
  omega

theorem C18_P_Frames_witness :
    Frames.run 128 64 { fp := FrameProvider.new 64, spaces := [] } exampleFrameCalls =
      .ok framesAfterCalls ∧
    framesAfterCalls.fp.NumAvailFrame + (framesAfterCalls.totalPages : Int) = ((64 : Nat) : Int) ∧
    framesAfterCalls.fp.NumAvailFrame = (framesAfterCalls.fp.frameMap.NumClear : Int) ∧
    framesAfterCalls.fp.NumAvailFrame = 43 ∧
    framesAfterCalls.spaces.map (fun s => s.numPages) = [13, 8] := by
  have hrun : Frames.run 128 64 { fp := FrameProvider.new 64, spaces := [] } exampleFrameCalls =
      .ok framesAfterCalls := by decide!
  have h := C18_P_Frames 128 64 (by decide) exampleFrameCalls framesAfterCalls hrun
  exact ⟨hrun, h.1, h.2, by decide!, by decide!⟩

theorem box_ok (po : PostOffice) (b : Int) (h0 : 0 ≤ b) (h1 : b < po.boxes.length) :
    ∃ box, po.box b = .ok box ∧ po.boxes.get? b.toNat = some box := by
  have hlt : b.toNat < po.boxes.length := by omega
  refine ⟨po.boxes.get ⟨b.toNat, hlt⟩, ?_, ?_⟩
  · unfold PostOffice.box
    rw [if_pos ⟨h0, h1⟩, List.get?_eq_get hlt]
  · exact List.get?_eq_get hlt

theorem box_setBox (po : PostOffice) (b : Int) (x : MailBox) (h0 : 0 ≤ b)
    (h1 : b < po.boxes.length) : (po.setBox b x).box b = .ok x := by
  have hlt : b.toNat < po.boxes.length := by omega
  unfold PostOffice.box PostOffice.setBox
  simp only [List.length_set]
  rw [if_pos ⟨h0, h1⟩]
  simp [List.getElem?_set, hlt]

/-- C22 (failing input). With `MaxSegmentSize` 32, `UpdatePayload` for a
message of 32 bytes sets `remainder` to 0 (not 32) and `nbSegments` to 1, so
`(nbSegments - 1) * 32 + remainder` is 0 and not 32; for 64 bytes it is 32.
For 33 bytes the remainder is 1 and the sum is 33, as the claim says. -/
theorem C22_remainder_is_zero_at_exact_multiples :
    (Payload.new.UpdatePayload 32 0 1 1 2 32 MessageType.DATA).remainder = 0 ∧
    (Payload.new.UpdatePayload 32 0 1 1 2 32 MessageType.DATA).nbSegments = 1 ∧
    ((Payload.new.UpdatePayload 32 0 1 1 2 32 MessageType.DATA).nbSegments - 1) * 32 +
      (Payload.new.UpdatePayload 32 0 1 1 2 32 MessageType.DATA).remainder = 0 ∧
    (Payload.new.UpdatePayload 32 0 1 1 2 64 MessageType.DATA).remainder = 0 ∧
    ((Payload.new.UpdatePayload 32 0 1 1 2 64 MessageType.DATA).nbSegments - 1) * 32 +
      (Payload.new.UpdatePayload 32 0 1 1 2 64 MessageType.DATA).remainder = 32 ∧
    ((Payload.new.UpdatePayload 32 0 1 1 2 33 MessageType.DATA).nbSegments - 1) * 32 +
      (Payload.new.UpdatePayload 32 0 1 1 2 33 MessageType.DATA).remainder = 33 := by
  decide

/-- C24 (failing input). With semaphore 0 allocated, `do_SemPost(-1)`,
`do_SemWait(-1)` and `do_SemDestroy(-1)` pass the test `semId < MAX_SEM` and
ask the bitmap for bit -1, which fails the range assertion of `BitMap::Test`.
The ids 128 and 200 and the free slot 5 are ignored: nothing changes. -/
theorem C24_negative_semId_reaches_Test :
    do_SemPost exampleSems (-1) = .error Fault.assertBitRange ∧
    do_SemWait exampleSems (-1) 3 = .error Fault.assertBitRange ∧
    do_SemDestroy exampleSems (-1) = .error Fault.assertBitRange ∧
    do_SemPost exampleSems 128 = .ok (exampleSems, none) ∧
    do_SemWait exampleSems 200 3 = .ok (exampleSems, false) ∧
    do_SemDestroy exampleSems 128 = .ok exampleSems ∧
    do_SemPost exampleSems 5 = .ok (exampleSems, none) ∧
    do_SemWait exampleSems 5 3 = .ok (exampleSems, false) ∧
    do_SemDestroy exampleSems 5 = .ok exampleSems := by
  decide!

/-- C28 (failing input). With pages of 128 bytes there are 7 thread slots of
256 bytes; in an address space of 4096 bytes the stack pointer of slot 6 is
2288, so its stack starts at 2032, which is 16 bytes below 2048, the start of
the `UserStackSize` bytes at the top.  The slots 0 to 5 fit. -/
theorem C28_last_slot_leaves_the_user_stack :
    MaxThreadsPerProcess 128 = 7 ∧
    exampleSpace.GetSize 128 = 4096 ∧
    exampleSpace.GetStackStartAddr 6 = .ok 2288 ∧
    ¬ ((2288 : Int) - ThreadStackSize 128 ≥ exampleSpace.GetSize 128 - UserStackSize) ∧
    exampleSpace.GetStackStartAddr 5 = .ok 2544 ∧
    (2544 : Int) - ThreadStackSize 128 ≥ exampleSpace.GetSize 128 - UserStackSize := by
  decide

/-- C29 (failing input). On a machine with `MaxProcesses` 64 the call
`do_ProcessJoin(64)` passes the test `pid < 0 || pid > MaxProcesses` and reads
`addrspaces[64]`, one entry behind the table of 64 entries.  The pids -1 and
65 return at once, pid 0 (a live process) waits, pid 1 (no process) returns. -/
theorem C29_pid_MaxProcesses_reads_behind_the_table :
    exampleProcesses.length = 64 ∧
    do_ProcessJoin 64 exampleProcesses examplePidMap 64 = .error Fault.outOfBounds ∧
    do_ProcessJoin 64 exampleProcesses examplePidMap 65 = .ok JoinOutcome.returned ∧
    do_ProcessJoin 64 exampleProcesses examplePidMap (-1) = .ok JoinOutcome.returned ∧
    do_ProcessJoin 64 exampleProcesses examplePidMap 0 = .ok JoinOutcome.waiting ∧
    do_ProcessJoin 64 exampleProcesses examplePidMap 1 = .ok JoinOutcome.returned := by
  decide!

/-- C30 (failing input). `copyStringFromMachine(0, to, 4)` on a memory whose
first six bytes are not zero: the loop ends with `i = 4` and the final
`to[i] = 0` writes position 4, behind the buffer of 4 bytes, and the four
bytes of the buffer hold no zero byte.  The `int` stored at `to + 3` by the
last `ReadMem` has already cleared the positions 4 to 6.  With the string `hi`
at address 6 and size 4 the buffer holds `hi` and a zero byte, and the stores
of the `int` at `to + 1` and `to + 2` have cleared the positions 4 and 5. -/
theorem C30_write_behind_the_buffer :
    copyStringFromMachine exampleUserMemory 0 exampleBuffer 4 = [97, 98, 99, 100, 0, 0, 0, 7] ∧
    (copyStringFromMachine.loop exampleUserMemory 0 4 0 exampleBuffer).1 = 4 ∧
    copyStringFromMachine exampleUserMemory 6 exampleBuffer 4 = [104, 105, 0, 0, 0, 0, 7, 7] := by
  decide

/-- C27 (counterexample). A post office with three boxes, all waiting for
message 0, receives a DATA packet with id 5 for box 2: nothing is put into
the box and `waitedId` stays 0, yet an ACK with id 5 goes back to the sender. -/
theorem C27_undelivered_DATA_is_acknowledged :
    (PostOffice.new 1 3).PostalDelivery 32 (dataPacket 2 5) =
      .ok (PostOffice.new 1 3,
        some { pktHdr := { to_ := 0, from_ := 1, length := 20 }
               mailHdr := { to_ := 1, from_ := 2, length := 0, messageType := MessageType.ACK,
                            messageId := 5 }
               body := [] }) ∧
    (PostOffice.new 1 3).box 2 = .ok { messages := [], waitedId := 0, ackId := -1 } ∧
    ¬ ((5 : Int) < 0) := by
  decide

/-- C27 (amended). `PostalDelivery` answers every DATA packet for a box `b`
of the office with an ACK that carries the id `m` of the packet and goes back
to the sending machine and box.  When `m` is the `waitedId` of `b` the packet
is put at the end of the queue of `b` and `waitedId` becomes `m + 1`; so an
ACK for `m <= waitedId` means `m < waitedId` after the step.  A DATA packet
with any other id, greater ones included, changes nothing in the office (it
is not delivered) and is acknowledged all the same. -/
theorem C27_ack_of_DATA (M : Nat) (po : PostOffice) (pkt : Packet)
    (hlen : po.boxes.length = po.numBoxes)
    (hto : 0 ≤ pkt.mailHdr.to_ ∧ pkt.mailHdr.to_ < po.numBoxes)
    (hdata : pkt.mailHdr.messageType = MessageType.DATA) :
    ∃ (po1 : PostOffice) (ack : Packet) (box box1 : MailBox),
      po.PostalDelivery M pkt = .ok (po1, some ack) ∧
      po.box pkt.mailHdr.to_ = .ok box ∧ po1.box pkt.mailHdr.to_ = .ok box1 ∧
      ack.mailHdr.messageType = MessageType.ACK ∧
      ack.mailHdr.messageId = pkt.mailHdr.messageId ∧
      ack.mailHdr.to_ = pkt.mailHdr.from_ ∧ ack.mailHdr.from_ = pkt.mailHdr.to_ ∧
      ack.pktHdr.to_ = pkt.pktHdr.from_ ∧ ack.pktHdr.from_ = pkt.pktHdr.to_ ∧
      (pkt.mailHdr.messageId = box.waitedId →
        box1.messages.length = box.messages.length + 1 ∧
        (box1.messages.getLast?.map (fun m => (m.mailHdr.messageId, m.data))) =
          some (pkt.mailHdr.messageId, padTake M pkt.body) ∧
        box1.waitedId = pkt.mailHdr.messageId + 1) ∧
      (pkt.mailHdr.messageId ≤ box.waitedId → pkt.mailHdr.messageId < box1.waitedId) ∧
      (pkt.mailHdr.messageId ≠ box.waitedId → po1 = po) := by
  have h1 : pkt.mailHdr.to_ < po.boxes.length := by rw [hlen]; exact hto.2
  obtain ⟨box, hbox, -⟩ := box_ok po pkt.mailHdr.to_ hto.1 h1
  have hr : ¬ ¬ (0 ≤ pkt.mailHdr.to_ ∧ pkt.mailHdr.to_ < (po.numBoxes : Int)) := not_not.mpr hto
  unfold PostOffice.PostalDelivery
  simp only [bind, Except.bind, pure, Except.pure, hbox, hdata]
  rw [if_neg hr]
  simp only [reduceCtorEq, false_and, if_false, true_and, ne_eq, not_false_eq_true, if_true]
  by_cases hid : pkt.mailHdr.messageId = box.waitedId
  · rw [if_pos hid]
    refine ⟨_, _, box, _, rfl, rfl, box_setBox po _ _ hto.1 h1, rfl, rfl, rfl, rfl, rfl, rfl,
      ?_, ?_, ?_⟩
    · intro _
      refine ⟨by simp [MailBox.Put], ?_, by simp [hid]⟩
      simp [MailBox.Put, Mail.new]
    · intro _
      simp only []
      omega
    · intro h
      exact absurd hid h
  · rw [if_neg hid]
    refine ⟨_, _, box, box, rfl, rfl, hbox, rfl, rfl, rfl, rfl, rfl, rfl, ?_, ?_, ?_⟩
    · intro h
      exact absurd h hid
    · intro h
      omega
    · intro _
      rfl

/-- C27 (witness). The DATA packet with id 0 for box 2 of a new office with
three boxes: delivered, acknowledged, and box 2 then waits for message 1. -/
theorem C27_ack_of_DATA_witness :
    (PostOffice.new 1 3).boxes.length = (PostOffice.new 1 3).numBoxes ∧
    (0 ≤ (dataPacket 2 0).mailHdr.to_ ∧ (dataPacket 2 0).mailHdr.to_ < (PostOffice.new 1 3).numBoxes) ∧
    (dataPacket 2 0).mailHdr.messageType = MessageType.DATA ∧
    ∃ (po1 : PostOffice) (ack : Packet) (box box1 : MailBox),
      (PostOffice.new 1 3).PostalDelivery 32 (dataPacket 2 0) = .ok (po1, some ack) ∧
      (PostOffice.new 1 3).box (dataPacket 2 0).mailHdr.to_ = .ok box ∧
      po1.box (dataPacket 2 0).mailHdr.to_ = .ok box1 ∧
      ack.mailHdr.messageType = MessageType.ACK ∧
      ack.mailHdr.messageId = (dataPacket 2 0).mailHdr.messageId ∧
      ack.mailHdr.to_ = (dataPacket 2 0).mailHdr.from_ ∧
      ack.mailHdr.from_ = (dataPacket 2 0).mailHdr.to_ ∧
      ack.pktHdr.to_ = (dataPacket 2 0).pktHdr.from_ ∧
      ack.pktHdr.from_ = (dataPacket 2 0).pktHdr.to_ ∧
      ((dataPacket 2 0).mailHdr.messageId = box.waitedId →
        box1.messages.length = box.messages.length + 1 ∧
        (box1.messages.getLast?.map (fun m => (m.mailHdr.messageId, m.data))) =
          some ((dataPacket 2 0).mailHdr.messageId, padTake 32 (dataPacket 2 0).body) ∧
        box1.waitedId = (dataPacket 2 0).mailHdr.messageId + 1) ∧
      ((dataPacket 2 0).mailHdr.messageId ≤ box.waitedId →
        (dataPacket 2 0).mailHdr.messageId < box1.waitedId) ∧
      ((dataPacket 2 0).mailHdr.messageId ≠ box.waitedId → po1 = PostOffice.new 1 3) :=
  ⟨by decide, by decide, by decide,
    C27_ack_of_DATA 32 (PostOffice.new 1 3) (dataPacket 2 0) (by decide) (by decide) (by decide)⟩

/-- C26 (failing input). After a first connection from box 1 of machine 0
(one ACK, with id 0) and its `Disconnect`, box 1 is free again and still has
`ackId = 0`.  A second `Connect` gets box 1, sends its CONN with the message
id 0 from a new payload, and `ReliableSendSegment` returns true at the first
wake-up after one emission although the postal worker has handled no packet
since: the boxes are as `Disconnect` left them. -/
theorem C26_stale_ackId_counts_as_ACK :
    (officeAfterDisconnect.map (fun po => (po.box 1).map (fun b => b.ackId))) = .ok (.ok 0) ∧
    (officeAfterDisconnect.map (fun po => po.usedBoxes.Find.1)) = .ok 1 ∧
    secondConnPayload.mailHdr.messageId = 0 ∧
    secondConnPayload.mailHdr.from_ = 1 ∧
    (secondConnect.map (fun r => (r.1, r.2.1, r.2.2.2))) = .ok (1, true, [secondConnPacket]) ∧
    (secondConnect.map (fun r => r.2.2.1.boxes)) =
      officeAfterDisconnect.map (fun po => po.boxes) := by
  decide!

theorem PostalDelivery_ok (M : Nat) (po : PostOffice) (pkt : Packet)
    (hlen : po.boxes.length = po.numBoxes)
    (hto : 0 ≤ pkt.mailHdr.to_ ∧ pkt.mailHdr.to_ < po.numBoxes) :
    ∃ po1 ack, po.PostalDelivery M pkt = .ok (po1, ack) ∧
      po1.boxes.length = po1.numBoxes ∧ po1.numBoxes = po.numBoxes := by
  have h1 : pkt.mailHdr.to_ < po.boxes.length := by rw [hlen]; exact hto.2
  obtain ⟨box, hbox, -⟩ := box_ok po pkt.mailHdr.to_ hto.1 h1
  have hr : ¬ ¬ (0 ≤ pkt.mailHdr.to_ ∧ pkt.mailHdr.to_ < (po.numBoxes : Int)) := not_not.mpr hto
  unfold PostOffice.PostalDelivery
  simp only [bind, Except.bind, pure, Except.pure, hbox]
  rw [if_neg hr]
  refine ⟨_, _, rfl, ?_, ?_⟩
  · split_ifs <;> simp [PostOffice.setBox, PostOffice.setConnections, hlen]
  · split_ifs <;> simp [PostOffice.setBox, PostOffice.setConnections]

theorem deliverAll_ok (M : Nat) : ∀ (pkts : List Packet) (po : PostOffice),
    po.boxes.length = po.numBoxes → LegalPackets po.numBoxes pkts →
    ∃ po1 acks, PostOffice.deliverAll M po pkts = .ok (po1, acks) ∧
      po1.boxes.length = po1.numBoxes ∧ po1.numBoxes = po.numBoxes := by
  intro pkts
  induction pkts with
  | nil => intro po hlen _; exact ⟨po, [], rfl, hlen, rfl⟩
  | cons pkt rest ih =>
    intro po hlen hleg
    obtain ⟨po1, ack, h1, hl1, hn1⟩ := PostalDelivery_ok M po pkt hlen (hleg pkt (by simp))
    have hleg1 : LegalPackets po1.numBoxes rest := by
      intro q hq
      rw [hn1]
      exact hleg q (by simp [hq])
    obtain ⟨po2, acks, h2, hl2, hn2⟩ := ih po1 hl1 hleg1
    refine ⟨po2, ack.toList ++ acks, ?_, hl2, by rw [hn2, hn1]⟩
    simp only [PostOffice.deliverAll, bind, Except.bind, pure, Except.pure, h1, h2]

theorem deliverAll_append (M : Nat) : ∀ (a b : List Packet) (po : PostOffice),
    PostOffice.deliverAll M po (a ++ b) =
      (do
        let r1 ← PostOffice.deliverAll M po a
        let r2 ← PostOffice.deliverAll M r1.1 b
        pure (r2.1, r1.2 ++ r2.2)) := by
  intro a
  induction a with
  | nil =>
    intro b po
    simp only [List.nil_append, PostOffice.deliverAll, bind, Except.bind, pure, Except.pure]
    cases PostOffice.deliverAll M po b <;> simp
  | cons pkt rest ih =>
    intro b po
    simp only [List.cons_append, PostOffice.deliverAll, bind, Except.bind, pure, Except.pure]
    cases h1 : po.PostalDelivery M pkt with
    | error e => rfl
    | ok r =>
      simp only [List.append_eq]
      rw [ih b r.1]
      simp only [bind, Except.bind, pure, Except.pure]
      cases h2 : PostOffice.deliverAll M r.1 rest with
      | error e => rfl
      | ok r2 =>
        simp only []
        cases h3 : PostOffice.deliverAll M r2.1 b with
        | error e => rfl
        | ok r3 => simp

theorem ackIdAtWake_zero (M : Nat) (po po1 : PostOffice) (acks : List Packet) (box : Int)
    (wakes : List (List Packet))
    (h : PostOffice.deliverAll M po (wakes.headD []) = .ok (po1, acks)) :
    po.ackIdAtWake M box wakes 0 = (po1.box box).map (fun b => b.ackId) := by
  have e : (wakes.take (0 + 1)).flatten = wakes.headD [] := by
    cases wakes <;> simp
  unfold PostOffice.ackIdAtWake
  rw [e, h]
  simp only [bind, Except.bind, pure, Except.pure]
  cases po1.box box <;> rfl

theorem ackIdAtWake_succ (M : Nat) (po po1 : PostOffice) (acks : List Packet) (box : Int)
    (wakes : List (List Packet)) (k : Nat)
    (h : PostOffice.deliverAll M po (wakes.headD []) = .ok (po1, acks)) :
    po.ackIdAtWake M box wakes (k + 1) = po1.ackIdAtWake M box wakes.tail k := by
  have e : (wakes.take (k + 1 + 1)).flatten = wakes.headD [] ++ (wakes.tail.take (k + 1)).flatten := by
    cases wakes <;> simp
  unfold PostOffice.ackIdAtWake
  rw [e, deliverAll_append, h]
  simp only [bind, Except.bind, pure, Except.pure]
  cases PostOffice.deliverAll M po1 (wakes.tail.take (k + 1)).flatten with
  | error e => rfl
  | ok r => rfl

theorem ReliableSendSegment_loop_spec (M : Nat) (p : Payload) (pkt : Packet) :
    ∀ (left : Nat) (po : PostOffice) (wakes : List (List Packet)),
      po.boxes.length = po.numBoxes →
      (0 ≤ p.mailHdr.from_ ∧ p.mailHdr.from_ < po.numBoxes) →
      (∀ w ∈ wakes, LegalPackets po.numBoxes w) →
      ∃ (v : Bool) (po1 : PostOffice) (sent : List Packet),
        ReliableSendSegment.loop M p pkt left po wakes = .ok (v, po1, sent) ∧
        sent = List.replicate sent.length pkt ∧ sent.length ≤ left ∧
        (v = true → 1 ≤ sent.length ∧
          po.ackIdAtWake M p.mailHdr.from_ wakes (sent.length - 1) = .ok p.mailHdr.messageId ∧
          ∀ j, j < sent.length - 1 →
            po.ackIdAtWake M p.mailHdr.from_ wakes j ≠ .ok p.mailHdr.messageId) ∧
        (v = false → sent.length = left ∧
          ∀ j, j < left → po.ackIdAtWake M p.mailHdr.from_ wakes j ≠ .ok p.mailHdr.messageId) := by
  intro left
  induction left with
  | zero =>
    intro po wakes _ _ _
    exact ⟨false, po, [], rfl, rfl, le_refl _, by simp, fun _ => ⟨rfl, fun j hj => absurd hj (by omega)⟩⟩
  | succ left ih =>
    intro po wakes hlen hfrom hleg
    have hleg0 : LegalPackets po.numBoxes (wakes.headD []) := by
      cases wakes with
      | nil => intro q hq; simp at hq
      | cons w rest => exact hleg w (by simp)
    obtain ⟨po1, acks, hd, hl1, hn1⟩ := deliverAll_ok M _ po hlen hleg0
    have hfrom1 : p.mailHdr.from_ < po1.boxes.length := by rw [hl1, hn1]; exact hfrom.2
    obtain ⟨box, hbox, -⟩ := box_ok po1 p.mailHdr.from_ hfrom.1 hfrom1
    have h0 := ackIdAtWake_zero M po po1 acks p.mailHdr.from_ wakes hd
    rw [hbox] at h0
    by_cases hack : box.ackId = p.mailHdr.messageId
    · refine ⟨true, po1, [pkt], ?_, rfl, by simp, ?_, by simp⟩
      · simp only [ReliableSendSegment.loop, bind, Except.bind, pure, Except.pure, hd, hbox]
        rw [if_pos hack]
      · intro _
        refine ⟨by simp, ?_, fun j hj => absurd hj (by simp)⟩
        simp only [List.length_singleton, Nat.sub_self]
        rw [h0]
        simp [Except.map, hack]
    · have hleg1 : ∀ w ∈ wakes.tail, LegalPackets po1.numBoxes w := by
        intro w hw
        rw [hn1]
        exact hleg w (List.mem_of_mem_tail hw)
      obtain ⟨v, po2, sent, hr, hrep, hle, ht, hf⟩ :=
        ih po1 wakes.tail hl1 (by rw [hn1]; exact hfrom) hleg1
      have hne0 : po.ackIdAtWake M p.mailHdr.from_ wakes 0 ≠ .ok p.mailHdr.messageId := by
        rw [h0]
        simp only [Except.map]
        intro h
        injection h with h
        exact hack h
      refine ⟨v, po2, pkt :: sent, ?_, ?_, by simp; omega, ?_, ?_⟩
      · simp only [ReliableSendSegment.loop, bind, Except.bind, pure, Except.pure, hd, hbox]
        rw [if_neg hack, hr]
      · simp only [List.length_cons, List.replicate_succ]
        rw [← hrep]
      · intro hv
        obtain ⟨h1, h2, h3⟩ := ht hv
        refine ⟨by simp, ?_, ?_⟩
        · have e : (pkt :: sent).length - 1 = (sent.length - 1) + 1 := by simp; omega
          rw [e, ackIdAtWake_succ M po po1 acks _ wakes _ hd]
          exact h2
        · intro j hj
          cases j with
          | zero => exact hne0
          | succ j =>
            rw [ackIdAtWake_succ M po po1 acks _ wakes _ hd]
            exact h3 j (by simp at hj; omega)
      · intro hv
        obtain ⟨h1, h2⟩ := hf hv
        refine ⟨by simp [h1], ?_⟩
        intro j hj
        cases j with
        | zero => exact hne0
        | succ j =>
          rw [ackIdAtWake_succ M po po1 acks _ wakes _ hd]
          exact h2 j (by omega)

theorem SendPayload_loop_spec (M : Nat) (acked : Int → Bool) (data : List Byte) :
    ∀ (left segIndex : Nat) (p : Payload),
      ∃ k, k ≤ left ∧
        (∀ j : Nat, j < k → acked (p.mailHdr.messageId + j) = true) ∧
        (k < left → acked (p.mailHdr.messageId + k) = false) ∧
        ((SendPayload.loop M acked data left segIndex p).1 = true ↔ k = left) ∧
        (SendPayload.loop M acked data left segIndex p).2.1.mailHdr.messageId =
          p.mailHdr.messageId + k ∧
        (SendPayload.loop M acked data left segIndex p).2.2.map (fun q => q.mailHdr.messageId) =
          (List.range (min (k + 1) left)).map (fun (j : Nat) => p.mailHdr.messageId + j) := by
  intro left
  induction left with
  | zero =>
    intro segIndex p
    exact ⟨0, le_refl _, fun j hj => absurd hj (by omega), fun h => absurd h (by omega),
      by simp [SendPayload.loop], by simp [SendPayload.loop], by simp [SendPayload.loop]⟩
  | succ left ih =>
    intro segIndex p
    cases hack : acked p.mailHdr.messageId with
    | false =>
      refine ⟨0, by omega, fun j hj => absurd hj (by omega), fun _ => by simpa using hack, ?_, ?_, ?_⟩
      · simp [SendPayload.loop, hack]
      · simp [SendPayload.loop, hack]
      · simp [SendPayload.loop, hack, List.range_succ]
    | true =>
      obtain ⟨k, hk, h1, h2, h3, h4, h5⟩ := ih (segIndex + 1)
        { p with mailHdr := { p.mailHdr with messageId := p.mailHdr.messageId + 1 } }
      simp only [] at h1 h2 h3 h4 h5
      refine ⟨k + 1, by omega, ?_, ?_, ?_, ?_, ?_⟩
      · intro j hj
        cases j with
        | zero => simpa using hack
        | succ j =>
          have := h1 j (by omega)
          rw [← this]
          congr 1
          push_cast
          ring
      · intro hlt
        have := h2 (by omega)
        rw [← this]
        congr 1
        push_cast
        ring
      · simp only [SendPayload.loop, hack, Bool.not_true, Bool.false_eq_true, if_false]
        rw [h3]
        omega
      · simp only [SendPayload.loop, hack, Bool.not_true, Bool.false_eq_true, if_false]
        rw [h4]
        push_cast
        ring
      · simp only [SendPayload.loop, hack, Bool.not_true, Bool.false_eq_true, if_false,
          List.map_cons]
        rw [h5]
        have e : min (k + 1 + 1) (left + 1) = min (k + 1) left + 1 := by omega
        rw [e, List.range_succ_eq_map]
        simp only [List.map_cons, List.map_map]
        congr 1
        · simp
        · apply List.map_congr_left
          intro j _
          simp only [Function.comp]
          push_cast
          ring

/-- C25. Bounded stop-and-wait.  For an office whose boxes are all there, a
payload sent from one of its boxes and legal arriving packets,
`ReliableSendSegment` returns: it has handed the same packet to the network
between 1 and `MAXREEMISSIONS` (50) times; it returns true exactly at the first
wake-up at which `ackId` of the sending box is the message id of the segment
(one emission per wake-up up to that one), and false exactly when the 50
wake-ups all read another `ackId`, after 50 emissions.  `SendPayload`, for a
payload that passes its assertions, returns with `k` segments acknowledged:
the message id has advanced by `k`, the packets handed over are the segments
with the ids `id` to `id + k` (none after the one that failed), and the call
returns true exactly when `k` is the number of segments. -/
theorem C25_bounded_stop_and_wait (M : Nat) (po : PostOffice) (p : Payload) (pkt : Packet)
    (wakes : List (List Packet)) (acked : Int → Bool) (data : List Byte)
    (hlen : po.boxes.length = po.numBoxes)
    (hfrom : 0 ≤ p.mailHdr.from_ ∧ p.mailHdr.from_ < po.numBoxes)
    (hleg : ∀ w ∈ wakes, LegalPackets po.numBoxes w)
    (hto : 0 ≤ p.mailHdr.to_ ∧ p.mailHdr.to_ < po.numBoxes)
    (hnet : p.pktHdr.from_ = po.netAddr)
    (hpl : p.pktHdr.length = M + sizeofMailHeader) :
    (∃ (v : Bool) (po1 : PostOffice) (sent : List Packet),
      po.ReliableSendSegment M p pkt wakes = .ok (v, po1, sent) ∧
      sent = List.replicate sent.length pkt ∧ 1 ≤ sent.length ∧ sent.length ≤ MAXREEMISSIONS ∧
      (v = true →
        po.ackIdAtWake M p.mailHdr.from_ wakes (sent.length - 1) = .ok p.mailHdr.messageId ∧
        ∀ j, j < sent.length - 1 →
          po.ackIdAtWake M p.mailHdr.from_ wakes j ≠ .ok p.mailHdr.messageId) ∧
      (v = false → sent.length = MAXREEMISSIONS) ∧
      (v = false ↔ ∀ j, j < MAXREEMISSIONS →
        po.ackIdAtWake M p.mailHdr.from_ wakes j ≠ .ok p.mailHdr.messageId)) ∧
    (∃ (ok : Bool) (p1 : Payload) (sent : List Packet) (k : Nat),
      po.SendPayload M acked p data = .ok (ok, p1, sent) ∧
      k ≤ p.nbSegments ∧
      (∀ j : Nat, j < k → acked (p.mailHdr.messageId + j) = true) ∧
      (k < p.nbSegments → acked (p.mailHdr.messageId + k) = false) ∧
      (ok = true ↔ k = p.nbSegments) ∧
      p1.mailHdr.messageId = p.mailHdr.messageId + k ∧
      sent.map (fun q => q.mailHdr.messageId) =
        (List.range (min (k + 1) p.nbSegments)).map (fun (j : Nat) => p.mailHdr.messageId + j)) := by
  constructor
  · obtain ⟨v, po1, sent, hr, hrep, hle, ht, hf⟩ :=
      ReliableSendSegment_loop_spec M p pkt MAXREEMISSIONS po wakes hlen hfrom hleg
    refine ⟨v, po1, sent, hr, hrep, ?_, hle, ?_, ?_, ?_⟩
    · cases v with
      | true => exact (ht rfl).1
      | false => rw [(hf rfl).1]; decide
    · intro hv
      exact ⟨(ht hv).2.1, (ht hv).2.2⟩
    · intro hv
      exact (hf hv).1
    · constructor
      · intro hv
        exact (hf hv).2
      · intro hall
        cases v with
        | false => rfl
        | true =>
          obtain ⟨h1, h2, -⟩ := ht rfl
          exact absurd h2 (hall _ (by omega))
  · obtain ⟨k, hk, h1, h2, h3, h4, h5⟩ := SendPayload_loop_spec M acked data p.nbSegments 0 p
    refine ⟨_, _, _, k, ?_, hk, h1, h2, h3, h4, h5⟩
    unfold PostOffice.SendPayload
    rw [if_neg (not_not.mpr hto), if_neg (not_not.mpr hnet), if_neg (not_not.mpr hpl)]

/-- C25 (witness). Machine 0 sends the first segment of a message of 40 bytes
from its box 1: the tempo handler wakes it first, then the ACK arrives; the
segment is emitted twice and the call returns true.  `SendPayload` with every
segment acknowledged hands over the two segments. -/
theorem C25_bounded_stop_and_wait_witness :
    (PostOffice.new 0 10).boxes.length = (PostOffice.new 0 10).numBoxes ∧
    (0 ≤ examplePayload.mailHdr.from_ ∧
      examplePayload.mailHdr.from_ < (PostOffice.new 0 10).numBoxes) ∧
    (0 ≤ examplePayload.mailHdr.to_ ∧ examplePayload.mailHdr.to_ < (PostOffice.new 0 10).numBoxes) ∧
    examplePayload.pktHdr.from_ = (PostOffice.new 0 10).netAddr ∧
    examplePayload.pktHdr.length = 32 + sizeofMailHeader ∧
    (PostOffice.new 0 10).ackIdAtWake 32 1 exampleWakes 0 = .ok (-1) ∧
    (PostOffice.new 0 10).ackIdAtWake 32 1 exampleWakes 1 = .ok 0 ∧
    ((PostOffice.new 0 10).ReliableSendSegment 32 examplePayload exampleSegment exampleWakes).map
      (fun r => (r.1, r.2.2)) = .ok (true, [exampleSegment, exampleSegment]) ∧
    (∃ (v : Bool) (po1 : PostOffice) (sent : List Packet),
      (PostOffice.new 0 10).ReliableSendSegment 32 examplePayload exampleSegment exampleWakes =
        .ok (v, po1, sent) ∧
      sent = List.replicate sent.length exampleSegment ∧ 1 ≤ sent.length ∧
      sent.length ≤ MAXREEMISSIONS ∧
      (v = true →
        (PostOffice.new 0 10).ackIdAtWake 32 examplePayload.mailHdr.from_ exampleWakes
          (sent.length - 1) = .ok examplePayload.mailHdr.messageId ∧
        ∀ j, j < sent.length - 1 →
          (PostOffice.new 0 10).ackIdAtWake 32 examplePayload.mailHdr.from_ exampleWakes j ≠
            .ok examplePayload.mailHdr.messageId) ∧
      (v = false → sent.length = MAXREEMISSIONS) ∧
      (v = false ↔ ∀ j, j < MAXREEMISSIONS →
        (PostOffice.new 0 10).ackIdAtWake 32 examplePayload.mailHdr.from_ exampleWakes j ≠
          .ok examplePayload.mailHdr.messageId)) ∧
    (∃ (ok : Bool) (p1 : Payload) (sent : List Packet) (k : Nat),
      (PostOffice.new 0 10).SendPayload 32 (fun _ => true) examplePayload (List.replicate 40 65) =
        .ok (ok, p1, sent) ∧
      k ≤ examplePayload.nbSegments ∧
      (∀ j : Nat, j < k → (fun _ => true) (examplePayload.mailHdr.messageId + j) = true) ∧
      (k < examplePayload.nbSegments →
        (fun _ => true) (examplePayload.mailHdr.messageId + k) = false) ∧
      (ok = true ↔ k = examplePayload.nbSegments) ∧
      p1.mailHdr.messageId = examplePayload.mailHdr.messageId + k ∧
      sent.map (fun q => q.mailHdr.messageId) =
        (List.range (min (k + 1) examplePayload.nbSegments)).map
          (fun (j : Nat) => examplePayload.mailHdr.messageId + j)) :=
  have h := C25_bounded_stop_and_wait 32 (PostOffice.new 0 10) examplePayload exampleSegment
    exampleWakes (fun _ => true) (List.replicate 40 65) (by decide) (by decide)
    (by
      intro w hw q hq
      simp only [exampleWakes, List.mem_cons, List.mem_singleton, List.not_mem_nil, or_false] at hw
      rcases hw with rfl | rfl
      · simp at hq
      · simp only [List.mem_singleton] at hq
        subst hq
        decide)
    (by decide) (by decide) (by decide)
  ⟨by decide, by decide, by decide, by decide, by decide, by decide, by decide, by decide,
    h.1, h.2⟩

set_option maxRecDepth 100000 in
/-- C21 (counterexample). A process of one page whose 40 registers all hold 7
is sent to a machine with 64 free frames: the process built by `ListenProcess`
has one page and the same 128 bytes of memory, and its registers hold 7 except
register 2, which holds 1 and not the 7 of the sender. -/
theorem C21_register_2_is_overwritten :
    (ListenProcess 128 64 40 (FrameProvider.new 64) (List.replicate 128 0)
      (SendProcess.fields 128 40 exampleProcess)).map
        (fun r => (r.1.numPages, r.1.memory, r.1.userRegisters)) =
      .ok (1, exampleProcess.memory, (List.replicate 40 7).set 2 1) ∧
    exampleProcess.userRegisters.getD 2 0 = 7 ∧
    ((List.replicate 40 (7 : Int)).set 2 1).getD 2 0 = 1 := by
  decide!

theorem ofU32_toU32 (x : Int) (h0 : -2147483648 ≤ x) (h1 : x < 2147483648) :
    ofU32 (toU32 x) = x := by
  unfold ofU32 toU32
  split <;> omega

theorem toU32_ofU32 (u : Nat) (h : u < 4294967296) : toU32 (ofU32 u) = u := by
  unfold ofU32 toU32
  split <;> omega

theorem decodeInt_encodeInt (x : Int) : decodeInt (encodeInt x) 0 = ofU32 (toU32 x) := by
  have h : toU32 x < 4294967296 := by unfold toU32; omega
  unfold decodeInt encodeInt
  simp only [List.getD_cons_zero, List.getD_cons_succ, Nat.zero_add]
  congr 1
  omega

theorem receiveInt_encodeInt (x : Int) (rest : List (List Byte)) :
    receiveInt (encodeInt x :: rest) = .ok (ofU32 (toU32 x), rest) := by
  have e : bcopy (encodeInt x) 0 (bzero [0, 0, 0, 0] (strlen [0, 0, 0, 0] + 1)) 0
      (encodeInt x).length = encodeInt x := by
    simp [encodeInt, bcopy, bzero, strlen, padTake]
  simp only [receiveInt, receiveField, bind, Except.bind, pure, Except.pure, e,
    decodeInt_encodeInt]

theorem receiveInt_cons (msg : List Byte) (rest : List (List Byte)) :
    ∃ v, receiveInt (msg :: rest) = .ok (v, rest) :=
  ⟨_, rfl⟩

theorem receiveField_byte (b : Byte) (rest : List (List Byte)) (buffer : List Byte) :
    ∃ buffer1, receiveField ([b] :: rest) buffer = .ok (buffer1, rest) ∧ buffer1.getD 0 0 = b := by
  refine ⟨_, rfl, ?_⟩
  simp [bcopy, padTake]

theorem toU32_byte (x : Nat) : toU32 ((x % 256 : Nat) : Int) % 256 = x % 256 := by
  unfold toU32
  omega

theorem toU32_charToInt (b : Nat) : toU32 (charToInt b) % 256 = b % 256 := by
  unfold toU32 charToInt
  split <;> omega

theorem SendProcess_byte_eq (mem : List Byte) (addr : Nat) (h : addr < mem.length) :
    SendProcess.byte mem addr = [mem.getD addr 0 % 256] := by
  unfold SendProcess.byte ReadMem
  rw [if_pos ⟨by omega, by omega⟩]
  simp only [encodeInt, List.take_succ_cons, List.take_zero, Int.toNat_ofNat]
  congr 1
  exact toU32_byte _

theorem WriteMem_char (mem : List Byte) (addr : Nat) (b : Byte) (h : addr < mem.length) :
    WriteMem mem (addr : Int) (charToInt b) = mem.set addr (b % 256) := by
  unfold WriteMem
  rw [if_pos ⟨by omega, by omega⟩]
  simp only [Int.toNat_ofNat]
  congr 1
  exact toU32_charToInt _

theorem ListenProcess_page_spec (PageSize nPage : Nat) (smem : List Byte) (L : Nat)
    (hs : smem.length = L) (rest : List (List Byte)) :
    ∀ (left j : Nat) (buffer mem : List Byte),
      mem.length = L → nPage * PageSize + j + left ≤ L →
      ∃ buffer1 mem1,
        ListenProcess.page PageSize nPage left j buffer mem
          (SendProcess.page PageSize smem nPage left j ++ rest) = .ok (buffer1, mem1, rest) ∧
        mem1.length = L ∧
        ∀ a, mem1.getD a 0 =
          if nPage * PageSize + j ≤ a ∧ a < nPage * PageSize + j + left then smem.getD a 0 % 256
          else mem.getD a 0 := by
  intro left
  induction left with
  | zero =>
    intro j buffer mem hm _
    refine ⟨buffer, mem, rfl, hm, ?_⟩
    intro a
    rw [if_neg (by omega)]
  | succ left ih =>
    intro j buffer mem hm hle
    have hlt : nPage * PageSize + j < smem.length := by omega
    obtain ⟨buffer1, hrecv, hb⟩ :=
      receiveField_byte (smem.getD (nPage * PageSize + j) 0 % 256)
        (SendProcess.page PageSize smem nPage left (j + 1) ++ rest) buffer
    obtain ⟨buffer2, mem2, hpage, hlen2, hget2⟩ :=
      ih (j + 1) buffer1 (mem.set (nPage * PageSize + j) (smem.getD (nPage * PageSize + j) 0 % 256))
        (by simp [hm]) (by omega)
    refine ⟨buffer2, mem2, ?_, hlen2, ?_⟩
    · simp only [SendProcess.page, ListenProcess.page, List.cons_append, SendProcess_byte_eq _ _ hlt,
        bind, Except.bind, hrecv, hb]
      rw [WriteMem_char _ _ _ (by omega)]
      simp only [Nat.mod_mod]
      exact hpage
    · intro a
      rw [hget2 a]
      by_cases h1 : a = nPage * PageSize + j
      · subst h1
        rw [if_neg (by omega), if_pos (by omega)]
        simp [List.getD_eq_getElem?_getD, List.getElem?_set, hm, hs ▸ hlt]
      · by_cases h2 : nPage * PageSize + (j + 1) ≤ a ∧ a < nPage * PageSize + (j + 1) + left
        · rw [if_pos h2, if_pos (by omega)]
        · rw [if_neg h2, if_neg (by omega)]
          simp [List.getD_eq_getElem?_getD, List.getElem?_set, Ne.symm h1]

theorem ListenProcess_pages_spec (PageSize : Nat) (smem : List Byte) (L : Nat)
    (hs : smem.length = L) (rest : List (List Byte)) :
    ∀ (left nPage : Nat) (buffer mem : List Byte),
      mem.length = L → (nPage + left) * PageSize ≤ L →
      ∃ buffer1 mem1,
        ListenProcess.pages PageSize left nPage buffer mem
          (SendProcess.pages PageSize smem left nPage ++ rest) = .ok (buffer1, mem1, rest) ∧
        mem1.length = L ∧
        ∀ a, mem1.getD a 0 =
          if nPage * PageSize ≤ a ∧ a < (nPage + left) * PageSize then smem.getD a 0 % 256
          else mem.getD a 0 := by
  intro left
  induction left with
  | zero =>
    intro nPage buffer mem hm _
    refine ⟨buffer, mem, rfl, hm, ?_⟩
    intro a
    rw [if_neg (by simp)]
  | succ left ih =>
    intro nPage buffer mem hm hle
    have e1 : (nPage + (left + 1)) * PageSize = nPage * PageSize + PageSize + left * PageSize := by
      ring
    have e2 : (nPage + 1 + left) * PageSize = nPage * PageSize + PageSize + left * PageSize := by
      ring
    obtain ⟨buffer1, mem1, hpage, hlen1, hget1⟩ :=
      ListenProcess_page_spec PageSize nPage smem L hs
        (SendProcess.pages PageSize smem left (nPage + 1) ++ rest) PageSize 0 buffer mem hm
        (by rw [e1] at hle; omega)
    obtain ⟨buffer2, mem2, hpages, hlen2, hget2⟩ :=
      ih (nPage + 1) buffer1 mem1 hlen1 (by rw [e2]; rw [e1] at hle; exact hle)
    refine ⟨buffer2, mem2, ?_, hlen2, ?_⟩
    · simp only [SendProcess.pages, ListenProcess.pages, List.append_assoc, bind, Except.bind,
        hpage]
      exact hpages
    · intro a
      rw [hget2 a, hget1 a, e1, e2]
      have e3 : (nPage + 1) * PageSize = nPage * PageSize + PageSize := by ring
      rw [e3]
      by_cases h1 : nPage * PageSize + PageSize ≤ a ∧
          a < nPage * PageSize + PageSize + left * PageSize
      · rw [if_pos h1, if_pos (by omega)]
      · rw [if_neg h1]
        by_cases h2 : nPage * PageSize + 0 ≤ a ∧ a < nPage * PageSize + 0 + PageSize
        · rw [if_pos h2, if_pos (by omega)]
        · rw [if_neg h2, if_neg (by omega)]

theorem ListenProcess_registers_spec (regs : List Int) (rest : List (List Byte)) :
    ∀ (left r : Nat),
      ListenProcess.registers left (SendProcess.registers regs left r ++ rest) =
        .ok ((List.range left).map (fun i => ofU32 (toU32 (regs.getD (r + i) 0))), rest) := by
  intro left
  induction left with
  | zero => intro r; rfl
  | succ left ih =>
    intro r
    simp only [SendProcess.registers, ListenProcess.registers, List.cons_append,
      receiveInt_encodeInt, bind, Except.bind, ih (r + 1), pure, Except.pure]
    rw [List.range_succ_eq_map]
    simp only [List.map_cons, List.map_map, Nat.add_zero]
    congr 3
    apply List.map_congr_left
    intro i _
    simp only [Function.comp]
    congr 3
    omega

theorem ListenProcess_semValues_ok (rest : List (List Byte)) :
    ∀ (a : List (List Byte)) (i : Nat) (t : SemTable),
      t.semBitmap.bits.length = MAX_SEM → i + a.length ≤ MAX_SEM →
      ∃ t1, ListenProcess.semValues a.length i t (a ++ rest) = .ok (t1, rest) := by
  intro a
  induction a with
  | nil => intro i t _ _; exact ⟨t, rfl⟩
  | cons msg a ih =>
    intro i t ht hi
    simp only [List.length_cons] at hi
    obtain ⟨v, hv⟩ := receiveInt_cons msg (a ++ rest)
    simp only [List.length_cons, ListenProcess.semValues, List.cons_append, bind, Except.bind, hv]
    by_cases hmax : v = INT_MAX
    · rw [if_neg (not_not.mpr hmax)]
      exact ih (i + 1) t ht (by omega)
    · rw [if_pos hmax]
      have hmark : t.semBitmap.Mark (i : Int) = .ok ⟨t.semBitmap.bits.set i true⟩ := by
        unfold BitMap.Mark
        rw [if_pos ⟨by omega, by omega⟩]
        simp
      simp only [hmark]
      exact ih (i + 1) _ (by simp [ht]) (by omega)

theorem SendProcess_semValues_length (sems : SemTable) :
    ∀ (left i : Nat), (SendProcess.semValues sems left i).length = left := by
  intro left
  induction left with
  | zero => intro i; rfl
  | succ left ih => intro i; simp [SendProcess.semValues, ih]

theorem ListenProcess_threads_ok (NumTotalRegs : Nat) (infos : List (Option SlotThread))
    (hw : ∀ info ∈ infos, ∀ t, info = some t →
      t.userthread_id < 4294967296 ∧ t.userthread_id ≠ 2147483647)
    (rest : List (List Byte)) :
    ∀ (left i : Nat),
      ∃ ts, ListenProcess.threads NumTotalRegs left i
        (SendProcess.threads NumTotalRegs infos left i ++ rest) = .ok (ts, rest) := by
  intro left
  induction left with
  | zero => intro i; exact ⟨[], rfl⟩
  | succ left ih =>
    intro i
    obtain ⟨ts, hts⟩ := ih (i + 1)
    cases hinfo : infos.getD i none with
    | none =>
      refine ⟨none :: ts, ?_⟩
      simp only [SendProcess.threads, hinfo, ListenProcess.threads, List.cons_append,
        List.nil_append, receiveInt_encodeInt, bind, Except.bind, pure, Except.pure]
      have e : ((toU32 (ofU32 (toU32 INT_MAX)) : Nat) : Int) = INT_MAX := by decide
      rw [if_neg (not_not.mpr e), hts]
    | some t =>
      have hmem : some t ∈ infos := by
        rw [List.getD_eq_getElem?_getD] at hinfo
        cases hget : infos[i]? with
        | none => rw [hget] at hinfo; cases hinfo
        | some x =>
          rw [hget] at hinfo
          simp only [Option.getD_some] at hinfo
          rw [← hinfo]
          exact List.getElem?_mem hget
      obtain ⟨h1, h2⟩ := hw _ hmem t rfl
      refine ⟨some ⟨t.userthread_id, (List.range NumTotalRegs).map
          (fun k => ofU32 (toU32 (t.userRegisters.getD (0 + k) 0)))⟩ :: ts, ?_⟩
      have e : toU32 (ofU32 (toU32 (t.userthread_id : Int))) = t.userthread_id := by
        rw [toU32_of_nat _ h1, toU32_ofU32 _ h1]
      have hne : ((t.userthread_id : Nat) : Int) ≠ INT_MAX := by
        unfold INT_MAX
        omega
      simp only [SendProcess.threads, hinfo, ListenProcess.threads, List.cons_append,
        List.append_assoc, receiveInt_encodeInt, bind, Except.bind, pure, Except.pure, e]
      rw [if_pos hne, ListenProcess_registers_spec]
      simp only [hts]

/-- C21 (amended). Migration round trip.  For every well-formed sending
process and every receiving machine with enough free frames, `ListenProcess`
on the sequence of fields written by `SendProcess` returns a process with the
same number of pages, in whose memory every byte is the one of the sender,
and whose main thread has the registers of the sender except register 2,
which `ListenProcess` sets to 1. -/
theorem C21_migration_round_trip (PageSize NumPhysPages NumTotalRegs : Nat) (s : ProcessImage)
    (fp : FrameProvider) (buffer : List Byte)
    (hwf : s.WellFormed PageSize NumTotalRegs)
    (havail : toU32 fp.NumAvailFrame ≥ s.numPages) (hphys : s.numPages ≤ NumPhysPages) :
    ∃ (r : ProcessImage) (space : AddrSpace) (fp1 : FrameProvider),
      ListenProcess PageSize NumPhysPages NumTotalRegs fp buffer
        (SendProcess.fields PageSize NumTotalRegs s) = .ok (r, space, fp1) ∧
      space.numPages = s.numPages ∧ r.numPages = s.numPages ∧
      r.memory = s.memory ∧
      r.userRegisters = s.userRegisters.set 2 1 ∧
      (∀ i, i ≠ 2 → r.userRegisters.getD i 0 = s.userRegisters.getD i 0) ∧
      (2 < NumTotalRegs → r.userRegisters.getD 2 0 = 1) := by
  obtain ⟨hnp, hmem, hbytes, hregs, hrange, hthreads⟩ := hwf
  have e1 : toU32 (ofU32 (toU32 (s.numPages : Int))) = s.numPages := by
    rw [toU32_of_nat _ hnp, toU32_ofU32 _ hnp]
  obtain ⟨buffer1, mem1, hpages, hlen1, hget1⟩ :=
    ListenProcess_pages_spec PageSize s.memory (s.numPages * PageSize) hmem
      (SendProcess.registers s.userRegisters NumTotalRegs 0 ++
        (SendProcess.semValues s.sems MAX_SEM 0 ++
          ([encodeInt s.nThreads] ++
            SendProcess.threads NumTotalRegs s.localThreadsInfos (MaxThreadsPerProcess PageSize) 0)))
      s.numPages 0 buffer (List.replicate (s.numPages * PageSize) 0) (by simp) (by simp)
  obtain ⟨t1, hsems⟩ := ListenProcess_semValues_ok
    ([encodeInt s.nThreads] ++
      SendProcess.threads NumTotalRegs s.localThreadsInfos (MaxThreadsPerProcess PageSize) 0)
    (SendProcess.semValues s.sems MAX_SEM 0) 0 SemTable.new (by simp [SemTable.new])
    (by rw [SendProcess_semValues_length]; omega)
  rw [SendProcess_semValues_length] at hsems
  obtain ⟨ts, hts⟩ := ListenProcess_threads_ok NumTotalRegs s.localThreadsInfos hthreads []
    (MaxThreadsPerProcess PageSize) 0
  rw [List.append_nil] at hts
  have hmemeq : mem1 = s.memory := by
    apply List.ext_getElem (by rw [hlen1, hmem])
    intro a h1 h2
    have h := hget1 a
    rw [if_pos ⟨by omega, by rw [hlen1] at h1; simpa using h1⟩] at h
    rw [List.getD_eq_getElem _ _ h1, List.getD_eq_getElem _ _ h2] at h
    rw [h]
    exact Nat.mod_eq_of_lt (hbytes _ (List.getElem_mem _))
  have hregeq : (List.range NumTotalRegs).map
      (fun i => ofU32 (toU32 (s.userRegisters.getD (0 + i) 0))) = s.userRegisters := by
    apply List.ext_getElem (by simp [hregs])
    intro i h1 h2
    simp only [List.getElem_map, List.getElem_range, Nat.zero_add]
    rw [List.getD_eq_getElem _ _ h2]
    have := hrange _ (List.getElem_mem h2)
    exact ofU32_toU32 _ this.1 this.2
  simp only [List.singleton_append] at hpages hsems
  unfold ListenProcess SendProcess.fields
  simp only [List.append_assoc, List.singleton_append, List.cons_append, List.nil_append, receiveInt_encodeInt,
    bind, Except.bind, e1]
  unfold AddrSpace.new
  rw [if_neg (not_not.mpr havail), if_neg (not_not.mpr hphys)]
  simp only [hpages, ListenProcess_registers_spec, hsems, List.singleton_append,
    List.cons_append, List.nil_append, receiveInt_encodeInt, hts, pure, Except.pure, hregeq]
  refine ⟨_, _, _, rfl, rfl, rfl, hmemeq, rfl, ?_, ?_⟩
  · intro i hi
    simp [List.getD_eq_getElem?_getD, List.getElem?_set, Ne.symm hi]
  · intro h2
    simp [List.getD_eq_getElem?_getD, List.getElem?_set, hregs, h2]

set_option maxRecDepth 100000 in
/-- C21 (witness). The process of one page with 40 registers that hold 7,
sent to a machine with 64 free frames. -/
theorem C21_migration_round_trip_witness :
    exampleProcess.WellFormed 128 40 ∧
    toU32 (FrameProvider.new 64).NumAvailFrame ≥ exampleProcess.numPages ∧
    exampleProcess.numPages ≤ 64 ∧
    ∃ (r : ProcessImage) (space : AddrSpace) (fp1 : FrameProvider),
      ListenProcess 128 64 40 (FrameProvider.new 64) (List.replicate 128 0)
        (SendProcess.fields 128 40 exampleProcess) = .ok (r, space, fp1) ∧
      space.numPages = exampleProcess.numPages ∧ r.numPages = exampleProcess.numPages ∧
      r.memory = exampleProcess.memory ∧
      r.userRegisters = exampleProcess.userRegisters.set 2 1 ∧
      (∀ i, i ≠ 2 → r.userRegisters.getD i 0 = exampleProcess.userRegisters.getD i 0) ∧
      (2 < 40 → r.userRegisters.getD 2 0 = 1) :=
  have hwf : exampleProcess.WellFormed 128 40 := by
    unfold ProcessImage.WellFormed
    decide!
  ⟨hwf, by decide, by decide,
    C21_migration_round_trip 128 64 40 exampleProcess (FrameProvider.new 64) (List.replicate 128 0)
      hwf (by decide) (by decide)⟩

/-- A read of four bytes at offset 0 of a file of at least four bytes whose
first sector is `s`. -/
theorem readAtWith_first4 (disk : Disk) (bts : Int → Except Fault Int) (len : Int) (s : Int)
    (hlen : 4 ≤ len) (hb : bts 0 = .ok s) (hs0 : 0 ≤ s) (hs1 : s < 1024) :
    readAtWith 128 1024 disk bts len 4 0 = .ok (padTake 4 (padTake 128 (disk s.toNat))) := by
  unfold readAtWith
  rw [if_neg (by omega)]
  simp only [divRoundDown, Nat.cast_ofNat]
  rw [if_neg (show ¬ ((0 : Int) + 4 > len) by omega)]
  have h1 : (1 + Int.tdiv (0 + 4 - 1) 128 - Int.tdiv 0 128).toNat = 1 := by decide
  have h2 : Int.tdiv 0 128 = 0 := by decide
  rw [h1, h2]
  unfold readSectors readSectors
  simp only [Nat.cast_ofNat, zero_mul, hb, bind, Except.bind, pure, Except.pure, ReadSector]
  rw [if_pos ⟨hs0, by simpa using hs1⟩]
  simp

theorem go_offset_zero (disk : Disk) (fuel : Nat) (h : FileHeader) :
    ByteToSector.go 128 1024 disk (fuel + 1) h 0 = getEntry h.dataSectors 0 := by
  unfold ByteToSector.go
  have h1 : toU32 (Int.tdiv 0 ((128 : Nat) : Int)) = 0 := by decide
  have h2 : 0 < NumDirect 128 - 1 := by decide
  simp only [h1, h2, if_true]
  rfl

/-- The sector that `ByteToSector` gives for offset 3584 of a file whose entry
28 is a sector `u` that reads as `staleHeader`: the number held in the first
four bytes of sector 0. -/
theorem go_entry28_stale (disk : Disk) (fuel : Nat) (h : FileHeader) (u : Int)
    (hu : getEntry h.dataSectors 28 = .ok u) (hu0 : 0 ≤ u) (hu1 : u < 1024)
    (hstale : FileHeader.decode 128 (disk u.toNat) = staleHeader) :
    ByteToSector.go 128 1024 disk (fuel + 2) h 3584 =
      .ok (decodeInt (padTake 4 (padTake 128 (disk 0))) 0) := by
  rw [ByteToSector.go]
  have h1 : toU32 (Int.tdiv 3584 ((128 : Nat) : Int)) = 28 := by decide
  have h2 : ¬ (28 < NumDirect 128 - 1) := by decide
  have h3 : ((NumDirect 128 : Nat) : Int) - 1 = 28 := by decide
  simp only [h1, h2, if_false, h3, hu, bind, Except.bind, FileHeader.FetchFrom, ReadSector]
  rw [if_pos ⟨hu0, by simpa using hu1⟩]
  simp only [hstale, pure, Except.pure]
  have h5 : ofU32 (4 * (toU32 (3584 - ((128 * (NumDirect 128 - 1) : Nat) : Int)) / 128)) = 0 := by
    decide
  rw [h5]
  have hr := readAtWith_first4 disk (ByteToSector.go 128 1024 disk (fuel + 1) staleHeader)
    staleHeader.FileLength 0 (by decide) (by rw [go_offset_zero]; rfl) (by decide) (by decide)
  rw [hr]
  simp [padTake]

theorem ByteToSector_entry28_stale (disk : Disk) (h : FileHeader) (u : Int)
    (hu : getEntry h.dataSectors 28 = .ok u) (hu0 : 0 ≤ u) (hu1 : u < 1024)
    (hstale : FileHeader.decode 128 (disk u.toNat) = staleHeader) :
    h.ByteToSector 128 1024 disk 3584 = .ok (decodeInt (padTake 4 (padTake 128 (disk 0))) 0) :=
  go_entry28_stale disk 62 h u hu hu0 hu1 hstale

theorem ReadAt_entry28_stale (disk : Disk) (f : OpenFile) (u v : Int)
    (hu : getEntry f.hdr.dataSectors 28 = .ok u) (hu0 : 0 ≤ u) (hu1 : u < 1024)
    (hstale : FileHeader.decode 128 (disk u.toNat) = staleHeader)
    (hv : decodeInt (padTake 4 (padTake 128 (disk 0))) 0 = v) (hv0 : 0 ≤ v) (hv1 : v < 1024)
    (hnb : f.hdr.numBytes = 3588) :
    OpenFile.ReadAt 128 1024 disk f 128 3584 = .ok (padTake 4 (padTake 128 (disk v.toNat))) := by
  unfold OpenFile.ReadAt readAtWith
  simp only [FileHeader.FileLength, hnb, divRoundDown, Nat.cast_ofNat]
  rw [if_neg (by decide)]
  have h1 : (1 + Int.tdiv (3584 + (if (3584 : Int) + 128 > 3588 then 3588 - 3584
      else 128) - 1) 128 - Int.tdiv 3584 128).toNat = 1 := by decide
  have h2 : Int.tdiv 3584 128 = 28 := by decide
  have h4 : (if (3584 : Int) + 128 > 3588 then (3588 : Int) - 3584 else 128) = 4 := by decide
  rw [h1, h2, h4]
  unfold readSectors readSectors
  have h3 : (28 : Int) * 128 = 3584 := by decide
  simp only [Nat.cast_ofNat, h3, ByteToSector_entry28_stale disk f.hdr u hu hu0 hu1 hstale, hv,
    bind, Except.bind, pure, Except.pure, ReadSector]
  rw [if_pos ⟨hv0, by simpa using hv1⟩]
  simp

theorem WriteAt_entry28_stale (disk : Disk) (f : OpenFile) (u v : Int)
    (hu : getEntry f.hdr.dataSectors 28 = .ok u) (hu0 : 0 ≤ u) (hu1 : u < 1024)
    (hstale : FileHeader.decode 128 (disk u.toNat) = staleHeader)
    (hv : decodeInt (padTake 4 (padTake 128 (disk 0))) 0 = v) (hv0 : 0 ≤ v) (hv1 : v < 1024)
    (hnb : f.hdr.numBytes = 3588) (from_ : List Byte) :
    OpenFile.WriteAt 128 1024 disk f from_ 4 3584 =
      .ok (4, fun t => if t = v.toNat then
        padTake 128 ((bcopy from_ 0 (bcopy (padTake 4 (padTake 128 (disk v.toNat))) 0
          (List.replicate 128 0) 0 4) 0 4).take 128) else disk t) := by
  unfold OpenFile.WriteAt
  simp only [FileHeader.FileLength, hnb, divRoundDown, Nat.cast_ofNat]
  rw [if_neg (by decide)]
  have h1 : (if (3584 : Int) + 4 > 3588 then (3588 : Int) - 3584 else 4) = 4 := by decide
  have h2 : Int.tdiv 3584 128 = 28 := by decide
  have h3 : Int.tdiv (3584 + 4 - 1) 128 = 28 := by decide
  have h4 : (28 : Int) * 128 = 3584 := by decide
  simp only [h1, h2, h3, h4]
  have h6 : ((3584 : Int) == 3584) = true := by decide
  have h7 : ((3584 : Int) + 4 == (28 + 1) * 128) = false := by decide
  have h8 : ((28 : Int) != 28) = false := by decide
  have h9 : (1 + (28 : Int) - 28).toNat = 1 := by decide
  have h10 : ((28 : Int) - 28).toNat = 0 := by decide
  have h11 : ((3584 : Int) - 3584).toNat = 0 := by decide
  have h12 : (4 : Int).toNat = 4 := by decide
  simp only [h6, h7, h8, h9, h10, h11, h12, Bool.not_true, Bool.not_false, Bool.false_or,
    Bool.and_self, Bool.false_eq_true, if_false, if_true, pure, Except.pure, bind, Except.bind,
    ReadAt_entry28_stale disk f u v hu hu0 hu1 hstale hv hv0 hv1 hnb]
  unfold writeSectors writeSectors
  simp only [Nat.cast_ofNat, h4, ByteToSector_entry28_stale disk f.hdr u hu hu0 hu1 hstale, hv,
    bind, Except.bind, pure, Except.pure, WriteSector]
  rw [if_pos ⟨hv0, by simpa using hv1⟩]
  simp [padTake]

theorem writePointers_entry28_stale (disk : Disk) (h : FileHeader) (u v : Int) (k f : Nat)
    (hu : getEntry h.dataSectors 28 = .ok u) (hu0 : 0 ≤ u) (hu1 : u < 1024)
    (hstale : FileHeader.decode 128 (disk u.toNat) = staleHeader)
    (hv : decodeInt (padTake 4 (padTake 128 (disk 0))) 0 = v) (hv0 : 0 ≤ v) (hv1 : v < 1024)
    (hnb : h.numBytes = 3588) :
    Extend.writePointers 128 1024 1 ⟨List.replicate k true ++ List.replicate (f + 1) false⟩ disk
      ⟨h, 3584⟩ =
      .ok (true, ⟨List.replicate (k + 1) true ++ List.replicate f false⟩,
        (fun t => if t = v.toNat then
          padTake 128 ((bcopy (encodeInt (k : Int)) 0 (bcopy (padTake 4 (padTake 128 (disk v.toNat))) 0
            (List.replicate 128 0) 0 4) 0 4).take 128) else disk t),
        ⟨h, 3584 + 4⟩) := by
  rw [Extend.writePointers]
  simp only [Find_replicate]
  have hne : ((k : Int) == -1) = false := by
    rw [beq_eq_false_iff_ne]
    omega
  simp only [hne, Bool.false_eq_true, if_false, OpenFile.Write, bind, Except.bind,
    WriteAt_entry28_stale disk ⟨h, 3584⟩ u v hu hu0 hu1 hstale hv hv0 hv1 hnb, pure, Except.pure,
    Extend.writePointers]

theorem Extend_ok_after_writePointers (S N : Nat) (freeMap : BitMap) (disk : Disk)
    (h : FileHeader) (newSize : Int) (count : Nat) (freeMap1 freeMap2 freeMap3 freeMap4 : BitMap)
    (ds1 ds2 : List Int) (sector undirected : Int) (fileHdr3 : FileHeader) (disk1 disk2 : Disk)
    (file file2 : OpenFile) (newUndirectedSectors position : Int) (n : Nat)
    (hcount : (min (divRoundUp (wrapInt (h.numBytes + newSize)) S) ((NumDirect S : Int) - 1) -
      h.numSectors).toNat = count)
    (hA : Extend.allocDirect count h.numSectors freeMap h.dataSectors = .ok (true, freeMap1, ds1))
    (hlt : h.numSectors + (count : Int) < divRoundUp (wrapInt (h.numBytes + newSize)) S)
    (hnew : ¬ h.numSectors > (NumDirect S : Int) - 1)
    (hF : freeMap1.Find = (sector, freeMap2))
    (hS : setEntry ds1 ((NumDirect S : Int) - 1) sector = .ok ds2)
    (hne : (sector != -1) = true)
    (hnus : divRoundUp (wrapInt (h.numBytes + newSize)) S - h.numSectors - count = newUndirectedSectors)
    (hE : FileHeader.ExtendUndirectedBlock S freeMap2
      { type := DATA_FILE, numBytes := 0, numSectors := 0,
        dataSectors := List.replicate (NumDirect S) 0 }
      newUndirectedSectors = .ok (true, freeMap3, fileHdr3))
    (hU : getEntry ds2 ((NumDirect S : Int) - 1) = .ok undirected)
    (hW : fileHdr3.WriteBack S N disk undirected = .ok disk1)
    (hO : OpenFile.new S N disk1 undirected = .ok file)
    (hpos : file.Length - newUndirectedSectors * 4 = position)
    (hn : newUndirectedSectors.toNat = n)
    (hP : Extend.writePointers S N n freeMap3 disk1 (file.Seek position) =
      .ok (true, freeMap4, disk2, file2)) :
    h.Extend S N freeMap disk newSize =
      .ok (true, freeMap4, disk2,
        { h with dataSectors := ds2, numBytes := wrapInt (h.numBytes + newSize),
                 numSectors := divRoundUp (wrapInt (h.numBytes + newSize)) S }) := by
  unfold FileHeader.Extend
  simp only [hcount, hA, bind, Except.bind, pure, Except.pure, Bool.not_true, Bool.false_eq_true,
    if_false, hlt, if_true, hnew, hF, hS, hne, hnus, hE, hU, hW, hO, hpos, hn, hP]

theorem readAtWith_3584 (disk : Disk) (bts : Int → Except Fault Int) (v : Int)
    (hb : bts 3584 = .ok v) (hv0 : 0 ≤ v) (hv1 : v < 1024) :
    readAtWith 128 1024 disk bts 3588 4 3584 = .ok (padTake 4 (padTake 128 (disk v.toNat))) := by
  unfold readAtWith
  simp only [divRoundDown, Nat.cast_ofNat]
  rw [if_neg (by decide)]
  have h1 : (1 + Int.tdiv (3584 + (if (3584 : Int) + 4 > 3588 then 3588 - 3584
      else 4) - 1) 128 - Int.tdiv 3584 128).toNat = 1 := by decide
  have h2 : Int.tdiv 3584 128 = 28 := by decide
  have h4 : (if (3584 : Int) + 4 > 3588 then (3588 : Int) - 3584 else 4) = 4 := by decide
  rw [h1, h2, h4]
  unfold readSectors readSectors
  have h3 : (28 : Int) * 128 = 3584 := by decide
  simp only [Nat.cast_ofNat, h3, hb, bind, Except.bind, pure, Except.pure, ReadSector]
  rw [if_pos ⟨hv0, by simpa using hv1⟩]
  simp

/-- `ByteToSector(118272)`, block 924 of a file whose undirected block is in
sector 34, when sector 34 holds `pointerFileHeader` and sector 63, its entry
28, reads as `staleHeader`: the pointer is read in the sector whose number is
in the first four bytes of sector 0. -/
theorem ByteToSector_block924 (disk : Disk) (h : FileHeader) (v : Int)
    (hu : getEntry h.dataSectors 28 = .ok 34)
    (hptr : FileHeader.decode 128 (disk 34) = pointerFileHeader)
    (hstale : FileHeader.decode 128 (disk 63) = staleHeader)
    (hv : decodeInt (padTake 4 (padTake 128 (disk 0))) 0 = v) (hv0 : 0 ≤ v) (hv1 : v < 1024) :
    h.ByteToSector 128 1024 disk 118272 =
      .ok (decodeInt (padTake 4 (padTake 128 (disk v.toNat))) 0) := by
  unfold FileHeader.ByteToSector
  rw [ByteToSector.go]
  have h1 : toU32 (Int.tdiv 118272 ((128 : Nat) : Int)) = 924 := by decide
  have h2 : ¬ (924 < NumDirect 128 - 1) := by decide
  have h3 : ((NumDirect 128 : Nat) : Int) - 1 = 28 := by decide
  simp only [h1, h2, if_false, h3, hu, bind, Except.bind, FileHeader.FetchFrom, ReadSector]
  rw [if_pos (by decide)]
  have e34 : (34 : Int).toNat = 34 := by decide
  simp only [e34, hptr, pure, Except.pure]
  have h5 : ofU32 (4 * (toU32 (118272 - ((128 * (NumDirect 128 - 1) : Nat) : Int)) / 128)) = 3584 := by
    decide
  have h6 : pointerFileHeader.FileLength = 3588 := by decide
  rw [h5, h6]
  have hgo := go_entry28_stale disk 61 pointerFileHeader 63 (by decide) (by decide) (by decide)
    (by simpa using hstale)
  rw [hv] at hgo
  rw [readAtWith_3584 disk _ v hgo hv0 hv1]
  simp [padTake]

/-- `Allocate(118273)` on the formatted disk whose free sector 63 holds stale
bytes returns TRUE and takes the sectors 6 to 960.  On the disk it leaves, the
first four bytes of sector 0 hold the number 960, sector 34 holds the header
of the file of the undirected block, and the sectors 63 and 960 are as they
were. -/
theorem Allocate_on_staleDisk :
    ∃ disk1 : Disk,
      emptyHeader.Allocate 128 1024 (formattedMap 1024) staleDisk 118273 DATA_FILE =
        .ok (true, ⟨List.replicate 961 true ++ List.replicate 63 false⟩, disk1, allocatedHeader) ∧
      decodeInt (padTake 4 (padTake 128 (disk1 0))) 0 = 960 ∧
      FileHeader.decode 128 (disk1 34) = pointerFileHeader ∧
      FileHeader.decode 128 (disk1 63) = staleHeader ∧
      disk1 63 = staleHeader.encode ∧
      disk1 960 = [] := by
  have hds : ∀ q : Nat, q < 28 →
      ∃ s, getEntry pointerFileHeader.dataSectors q = .ok s ∧ 0 ≤ s ∧ s < 1024 := by
    intro q hq
    interval_cases q <;> exact ⟨_, rfl, by decide, by decide⟩
  have hfr : ∀ t : Nat, t = 0 ∨ t = 34 ∨ t = 63 ∨ t = 960 →
      ∀ q : Nat, q < 28 → getEntry pointerFileHeader.dataSectors q ≠ .ok (t : Int) := by
    intro t ht
    rcases ht with rfl | rfl | rfl | rfl <;> decide
  obtain ⟨disk2, hframe, hrec⟩ := writePointers_direct pointerFileHeader hds 896 1 64 960 0
    (fun t => if t = 34 then padTake 128 pointerFileHeader.encode else staleDisk t)
    (by decide) (by decide) (by decide)
  have d0 : disk2 0 = freeMapHeader.encode := by
    rw [hframe 0 (hfr 0 (by simp))]
    rfl
  have d34 : disk2 34 = padTake 128 pointerFileHeader.encode := by
    rw [hframe 34 (hfr 34 (by simp))]
    rfl
  have d63 : disk2 63 = staleHeader.encode := by
    rw [hframe 63 (hfr 63 (by simp))]
    rfl
  have d960 : disk2 960 = [] := by
    rw [hframe 960 (hfr 960 (by simp))]
    rfl
  have hstale : FileHeader.decode 128 (disk2 (63 : Int).toNat) = staleHeader := by
    have e : (63 : Int).toNat = 63 := by decide
    rw [e, d63]
    decide
  have hv : decodeInt (padTake 4 (padTake 128 (disk2 0))) 0 = 0 := by
    rw [d0]
    decide
  have hlast := writePointers_entry28_stale disk2 pointerFileHeader 63 0 (64 + 896) 63 rfl
    (by decide) (by decide) hstale hv (by decide) (by decide) rfl
  have hP := hrec.trans hlast
  obtain ⟨disk3, hd3⟩ : ∃ d : Disk, d = (fun t => if t = (0 : Int).toNat then
      padTake 128 ((bcopy (encodeInt ((64 + 896 : Nat) : Int)) 0
        (bcopy (padTake 4 (padTake 128 (disk2 (0 : Int).toNat))) 0
        (List.replicate 128 0) 0 4) 0 4).take 128) else disk2 t) := ⟨_, rfl⟩
  rw [← hd3] at hP
  have h0 : (0 : Int).toNat = 0 := rfl
  have e0 : decodeInt (padTake 4 (padTake 128 (disk3 0))) 0 = 960 := by
    rw [hd3]
    simp only [h0, if_true, d0]
    decide!
  have e34 : FileHeader.decode 128 (disk3 34) = pointerFileHeader := by
    rw [hd3]
    simp only [h0]
    rw [if_neg (by decide), d34]
    decide!
  have e63 : FileHeader.decode 128 (disk3 63) = staleHeader := by
    rw [hd3]
    simp only [h0]
    rw [if_neg (by decide), d63]
    decide!
  have e960 : disk3 960 = [] := by
    rw [hd3]
    simp only [h0]
    rw [if_neg (by decide), d960]
  have hcount : (min (divRoundUp (wrapInt (emptyHeader.numBytes + 118273)) (128 : Nat))
      (((NumDirect 128 : Nat) : Int) - 1) - emptyHeader.numSectors).toNat = 28 := by decide
  have hA : Extend.allocDirect 28 emptyHeader.numSectors (formattedMap 1024)
      emptyHeader.dataSectors =
      .ok (true, ⟨List.replicate 34 true ++ List.replicate 990 false⟩,
        (List.range 28).map (fun (i : Nat) => (6 : Int) + (i : Int)) ++ [0]) := by decide!
  have hF : BitMap.Find ⟨List.replicate 34 true ++ List.replicate 990 false⟩ =
      ((34 : Int), ⟨List.replicate 35 true ++ List.replicate 989 false⟩) := by decide!
  have hS : setEntry ((List.range 28).map (fun (i : Nat) => (6 : Int) + (i : Int)) ++ [0])
      (((NumDirect 128 : Nat) : Int) - 1) 34 =
      .ok ((List.range 28).map (fun (i : Nat) => (6 : Int) + (i : Int)) ++ [34]) := by decide!
  have hnus : divRoundUp (wrapInt (emptyHeader.numBytes + 118273)) (128 : Nat) - emptyHeader.numSectors -
      ((28 : Nat) : Int) = 897 := by decide
  have hE : FileHeader.ExtendUndirectedBlock 128
      ⟨List.replicate 35 true ++ List.replicate 989 false⟩
      { type := DATA_FILE, numBytes := 0, numSectors := 0,
        dataSectors := List.replicate (NumDirect 128) 0 } 897 =
      .ok (true, ⟨List.replicate 64 true ++ List.replicate 960 false⟩, pointerFileHeader) := by
    decide!
  have hU : getEntry ((List.range 28).map (fun (i : Nat) => (6 : Int) + (i : Int)) ++ [34])
      (((NumDirect 128 : Nat) : Int) - 1) = .ok 34 := by decide!
  have hO : OpenFile.new 128 1024
      (fun t => if t = 34 then padTake 128 pointerFileHeader.encode else staleDisk t) 34 =
      .ok ⟨pointerFileHeader, 0⟩ := by decide!
  have hExt := Extend_ok_after_writePointers 128 1024 (formattedMap 1024) staleDisk emptyHeader
    118273 28 _ _ _ _ _ _ 34 34 pointerFileHeader _ _ ⟨pointerFileHeader, 0⟩ _
    897 0 897 hcount hA (by decide) (by decide) hF hS (by decide) hnus hE hU rfl hO
    (by decide) (by decide) hP
  have e63raw : disk3 63 = staleHeader.encode := by
    rw [hd3]
    simp only [h0]
    rw [if_neg (by decide), d63]
  refine ⟨disk3, ?_, e0, e34, e63, e63raw, e960⟩
  unfold FileHeader.Allocate
  have e : ({ emptyHeader with numBytes := 0, type := DATA_FILE, numSectors := 0 } : FileHeader) =
      emptyHeader := rfl
  rw [e, hExt]
  have e2 : ({ emptyHeader with
      dataSectors := (List.range 28).map (fun (i : Nat) => (6 : Int) + (i : Int)) ++ [34],
      numBytes := wrapInt (emptyHeader.numBytes + 118273),
      numSectors := divRoundUp (wrapInt (emptyHeader.numBytes + 118273)) (128 : Nat) } : FileHeader) =
      allocatedHeader := by decide!
  rw [e2]

/-- C23 (failing input). On the formatted disk whose free sector 63 still
holds the bytes of a removed file, `Allocate(118273)` (925 sectors) returns
TRUE: it takes the sectors 6 to 960, the last one, 960, for block 924.  The
pointer of block 924 belongs at offset 3584 of the file of the undirected
block, in its 29th sector, but `ByteToSector` takes entry 28 of that file for
an undirected block of its own, so the pointer is written into sector 0 and
`ByteToSector(118272)` then returns 0, a sector that was taken before the call
(the header of the free map), and not 960.  Block 0 is found in the direct
entry 0, sector 6. -/
theorem C23_pointer_of_block_924_is_misread :
    ∃ disk1 : Disk,
      emptyHeader.Allocate 128 1024 (formattedMap 1024) staleDisk 118273 DATA_FILE =
        .ok (true, ⟨List.replicate 961 true ++ List.replicate 63 false⟩, disk1, allocatedHeader) ∧
      allocatedHeader.numBytes = 118273 ∧
      allocatedHeader.ByteToSector 128 1024 disk1 118272 = .ok 0 ∧
      (formattedMap 1024).Test 0 = .ok true ∧
      (formattedMap 1024).Test 960 = .ok false ∧
      allocatedHeader.ByteToSector 128 1024 disk1 0 = .ok 6 := by
  obtain ⟨disk3, hAll, e0, e34, e63, -, e960⟩ := Allocate_on_staleDisk
  refine ⟨disk3, hAll, rfl, ?_, by decide!, by decide!, ?_⟩
  · rw [ByteToSector_block924 disk3 allocatedHeader 960 (by decide!) e34 e63 e0 (by decide)
      (by decide)]
    have e : (960 : Int).toNat = 960 := by decide
    rw [e, e960]
    decide
  · have hd := ByteToSector_direct disk3 allocatedHeader 0 (by decide)
    simp only [Nat.cast_zero, zero_mul] at hd
    rw [hd]
    decide!

set_option maxRecDepth 100000 in
/-- C5 (failing input). The file of 100 bytes (one sector, so the invariant
holds) is extended by 2147483647 bytes: the 32-bit sum `numBytes + newSize`
wraps to -2147483549, no sector is taken and `Extend` returns TRUE with
`numBytes = -2147483549`, which is not `100 + 2147483647`, and
`numSectors = -16777215`.  `Extend(2147483547)`, whose sum is still an `int`,
returns FALSE.  Through the user interface: after a `WriteUser` of 100 bytes,
`WriteUser(buffer, 2147483647, 0)` returns 0 and leaves that header on the
disk. -/
theorem C5_Extend_past_INT_MAX_wraps_numBytes :
    smallHeader.numSectors = divRoundUp smallHeader.numBytes 128 ∧
    (smallHeader.Extend 128 1024 ⟨List.replicate 7 true ++ List.replicate 1017 false⟩
        formattedDisk 2147483647).map (fun r => (r.1, r.2.1, r.2.2.2)) =
      .ok (true, ⟨List.replicate 7 true ++ List.replicate 1017 false⟩,
        { smallHeader with numBytes := -2147483549, numSectors := -16777215 }) ∧
    (-2147483549 : Int) ≠ smallHeader.numBytes + 2147483647 ∧
    (smallHeader.Extend 128 1024 ⟨List.replicate 7 true ++ List.replicate 1017 false⟩
        formattedDisk 2147483547).map (fun r => r.1) = .ok false ∧
    writeHugeAfterSmall = .ok (100, 0, -2147483549, -16777215) := by
  decide!

/-- C6 (failing input). On the formatted disk whose free sector 63 still
holds the bytes of a removed file, `Allocate(118273)` returns TRUE and marks
the sectors 6 to 960.  The undirected block then has 3588 bytes, 897 pointers,
but its last pointer, at offset 3584, reads 0: the number 960 of the last
sector taken was not stored in the block (its 29th data sector, sector 63,
still holds the stale bytes) but in the first four bytes of sector 0.  Sector 0
was marked before the call: the pointer stored in the block names a sector
that was not free when the call took its sectors and that already has an
owner, the header of the free map. -/
theorem C6_last_pointer_is_not_in_the_indirect_block :
    ∃ disk1 : Disk,
      emptyHeader.Allocate 128 1024 (formattedMap 1024) staleDisk 118273 DATA_FILE =
        .ok (true, ⟨List.replicate 961 true ++ List.replicate 63 false⟩, disk1, allocatedHeader) ∧
      getEntry allocatedHeader.dataSectors 28 = .ok 34 ∧
      FileHeader.FetchFrom 128 1024 disk1 34 = .ok pointerFileHeader ∧
      getEntry pointerFileHeader.dataSectors 28 = .ok 63 ∧
      OpenFile.ReadAt 128 1024 disk1 ⟨pointerFileHeader, 0⟩ 4 3584 = .ok [0, 0, 0, 0] ∧
      disk1 63 = staleDisk 63 ∧
      decodeInt (padTake 4 (padTake 128 (disk1 63))) 0 = 0 ∧
      decodeInt (padTake 4 (padTake 128 (disk1 0))) 0 = 960 ∧
      decodeInt (padTake 4 (padTake 128 (staleDisk 0))) 0 = 0 ∧
      (formattedMap 1024).Test 0 = .ok true ∧
      (formattedMap 1024).Test 960 = .ok false ∧
      BitMap.Test ⟨List.replicate 961 true ++ List.replicate 63 false⟩ 960 = .ok true := by
  obtain ⟨disk3, hAll, e0, e34, e63, e63raw, e960⟩ := Allocate_on_staleDisk
  refine ⟨disk3, hAll, by decide!, ?_, by decide!, ?_, ?_, ?_, e0, by decide!, by decide!,
    by decide!, by decide!⟩
  · unfold FileHeader.FetchFrom ReadSector
    rw [if_pos (by decide)]
    have e : (34 : Int).toNat = 34 := by decide
    simp only [bind, Except.bind, pure, Except.pure, e, e34]
  · have hb := ByteToSector_entry28_stale disk3 pointerFileHeader 63 (by decide!) (by decide)
      (by decide) (by simpa using e63)
    rw [e0] at hb
    unfold OpenFile.ReadAt
    have h6 : pointerFileHeader.FileLength = 3588 := by decide
    rw [h6, readAtWith_3584 disk3 _ 960 hb (by decide) (by decide)]
    have e : (960 : Int).toNat = 960 := by decide
    rw [e, e960]
    decide
  · rw [e63raw]
    rfl
  · rw [e63raw]
    decide!

end NonOS
